import Mathlib

/-!
# congreso-votaciones: document store and classification pipeline

A shallow embedding of `pkg/store`, `pkg/document`, `pkg/processor` and
`pkg/app`, together with a model of the parts of Go's `strings`,
`path/filepath` and `encoding/json` packages those files call.

Conventions
* A Go string is a `Str`, a list of `Elem`: the characters of its valid UTF-8
  sequences, and its bytes that are part of none (`Elem.bad`). JSON text, which
  the encoder writes and the scanner reads, is a `Text`, a list of characters.
* A Go call that can panic (nil dereference, index out of range) returns
  `Run.panic`; an `error` result is an `Option Err` next to the new state.
* Iteration over a Go map has no fixed order: the order is the order of the
  association list that represents the map, and theorems quantify over it.
-/

namespace Congreso

/-- JSON text, as a character list. -/
abbrev Text := List Char

/-- One element of a Go string as `for range` yields them: a character encoded
by a valid UTF-8 sequence, or a byte that is part of no valid sequence. -/
inductive Elem where
  | rune (c : Char)
  | bad (b : Nat)
  deriving DecidableEq, Repr

/-- Go strings. -/
abbrev Str := List Elem

/-- The replacement character U+FFFD. -/
def replacementChar : Char := Char.ofNat 0xFFFD

/-- The character the JSON package reads an element as: a byte that is not valid
UTF-8 is read as U+FFFD. -/
def Elem.toChar : Elem → Char
  | .rune c => c
  | .bad _ => replacementChar

/-- A Go string coerced to valid UTF-8, as the JSON package reads it. -/
def Str.toText (s : Str) : Text := s.map Elem.toChar

/-- The Go string that holds a text. -/
def Text.toStr (t : Text) : Str := t.map Elem.rune

/-- The newline character as an element of a Go string. -/
def nl : Elem := .rune '\n'

/-- The Go string of a literal. -/
def lit (s : String) : Str := s.toList.map Elem.rune

/-! ## `encoding/json`: values and the scanner -/

/-- JSON values. Numbers keep their literal text, as Go does until a number is stored. -/
inductive Json where
  | null : Json
  | bool (b : Bool) : Json
  | num (raw : Text) : Json
  | str (s : Text) : Json
  | arr (xs : List Json) : Json
  | obj (kvs : List (Text × Json)) : Json

/-- The scanner's `isSpace`. -/
def isSpace (c : Char) : Bool :=
  c == ' ' || c == '\t' || c == '\r' || c == '\n'

/-- Hexadecimal digit value, as in `getu4`. -/
def hexVal (c : Char) : Option Nat :=
  if '0' ≤ c ∧ c ≤ '9' then some (c.toNat - '0'.toNat)
  else if 'a' ≤ c ∧ c ≤ 'f' then some (c.toNat - 'a'.toNat + 10)
  else if 'A' ≤ c ∧ c ≤ 'F' then some (c.toNat - 'A'.toNat + 10)
  else none

/-- Decodes four hexadecimal digits (`getu4`). -/
def getu4 (a b c d : Char) : Option Nat :=
  match hexVal a, hexVal b, hexVal c, hexVal d with
  | some x, some y, some z, some w => some (((x * 16 + y) * 16 + z) * 16 + w)
  | _, _, _, _ => none

/-- Whether a code unit is a UTF-16 surrogate (`utf16.IsSurrogate`). -/
def isSurrogate (n : Nat) : Bool := 0xD800 ≤ n && n < 0xE000

/-- Combines a surrogate pair (`utf16.DecodeRune`); `none` when the pair is not a
high surrogate followed by a low one. -/
def decodeSurrogates (hi lo : Nat) : Option Char :=
  if 0xD800 ≤ hi ∧ hi < 0xDC00 ∧ 0xDC00 ≤ lo ∧ lo < 0xE000 then
    some (Char.ofNat ((hi - 0xD800) * 0x400 + (lo - 0xDC00) + 0x10000))
  else none

/-- The replacement character standing for an unpaired surrogate, if one is pending. -/
def flushSurrogate (pend : Option Nat) : Text :=
  match pend with
  | some _ => [replacementChar]
  | none => []

/-- The body of a JSON string literal (the text between the quotes) with its
escapes resolved, as `unquote` does. `pend` is a surrogate escape just read whose
partner is looked for in the next escape. -/
def unquoteAux : Option Nat → Text → Option Text
  | pend, [] => some (flushSurrogate pend)
  | pend, '\\' :: 'u' :: a :: b :: c :: d :: rest =>
    match getu4 a b c d with
    | none => none
    | some n =>
      match pend.bind (fun hi => decodeSurrogates hi n) with
      | some ch => (unquoteAux none rest).map (ch :: ·)
      | none =>
        if isSurrogate n then (unquoteAux (some n) rest).map (flushSurrogate pend ++ ·)
        else (unquoteAux none rest).map (flushSurrogate pend ++ Char.ofNat n :: ·)
  | pend, '\\' :: e :: rest =>
    let r := unquoteAux none rest
    if e = '"' then r.map (flushSurrogate pend ++ '"' :: ·)
    else if e = '\\' then r.map (flushSurrogate pend ++ '\\' :: ·)
    else if e = '/' then r.map (flushSurrogate pend ++ '/' :: ·)
    else if e = 'b' then r.map (flushSurrogate pend ++ Char.ofNat 8 :: ·)
    else if e = 'f' then r.map (flushSurrogate pend ++ Char.ofNat 12 :: ·)
    else if e = 'n' then r.map (flushSurrogate pend ++ '\n' :: ·)
    else if e = 'r' then r.map (flushSurrogate pend ++ '\r' :: ·)
    else if e = 't' then r.map (flushSurrogate pend ++ '\t' :: ·)
    else none
  | pend, c :: rest =>
    if c = '\\' ∨ c = '"' ∨ c.toNat < 0x20 then none
    else (unquoteAux none rest).map (flushSurrogate pend ++ c :: ·)

/-- Resolves the escapes of a string literal body. -/
def unquote (s : Text) : Option Text := unquoteAux none s

/-- Sub-states of the scanner inside a number literal. -/
inductive NumSt where
  | neg | zero | one | dot | dot0 | e | eSign | e0
  deriving DecidableEq

/-- Sub-states of the scanner inside one of the literals `true`, `false`, `null`
(`stateT`, `stateTr`, ...): the part of the literal read so far. -/
inductive LitSt where
  | t | tr | tru | f | fa | fal | fals | n | nu | nul
  deriving DecidableEq

/-- The character a literal state accepts. -/
def LitSt.expect : LitSt → Char
  | .t => 'r' | .tr => 'u' | .tru => 'e'
  | .f => 'a' | .fa => 'l' | .fal => 's' | .fals => 'e'
  | .n => 'u' | .nu => 'l' | .nul => 'l'

/-- The state after the accepted character, or the value when the literal is complete. -/
def LitSt.next : LitSt → LitSt ⊕ Json
  | .t => .inl .tr | .tr => .inl .tru | .tru => .inr (.bool true)
  | .f => .inl .fa | .fa => .inl .fal | .fal => .inl .fals | .fals => .inr (.bool false)
  | .n => .inl .nu | .nu => .inl .nul | .nul => .inr .null

/-- What the scanner is looking at; string and number states carry the text read
so far, most recent character first. -/
inductive Mode where
  | beginValue | beginValueOrEmpty | beginString | beginStringOrEmpty | endValue
  | endTop (v : Json)
  | inString (raw : Text)
  | inStringEsc (raw : Text)
  | inStringEscU (raw : Text) (k : Nat)
  | lit (l : LitSt)
  | num (st : NumSt) (raw : Text)

/-- One level of the scanner's parse stack, with the part of the enclosing
array or object that is already built (most recent first). -/
inductive Frame where
  | arr (elems : List Json)
  | objKey (kvs : List (Text × Json))
  | objColon (kvs : List (Text × Json)) (key : Text)
  | objVal (kvs : List (Text × Json)) (key : Text)
  | objNext (kvs : List (Text × Json))

/-- Scanner state: the parse stack and the current mode. -/
structure Scan where
  stk : List Frame
  mode : Mode

/-- Result of feeding one character to the scanner. `done` carries the finished
top-level value and whether the character belongs to it. -/
inductive Step where
  | cont (s : Scan)
  | done (v : Json) (consumed : Bool)
  | err

/-- A scalar value `v` has just ended inside the context `stk`. -/
def completeScalar (stk : List Frame) (v : Json) : Step :=
  match stk with
  | [] => .cont ⟨[], .endTop v⟩
  | .arr es :: rest => .cont ⟨.arr (v :: es) :: rest, .endValue⟩
  | .objKey kvs :: rest =>
    match v with
    | .str k => .cont ⟨.objColon kvs k :: rest, .endValue⟩
    | _ => .err
  | .objVal kvs k :: rest => .cont ⟨.objNext ((k, v) :: kvs) :: rest, .endValue⟩
  | _ => .err

/-- An array or object `v` has just been closed; `stk` is the stack below it. At
top level the value is returned at once, without waiting for a further character. -/
def completeComposite (stk : List Frame) (v : Json) : Step :=
  match stk with
  | [] => .done v true
  | _ => completeScalar stk v

/-- The scanner's `stateEndValue`, for a non-empty stack. -/
def stepEndValue (stk : List Frame) (c : Char) : Step :=
  if isSpace c then .cont ⟨stk, .endValue⟩
  else
    match stk with
    | .objColon kvs k :: rest =>
      if c = ':' then .cont ⟨.objVal kvs k :: rest, .beginValue⟩ else .err
    | .objNext kvs :: rest =>
      if c = ',' then .cont ⟨.objKey kvs :: rest, .beginString⟩
      else if c = '}' then completeComposite rest (.obj kvs.reverse)
      else .err
    | .arr es :: rest =>
      if c = ',' then .cont ⟨.arr es :: rest, .beginValue⟩
      else if c = ']' then completeComposite rest (.arr es.reverse)
      else .err
    | _ => .err

/-- The scanner's `stateBeginValue`. -/
def stepBeginValue (stk : List Frame) (c : Char) : Step :=
  if isSpace c then .cont ⟨stk, .beginValue⟩
  else if c = '{' then .cont ⟨.objKey [] :: stk, .beginStringOrEmpty⟩
  else if c = '[' then .cont ⟨.arr [] :: stk, .beginValueOrEmpty⟩
  else if c = '"' then .cont ⟨stk, .inString []⟩
  else if c = '-' then .cont ⟨stk, .num .neg [c]⟩
  else if c = '0' then .cont ⟨stk, .num .zero [c]⟩
  else if c = 't' then .cont ⟨stk, .lit .t⟩
  else if c = 'f' then .cont ⟨stk, .lit .f⟩
  else if c = 'n' then .cont ⟨stk, .lit .n⟩
  else if '1' ≤ c ∧ c ≤ '9' then .cont ⟨stk, .num .one [c]⟩
  else .err

/-- The scanner's `stateBeginString`. -/
def stepBeginString (stk : List Frame) (c : Char) : Step :=
  if isSpace c then .cont ⟨stk, .beginString⟩
  else if c = '"' then .cont ⟨stk, .inString []⟩
  else .err

/-- A number literal has ended before the character `c`: the number is
completed and `c` is handled by `stateEndValue`. -/
def endNumber (stk : List Frame) (raw : Text) (c : Char) : Step :=
  match stk with
  | [] => .done (.num raw.reverse) false
  | _ =>
    match completeScalar stk (.num raw.reverse) with
    | .cont s => stepEndValue s.stk c
    | r => r

/-- Whether `c` is a decimal digit. -/
def isDigit (c : Char) : Bool := decide ('0' ≤ c ∧ c ≤ '9')

/-- The number states of the scanner (`stateNeg`, `state0`, `state1`, ...). -/
def stepNum (stk : List Frame) (st : NumSt) (raw : Text) (c : Char) : Step :=
  match st with
  | .neg =>
    if c = '0' then .cont ⟨stk, .num .zero (c :: raw)⟩
    else if '1' ≤ c ∧ c ≤ '9' then .cont ⟨stk, .num .one (c :: raw)⟩
    else .err
  | .one =>
    if isDigit c then .cont ⟨stk, .num .one (c :: raw)⟩
    else if c = '.' then .cont ⟨stk, .num .dot (c :: raw)⟩
    else if c = 'e' ∨ c = 'E' then .cont ⟨stk, .num .e (c :: raw)⟩
    else endNumber stk raw c
  | .zero =>
    if c = '.' then .cont ⟨stk, .num .dot (c :: raw)⟩
    else if c = 'e' ∨ c = 'E' then .cont ⟨stk, .num .e (c :: raw)⟩
    else endNumber stk raw c
  | .dot =>
    if isDigit c then .cont ⟨stk, .num .dot0 (c :: raw)⟩ else .err
  | .dot0 =>
    if isDigit c then .cont ⟨stk, .num .dot0 (c :: raw)⟩
    else if c = 'e' ∨ c = 'E' then .cont ⟨stk, .num .e (c :: raw)⟩
    else endNumber stk raw c
  | .e =>
    if c = '+' ∨ c = '-' then .cont ⟨stk, .num .eSign (c :: raw)⟩
    else if isDigit c then .cont ⟨stk, .num .e0 (c :: raw)⟩
    else .err
  | .eSign =>
    if isDigit c then .cont ⟨stk, .num .e0 (c :: raw)⟩ else .err
  | .e0 =>
    if isDigit c then .cont ⟨stk, .num .e0 (c :: raw)⟩
    else endNumber stk raw c

/-- One step of the scanner on character `c`. -/
def step (s : Scan) (c : Char) : Step :=
  match s.mode with
  | .beginValue => stepBeginValue s.stk c
  | .beginValueOrEmpty =>
    if isSpace c then .cont s
    else if c = ']' then
      match s.stk with
      | .arr es :: rest => completeComposite rest (.arr es.reverse)
      | _ => .err
    else stepBeginValue s.stk c
  | .beginString => stepBeginString s.stk c
  | .beginStringOrEmpty =>
    if isSpace c then .cont s
    else if c = '}' then
      match s.stk with
      | .objKey kvs :: rest => completeComposite rest (.obj kvs.reverse)
      | _ => .err
    else stepBeginString s.stk c
  | .endValue => stepEndValue s.stk c
  | .endTop v => .done v false
  | .inString raw =>
    if c = '"' then
      match unquote raw.reverse with
      | some str => completeScalar s.stk (.str str)
      | none => .err
    else if c = '\\' then .cont ⟨s.stk, .inStringEsc (c :: raw)⟩
    else if c.toNat < 0x20 then .err
    else .cont ⟨s.stk, .inString (c :: raw)⟩
  | .inStringEsc raw =>
    if c = 'b' ∨ c = 'f' ∨ c = 'n' ∨ c = 'r' ∨ c = 't' ∨ c = '\\' ∨ c = '/' ∨ c = '"' then
      .cont ⟨s.stk, .inString (c :: raw)⟩
    else if c = 'u' then .cont ⟨s.stk, .inStringEscU (c :: raw) 4⟩
    else .err
  | .inStringEscU raw k =>
    if (hexVal c).isSome then
      if k ≤ 1 then .cont ⟨s.stk, .inString (c :: raw)⟩
      else .cont ⟨s.stk, .inStringEscU (c :: raw) (k - 1)⟩
    else .err
  | .lit l =>
    if c = l.expect then
      match l.next with
      | .inl l' => .cont ⟨s.stk, .lit l'⟩
      | .inr v => completeScalar s.stk v
    else .err
  | .num st raw => stepNum s.stk st raw c

/-- Errors of the JSON layer. -/
inductive JsonErr where
  | syntaxErr
  | unexpectedEOF
  | typeErr
  deriving DecidableEq, Repr

/-- Reads the first JSON value of the input, as `Decoder.readValue` does:
scanning stops as soon as the value is complete, and at the end of the input a
space is supplied to let a pending scalar finish. -/
def scanValue : Scan → Text → Except JsonErr Json
  | s, [] =>
    match step s ' ' with
    | .done v _ => .ok v
    | _ => .error .unexpectedEOF
  | s, c :: cs =>
    match step s c with
    | .done v _ => .ok v
    | .err => .error .syntaxErr
    | .cont s' => scanValue s' cs

/-- Reads an input that must be exactly one JSON value surrounded by white space,
as `json.Unmarshal` does (`checkValid`, then the value). -/
def scanWhole : Scan → Text → Except JsonErr Json
  | s, [] =>
    match step s ' ' with
    | .done v _ => .ok v
    | _ => .error .unexpectedEOF
  | s, c :: cs =>
    match step s c with
    | .done v consumed =>
      if (consumed || isSpace c) && cs.all isSpace then .ok v else .error .syntaxErr
    | .err => .error .syntaxErr
    | .cont s' => scanWhole s' cs

/-- The scanner's initial state. -/
def Scan.init : Scan := ⟨[], .beginValue⟩

/-- Decodes the first JSON value of the input (`Decoder.Decode` up to the point
where the value is stored). -/
def decodeValue (input : Text) : Except JsonErr Json := scanValue Scan.init input

/-- Case folding of one character of an object key (`foldName`): ASCII letters go
to upper case, and the two non-ASCII characters whose fold set holds an ASCII
letter (U+017F and U+212A) go to that letter. -/
def foldChar (c : Char) : Char :=
  if 'a' ≤ c ∧ c ≤ 'z' then Char.ofNat (c.toNat - 32)
  else if c = Char.ofNat 0x17F then 'S'
  else if c = Char.ofNat 0x212A then 'K'
  else c

/-- Folded form of an object key. -/
def foldName (k : Text) : Text := k.map foldChar

/-! ## `strings` -/

/-- Go's `strings.Contains`. -/
def contains {α : Type} [DecidableEq α] (sub : List α) : List α → Bool
  | [] => sub.isEmpty
  | c :: cs => sub.isPrefixOf (c :: cs) || contains sub cs

/-- Worker of `split`: `skip` elements of a separator just matched are still
to be dropped, `cur` is the current piece, most recent element first. -/
def splitGo {α : Type} [DecidableEq α] (sep : List α) : Nat → List α → List α → List (List α)
  | _, cur, [] => [cur.reverse]
  | skip + 1, cur, _ :: cs => splitGo sep skip cur cs
  | 0, cur, c :: cs =>
    if sep.isPrefixOf (c :: cs) then cur.reverse :: splitGo sep (sep.length - 1) [] cs
    else splitGo sep 0 (c :: cur) cs

/-- Go's `strings.Split` for a non-empty separator. -/
def split {α : Type} [DecidableEq α] (s sep : List α) : List (List α) := splitGo sep 0 [] s

/-- Worker of `replaceAll`; `skip` as in `splitGo`. -/
def replaceGo {α : Type} [DecidableEq α] (old new : List α) : Nat → List α → List α
  | _, [] => []
  | skip + 1, _ :: cs => replaceGo old new skip cs
  | 0, c :: cs =>
    if old.isPrefixOf (c :: cs) then new ++ replaceGo old new (old.length - 1) cs
    else c :: replaceGo old new 0 cs

/-- Go's `strings.ReplaceAll` for a non-empty `old`. -/
def replaceAll {α : Type} [DecidableEq α] (s old new : List α) : List α := replaceGo old new 0 s

/-! ## Results of running Go code -/

/-- Errors returned by the program. -/
inductive Err where
  | json (e : JsonErr)
  | noContent
  | noCodeBlock
  | noChoices
  | documentNotFound
  | io
  | render
  | oracle
  deriving DecidableEq, Repr

/-- Outcome of a Go call: it returns, or it panics. -/
inductive Run (α : Type) where
  | ret (a : α)
  | panic
  deriving DecidableEq, Repr

/-! ## `pkg/processor`: verdict parsing -/

/-- Mirrors `processor.ClassificationOutput`. -/
structure ClassificationOutput where
  Label : Str
  Similar : Bool
  deriving DecidableEq, Repr

/-- Stores one object member into a `ClassificationOutput`; the flag records a
saved type error (decoding goes on after one). -/
def setClassificationField (acc : ClassificationOutput × Bool) (kv : Text × Json) :
    ClassificationOutput × Bool :=
  if foldName kv.1 = "LABEL".toList then
    match kv.2 with
    | .str v => ({ acc.1 with Label := v.toStr }, acc.2)
    | .null => acc
    | _ => (acc.1, true)
  else if foldName kv.1 = "SIMILAR".toList then
    match kv.2 with
    | .bool b => ({ acc.1 with Similar := b }, acc.2)
    | .null => acc
    | _ => (acc.1, true)
  else acc

/-- Storing a JSON value into a zero `ClassificationOutput` (`decodeState.value`
on a struct). -/
def unmarshalClassification (v : Json) : Except JsonErr ClassificationOutput :=
  match v with
  | .null => .ok ⟨[], false⟩
  | .obj kvs =>
    let r := kvs.foldl setClassificationField (⟨[], false⟩, false)
    if r.2 then .error .typeErr else .ok r.1
  | _ => .error .typeErr

/-- The call `json.NewDecoder(reader).Decode(&output)` on a zero output. -/
def decodeClassification (input : Str) : Except JsonErr ClassificationOutput :=
  (decodeValue input.toText).bind unmarshalClassification

/-- The opening fence looked for by `getClassification`. -/
def fenceJson : Str := lit "```json"

/-- The closing fence. -/
def fence : Str := lit "```"

/-- Mirrors `Processor.getClassification`, applied to the content of the choice. -/
def getClassification (content : Str) : Run (Except Err ClassificationOutput) :=
  if content.length = 0 then .ret (.error .noContent)
  else
    let block : Run (Except Err Str) :=
      if contains fenceJson content then
        let splits := split content fenceJson
        if splits.length = 0 then .ret (.error .noCodeBlock)
        else
          match splits.get? 1 with
          | none => .panic
          | some part =>
            match (split part fence).get? 0 with
            | none => .panic
            | some b => .ret (.ok b)
      else .ret (.ok content)
    match block with
    | .panic => .panic
    | .ret (.error e) => .ret (.error e)
    | .ret (.ok jsonBlock) =>
      match decodeClassification jsonBlock with
      | .error e => .ret (.error (.json e))
      | .ok out => .ret (.ok out)

/-- Two results of `getClassification` agree: the same verdict, or an error in
both cases (and neither call panics). -/
def sameResult (a b : Run (Except Err ClassificationOutput)) : Prop :=
  match a, b with
  | .ret (.ok x), .ret (.ok y) => x = y
  | .ret (.error _), .ret (.error _) => True
  | _, _ => False

/-- An answer body wrapped in a fenced code block:
the opening fence, a newline, the body, a newline, the closing fence. -/
def wrapFenced (j : Str) : Str := fenceJson ++ [nl] ++ j ++ [nl] ++ fence

/-- The answer body with the verdict "similar". -/
def similarTrueBody : Str := lit "\x7b\"similar\": true\x7d"

/-! ## `pkg/document` and the store's data -/

/-- Mirrors `document.Document`. `ImagePaths` is `none` for a nil slice. `DocType`
is the field `Type` (a `types.DocumentType`, which is a string). -/
structure Document where
  ID : Str
  SourceURL : Str
  ImagePaths : Option (List Str)
  PDFPath : Str
  JSONPath : Str
  DocType : Str
  deriving DecidableEq, Repr

/-- The zero `Document`. -/
def Document.zero : Document := ⟨[], [], none, [], [], []⟩

/-- A Go `map[string]*document.Document` as an association list with distinct
keys; a value `none` is a nil pointer. -/
abbrev DocMap := List (Str × Option Document)

/-- Map lookup `m[k]`, with the `ok` flag as the outer option. -/
def mapGet : DocMap → Str → Option (Option Document)
  | [], _ => none
  | (k', v) :: rest, k => if k' = k then some v else mapGet rest k

/-- Map assignment `m[k] = v`. -/
def mapSet : DocMap → Str → Option Document → DocMap
  | [], k, v => [(k, v)]
  | (k', v') :: rest, k, v =>
    if k' = k then (k, v) :: rest else (k', v') :: mapSet rest k v

/-- Mirrors `store.Data`; `Documents` is `none` for a nil map. -/
structure Data where
  Documents : Option DocMap
  deriving DecidableEq, Repr

/-! ## `encoding/json`: encoding the store's data -/

/-- Lower-case hexadecimal digit. -/
def hexDigit (n : Nat) : Char :=
  if n < 10 then Char.ofNat (48 + n) else Char.ofNat (87 + n)

/-- The encoding of one character inside a string literal (`appendString` with
HTML escaping, the default of `json.Marshal`). -/
def quoteChar (c : Char) : Text :=
  if c = '"' ∨ c = '\\' then ['\\', c]
  else if c = Char.ofNat 8 then ['\\', 'b']
  else if c = Char.ofNat 12 then ['\\', 'f']
  else if c = '\n' then ['\\', 'n']
  else if c = '\r' then ['\\', 'r']
  else if c = '\t' then ['\\', 't']
  else if c.toNat < 0x20 ∨ c = '<' ∨ c = '>' ∨ c = '&' then
    ['\\', 'u', '0', '0', hexDigit (c.toNat / 16), hexDigit (c.toNat % 16)]
  else if c = Char.ofNat 0x2028 then ['\\', 'u', '2', '0', '2', '8']
  else if c = Char.ofNat 0x2029 then ['\\', 'u', '2', '0', '2', '9']
  else [c]

/-- The encoding of one element of a Go string: a byte that is not valid UTF-8
is written as the escape of U+FFFD. -/
def quoteElem : Elem → Text
  | .rune c => quoteChar c
  | .bad _ => ['\\', 'u', 'f', 'f', 'f', 'd']

/-- The escaped body of a string literal. -/
def quoteBody : Str → Text
  | [] => []
  | e :: es => quoteElem e ++ quoteBody es

/-- A JSON string literal. -/
def quote (s : Str) : Text := '"' :: (quoteBody s ++ ['"'])

/-- Items separated by commas. -/
def joinComma : List Text → Text
  | [] => []
  | [x] => x
  | x :: y :: rest => x ++ ',' :: joinComma (y :: rest)

/-- Encoding of a `[]string`. -/
def marshalStrings : Option (List Str) → Text
  | none => "null".toList
  | some xs => '[' :: (joinComma (xs.map quote) ++ [']'])

/-- Encoding of a `Document`, fields in declaration order under their JSON names. -/
def marshalDocument (d : Document) : Text :=
  "\x7b\"id\":".toList ++ quote d.ID ++
  ",\"source_url\":".toList ++ quote d.SourceURL ++
  ",\"image_paths\":".toList ++ marshalStrings d.ImagePaths ++
  ",\"pdf_path\":".toList ++ quote d.PDFPath ++
  ",\"json_path\":".toList ++ quote d.JSONPath ++
  ",\"type\":".toList ++ quote d.DocType ++ ['}']

/-- Encoding of a `*Document`. -/
def marshalDocPtr : Option Document → Text
  | none => "null".toList
  | some d => marshalDocument d

/-- The UTF-8 encoding of a character. -/
def utf8Bytes (c : Char) : List Nat :=
  let n := c.toNat
  if n < 0x80 then [n]
  else if n < 0x800 then [0xC0 + n / 64, 0x80 + n % 64]
  else if n < 0x10000 then [0xE0 + n / 4096, 0x80 + n / 64 % 64, 0x80 + n % 64]
  else [0xF0 + n / 262144, 0x80 + n / 4096 % 64, 0x80 + n / 64 % 64, 0x80 + n % 64]

/-- The bytes of an element of a Go string. -/
def Elem.bytes : Elem → List Nat
  | .rune c => utf8Bytes c
  | .bad b => [b]

/-- The bytes of a Go string. -/
def Str.bytes : Str → List Nat
  | [] => []
  | e :: es => e.bytes ++ Str.bytes es

/-- Lexicographic order of byte sequences. -/
def bytesLe : List Nat → List Nat → Bool
  | [], _ => true
  | _ :: _, [] => false
  | a :: as, b :: bs =>
    if a < b then true
    else if b < a then false
    else bytesLe as bs

/-- Byte-wise order of strings, by which the encoder sorts map keys. -/
def strLe (a b : Str) : Bool := bytesLe a.bytes b.bytes

/-- Order of map entries by key. -/
def keyLe (a b : Str × Option Document) : Prop := strLe a.1 b.1 = true

instance : DecidableRel keyLe := fun a b => inferInstanceAs (Decidable (strLe a.1 b.1 = true))

/-- The entries of a map in the order the encoder writes them. -/
def sortKeys (m : DocMap) : DocMap := m.insertionSort keyLe

/-- Encoding of one map entry. -/
def marshalEntry (e : Str × Option Document) : Text := quote e.1 ++ ':' :: marshalDocPtr e.2

/-- Encoding of the documents map. -/
def marshalMap : Option DocMap → Text
  | none => "null".toList
  | some m => '{' :: (joinComma ((sortKeys m).map marshalEntry) ++ ['}'])

/-- Encoding of `Data`. -/
def marshalData (d : Data) : Text :=
  "\x7b\"documents\":".toList ++ marshalMap d.Documents ++ ['}']

/-- The call `json.Marshal(s.data)` on a `*Data`. -/
def marshalDataPtr : Option Data → Text
  | none => "null".toList
  | some d => marshalData d

/-! ## `encoding/json`: decoding the store's data

A type mismatch is recorded by the decoder and returned at the end; whatever
else is decoded, the call then fails. Here a mismatch gives `none` at once. -/

/-- Storing a JSON value into a string field: `null` leaves the field as it is. -/
def setString (old : Str) (v : Json) : Option Str :=
  match v with
  | .str s => some s.toStr
  | .null => some old
  | _ => none

/-- Storing the elements of a JSON array into a `[]string`; a `null` element keeps
what the slice held at that index (the zero string beyond its length). -/
def storeStrings : List Str → List Json → Option (List Str)
  | _, [] => some []
  | old, x :: xs =>
    match setString (old.headD []) x with
    | none => none
    | some s => (storeStrings old.tail xs).map (s :: ·)

/-- Storing a JSON value into a `[]string` field. -/
def setStrings (old : Option (List Str)) (v : Json) : Option (Option (List Str)) :=
  match v with
  | .null => some none
  | .arr xs => (storeStrings (old.getD []) xs).map some
  | _ => none

/-- Storing one object member into a `Document`. -/
def setDocumentField (d : Document) (kv : Text × Json) : Option Document :=
  if foldName kv.1 = "ID".toList then
    (setString d.ID kv.2).map fun s => { d with ID := s }
  else if foldName kv.1 = "SOURCE_URL".toList then
    (setString d.SourceURL kv.2).map fun s => { d with SourceURL := s }
  else if foldName kv.1 = "IMAGE_PATHS".toList then
    (setStrings d.ImagePaths kv.2).map fun s => { d with ImagePaths := s }
  else if foldName kv.1 = "PDF_PATH".toList then
    (setString d.PDFPath kv.2).map fun s => { d with PDFPath := s }
  else if foldName kv.1 = "JSON_PATH".toList then
    (setString d.JSONPath kv.2).map fun s => { d with JSONPath := s }
  else if foldName kv.1 = "TYPE".toList then
    (setString d.DocType kv.2).map fun s => { d with DocType := s }
  else some d

/-- Storing the members of an object, in order. -/
def storeFields {α : Type} (f : α → Text × Json → Option α) :
    α → List (Text × Json) → Option α
  | a, [] => some a
  | a, kv :: kvs =>
    match f a kv with
    | none => none
    | some a' => storeFields f a' kvs

/-- Storing a JSON value into a fresh `*Document` (a map element). -/
def unmarshalDocPtr (v : Json) : Option (Option Document) :=
  match v with
  | .null => some none
  | .obj kvs => (storeFields setDocumentField Document.zero kvs).map some
  | _ => none

/-- Storing one member of the documents object into the map. -/
def setMapEntry (m : DocMap) (kv : Text × Json) : Option DocMap :=
  (unmarshalDocPtr kv.2).map (mapSet m kv.1.toStr)

/-- Storing one object member into `Data`. -/
def setDataField (d : Data) (kv : Text × Json) : Option Data :=
  if foldName kv.1 = "DOCUMENTS".toList then
    match kv.2 with
    | .null => some ⟨none⟩
    | .obj es => (storeFields setMapEntry (d.Documents.getD []) es).map fun m => ⟨some m⟩
    | _ => none
  else some d

/-- Storing a JSON value into a zero `Data`. -/
def unmarshalData (v : Json) : Option Data :=
  match v with
  | .null => some ⟨none⟩
  | .obj kvs => storeFields setDataField ⟨none⟩ kvs
  | _ => none

/-- The call `json.Unmarshal(rawData, &storeData)` on a zero `Data`. -/
def decodeData (raw : Str) : Except JsonErr Data :=
  match scanWhole Scan.init raw.toText with
  | .error e => .error e
  | .ok v =>
    match unmarshalData v with
    | none => .error .typeErr
    | some d => .ok d

/-! ## `pkg/store` -/

/-- The file at `cfg.StorePath`: its content (`none` when it does not exist) and
whether reads and writes of it succeed. -/
structure Disk where
  content : Option Str
  canRead : Bool
  canWrite : Bool
  deriving DecidableEq, Repr

/-- The call `os.WriteFile(cfg.StorePath, data, 0755)`; `none` on failure. -/
def Disk.writeFile (d : Disk) (data : Str) : Option Disk :=
  if d.canWrite then some { d with content := some data } else none

/-- The call `os.ReadFile(cfg.StorePath)`; `none` on failure. -/
def Disk.readFile (d : Disk) : Option Str :=
  if d.canRead then d.content else none

/-- Mirrors `store.Store`: `data` is `none` (a nil pointer) until `Init` succeeds. -/
structure Store where
  data : Option Data
  deriving DecidableEq, Repr

/-- Mirrors `store.New`. -/
def Store.new : Store := ⟨none⟩

/-- Mirrors `Store.Init`; returns the error, the store and the disk. -/
def Store.Init (s : Store) (disk : Disk) : Option Err × Store × Disk :=
  let created : Option Disk :=
    if disk.content.isNone then disk.writeFile (lit "{}") else some disk
  match created with
  | none => (some .io, s, disk)
  | some disk1 =>
    match disk1.readFile with
    | none => (some .io, s, disk1)
    | some rawData =>
      match decodeData rawData with
      | .error e => (some (.json e), s, disk1)
      | .ok storeData => (none, ⟨some storeData⟩, disk1)

/-- Mirrors `Store.save`. -/
def Store.save (s : Store) (disk : Disk) : Option Err × Disk :=
  match disk.writeFile (marshalDataPtr s.data).toStr with
  | none => (some .io, disk)
  | some disk' => (none, disk')

/-- Mirrors `Store.AppendDocument`. -/
def Store.AppendDocument (s : Store) (disk : Disk) (id : Str) (d : Option Document) :
    Run (Option Err × Store × Disk) :=
  match s.data with
  | none => .panic
  | some data =>
    let docs : DocMap := match data.Documents with
      | none => []
      | some m => m
    let s' : Store := ⟨some ⟨some (mapSet docs id d)⟩⟩
    match s'.save disk with
    | (some err, disk') => .ret (some err, s', disk')
    | (none, disk') => .ret (none, s', disk')

/-- Mirrors `Store.RetrieveDocument`; `none` is a nil pointer. -/
def Store.RetrieveDocument (s : Store) (id : Str) : Run (Option Document) :=
  match s.data with
  | none => .panic
  | some data =>
    match mapGet (data.Documents.getD []) id with
    | some doc => .ret doc
    | none => .ret none

/-- Mirrors `Store.RetrieveDocuments`; the order is the map's iteration order. -/
def Store.RetrieveDocuments (s : Store) : Run (List (Option Document)) :=
  match s.data with
  | none => .panic
  | some data => .ret ((data.Documents.getD []).map (·.2))

/-- Mirrors `Store.GetDocumentCount`. -/
def Store.GetDocumentCount (s : Store) : Run Nat :=
  match s.data with
  | none => .panic
  | some data => .ret (data.Documents.getD []).length

/-- Mirrors `Store.UpdateDocumentType`. The record is changed through the stored
pointer, that is, in place under its key. -/
def Store.UpdateDocumentType (s : Store) (disk : Disk) (id : Str) (docType : Str) :
    Run (Option Err × Store × Disk) :=
  match s.data with
  | none => .panic
  | some data =>
    match mapGet (data.Documents.getD []) id with
    | none => .ret (some .documentNotFound, s, disk)
    | some none => .panic
    | some (some doc) =>
      let s' : Store :=
        ⟨some ⟨some (mapSet (data.Documents.getD []) id (some { doc with DocType := docType }))⟩⟩
      match s'.save disk with
      | (some err, disk') => .ret (some err, s', disk')
      | (none, disk') => .ret (none, s', disk')

/-! ## The JSON values the encoder's output stands for -/

/-- Feeding the text `t` takes the scanner of `json.Unmarshal` from `s` to `s'`. -/
def Feeds (s : Scan) (t : Text) (s' : Scan) : Prop :=
  ∀ rest, scanWhole s (t ++ rest) = scanWhole s' rest

/-- The JSON value of a `[]string`. -/
def stringsJson : Option (List Str) → Json
  | none => .null
  | some xs => .arr (xs.map fun x => .str x.toText)

/-- The JSON value of a `Document`. -/
def documentJson (d : Document) : Json :=
  .obj [("id".toList, .str d.ID.toText), ("source_url".toList, .str d.SourceURL.toText),
    ("image_paths".toList, stringsJson d.ImagePaths), ("pdf_path".toList, .str d.PDFPath.toText),
    ("json_path".toList, .str d.JSONPath.toText), ("type".toList, .str d.DocType.toText)]

/-- The JSON value of a `*Document`. -/
def docPtrJson : Option Document → Json
  | none => .null
  | some d => documentJson d

/-- The JSON value of the documents map. -/
def mapJson : Option DocMap → Json
  | none => .null
  | some m => .obj ((sortKeys m).map fun e => (e.1.toText, docPtrJson e.2))

/-- The JSON value of `Data`. -/
def dataJson (d : Data) : Json := .obj [("documents".toList, mapJson d.Documents)]

/-- Items each preceded by a comma: what follows the first item in `joinComma`. -/
def commaItems : List Text → Text
  | [] => []
  | y :: ys => ',' :: (y ++ commaItems ys)

/-- An object member: its key as a Go string, the JSON value of its value, and
the value's text. -/
abbrev Member := Str × Json × Text

/-- The text of an object member. -/
def memberText (m : Member) : Text := quote m.1 ++ ':' :: m.2.2

/-- The key and value of an object member. -/
def memberKV (m : Member) : Text × Json := (m.1.toText, m.2.1)

/-- The text of a member's value scans to its JSON value, in any object. -/
def MemberOk (m : Member) : Prop :=
  ∀ (kvs : List (Text × Json)) (stk : List Frame),
    Feeds ⟨.objVal kvs m.1.toText :: stk, .beginValue⟩ m.2.2
      ⟨.objNext ((m.1.toText, m.2.1) :: kvs) :: stk, .endValue⟩

/-- The members of the object a `Document` is encoded as. -/
def documentMembers (d : Document) : List Member :=
  [(lit "id", .str d.ID.toText, quote d.ID),
   (lit "source_url", .str d.SourceURL.toText, quote d.SourceURL),
   (lit "image_paths", stringsJson d.ImagePaths, marshalStrings d.ImagePaths),
   (lit "pdf_path", .str d.PDFPath.toText, quote d.PDFPath),
   (lit "json_path", .str d.JSONPath.toText, quote d.JSONPath),
   (lit "type", .str d.DocType.toText, quote d.DocType)]

/-- The member of the documents object for one map entry. -/
def entryMember (e : Str × Option Document) : Member :=
  (e.1, docPtrJson e.2, marshalDocPtr e.2)

/-- The keys of an association list that represents a Go map are distinct. -/
def KeysNodup (m : DocMap) : Prop := (m.map (·.1)).Nodup

/-- A Go string is valid UTF-8. -/
def Str.Valid (s : Str) : Prop := s.toText.toStr = s

/-- Every string of a record is valid UTF-8. -/
def Document.Valid (d : Document) : Prop :=
  d.ID.Valid ∧ d.SourceURL.Valid ∧ (∀ ps, d.ImagePaths = some ps → ∀ p ∈ ps, Str.Valid p) ∧
    d.PDFPath.Valid ∧ d.JSONPath.Valid ∧ d.DocType.Valid

/-- A stored pointer is nil or points to a record with valid strings. -/
def DocPtrValid (v : Option Document) : Prop := ∀ d, v = some d → d.Valid

/-- Every key and every record of a map is valid UTF-8. -/
def MapValid (m : DocMap) : Prop := ∀ e ∈ m, Str.Valid e.1 ∧ DocPtrValid e.2

/-- Every string the store holds is valid UTF-8. -/
def Store.Valid (s : Store) : Prop :=
  ∀ data m, s.data = some data → data.Documents = some m → MapValid m

/-- The representation invariant of the store: its map, if any, has distinct keys. -/
def Store.WF (s : Store) : Prop :=
  ∀ data m, s.data = some data → data.Documents = some m → KeysNodup m

/-! ## Concrete inputs used in witnesses and counterexamples -/

/-- A two-page document record, as `loadDocuments` builds it. -/
def exampleDoc : Document :=
  { ID := (lit "a.pdf"), SourceURL := (lit "pdf/a.pdf"),
    ImagePaths := some [(lit "img/a_0.png"), (lit "img/a_1.png")],
    PDFPath := (lit "pdf/a.pdf"), JSONPath := [], DocType := [] }

/-- The store right after `Init` created the snapshot file. -/
def emptyStore : Store := ⟨some ⟨none⟩⟩

/-- A readable and writable snapshot file holding `{}`. -/
def emptyDisk : Disk := ⟨some (lit "{}"), true, true⟩

/-- An identifier that is not valid UTF-8: the byte 0xFF followed by `.pdf`. -/
def badId : Str := Elem.bad 255 :: lit ".pdf"

/-- A record with the identifier `badId`. -/
def badDoc : Document := { exampleDoc with ID := badId }

/-- The store holding `exampleDoc` under its identifier. -/
def exampleStore : Store := ⟨some ⟨some [((lit "a.pdf"), some exampleDoc)]⟩⟩

/-! ## `internal/pkg/openai`: requests and responses -/

/-- Mirrors `openai.ContentItem`: a text item or an image given by its URL. -/
inductive ContentItem where
  | text (t : Str)
  | imageURL (url : Str)
  deriving DecidableEq, Repr

/-- Mirrors `openai.Message`. -/
structure Message where
  Role : Str
  Content : List ContentItem
  deriving DecidableEq, Repr

/-- Mirrors `openai.CompletionRequest`, without the response format, which the
processor leaves unset. -/
structure CompletionRequest where
  Model : Str
  Messages : List Message
  MaxTokens : Nat
  deriving DecidableEq, Repr

/-- Mirrors `openai.CompletionResponse`: the message content of each choice. -/
structure CompletionResponse where
  Choices : List Str
  deriving DecidableEq, Repr

/-- The oracle: `OAIClient.Completion` as seen by its caller. -/
abbrev Oracle := CompletionRequest → Except Err CompletionResponse

/-! ## `pkg/document`: encoding the first page -/

/-- What the processor reads from the file system: `os.ReadFile` on an image path
(`none` when it fails) and the base64 encoding of the bytes read. -/
structure Env where
  readFile : Str → Option Str
  base64 : Str → Str

/-- Mirrors `Document.ImageAsBase64`. Indexing `d.ImagePaths[0]` panics when the
slice is empty. -/
def Document.ImageAsBase64 (d : Document) (env : Env) : Run (Except Err Str) :=
  match d.ImagePaths.getD [] with
  | [] => .panic
  | image :: _ =>
    match env.readFile image with
    | none => .ret (.error .io)
    | some imageData => .ret (.ok (env.base64 imageData))

/-! ## `pkg/processor`: classification -/

/-- The instruction sent with every comparison. -/
def classifyPrompt : Str :=
  lit ("\nAnalyze the layout and format of the two images.\n" ++
   "If the images are highly similar, return a JSON object with the following structure:\n" ++
   "\x7b\"simiar\": true\x7d\n" ++
   "If the images are not similar return:\n" ++
   "\x7b\"similar\": false\x7d\n" ++
   "Don\x27t return any more output than JSON.\n")

/-- The prefix of a PNG data URL. -/
def dataURLPrefix : Str := (lit "data:image/png;base64,")

/-- The completion request `classifyDocument` builds for one comparison. -/
def comparisonRequest (docImage sampleImageB64 : Str) : CompletionRequest :=
  { Model := [],
    MaxTokens := 3000,
    Messages := [{ Role := (lit "user"),
                   Content := [.text classifyPrompt,
                               .imageURL (dataURLPrefix ++ docImage),
                               .imageURL (dataURLPrefix ++ sampleImageB64)] }] }

/-- The sample registry `Processor.samples`, in the order the `range` loop of
`classifyDocument` visits it. -/
abbrev Samples := List (Str × List Document)

/-- Result of `classifyDocument`, with the oracle calls it issued, in order. -/
structure Classified where
  result : Run (Except Err (Option ClassificationOutput))
  calls : List CompletionRequest

/-- The value bound by `sampleImageB64, _ := sample.ImageAsBase64()`: the error
is discarded, and on an error the string returned with it is empty. -/
def discardErr (enc : Except Err Str) : Str :=
  match enc with
  | .ok b => b
  | .error _ => []

/-- The `range p.samples` loop of `classifyDocument`. -/
def classifyLoop (env : Env) (oracle : Oracle) (docImage : Str) : Samples → Classified
  | [] => ⟨.ret (.ok none), []⟩
  | (label, samples) :: rest =>
    match samples with
    | [] => ⟨.panic, []⟩
    | sample :: _ =>
      match sample.ImageAsBase64 env with
      | .panic => ⟨.panic, []⟩
      | .ret enc =>
        let sampleImageB64 : Str := discardErr enc
        let completionRequest := comparisonRequest docImage sampleImageB64
        match oracle completionRequest with
        | .error err => ⟨.ret (.error err), [completionRequest]⟩
        | .ok res =>
          match res.Choices with
          | [] => ⟨.ret (.error .noChoices), [completionRequest]⟩
          | choice :: _ =>
            match getClassification choice with
            | .panic => ⟨.panic, [completionRequest]⟩
            | .ret (.error err) => ⟨.ret (.error err), [completionRequest]⟩
            | .ret (.ok classification) =>
              if classification.Similar then
                ⟨.ret (.ok (some { classification with Label := label })), [completionRequest]⟩
              else
                let r := classifyLoop env oracle docImage rest
                ⟨r.result, completionRequest :: r.calls⟩

/-- Mirrors `Processor.classifyDocument`. -/
def classifyDocument (env : Env) (oracle : Oracle) (samples : Samples) (d : Document) :
    Classified :=
  match d.ImageAsBase64 env with
  | .panic => ⟨.panic, []⟩
  | .ret (.error err) => ⟨.ret (.error err), []⟩
  | .ret (.ok docImage) => classifyLoop env oracle docImage samples

/-- The request that compares the document image with the first sample of a
registry entry; `none` when the entry has no sample or the sample has no image path. -/
def sampleRequest (env : Env) (docImage : Str) (entry : Str × List Document) :
    Option CompletionRequest :=
  match entry.2 with
  | [] => none
  | sample :: _ =>
    match sample.ImageAsBase64 env with
    | .panic => none
    | .ret enc => some (comparisonRequest docImage (discardErr enc))

/-- The well-formed verdict in the oracle's answer to a request, if there is one:
the first choice of a successful completion, parsed. -/
def answer (oracle : Oracle) (req : CompletionRequest) : Option ClassificationOutput :=
  match oracle req with
  | .error _ => none
  | .ok res =>
    match res.Choices with
    | [] => none
    | choice :: _ =>
      match getClassification choice with
      | .ret (.ok c) => some c
      | _ => none

/-- The oracle's verdict on a registry entry. -/
def verdict (env : Env) (oracle : Oracle) (docImage : Str) (entry : Str × List Document) :
    Option ClassificationOutput :=
  (sampleRequest env docImage entry).bind (answer oracle)

/-- A file system in which every image path reads as its own name, with the
identity as encoding. -/
def exampleEnv : Env := ⟨fun p => some p, fun b => b⟩

/-- A sample of label `a`. -/
def sampleA : Document :=
  { Document.zero with SourceURL := (lit "samples/a.pdf"), PDFPath := (lit "samples/a.pdf"),
                       ImagePaths := some [(lit "img/sa.png")], DocType := (lit "a") }

/-- A sample of label `b`. -/
def sampleB : Document :=
  { Document.zero with SourceURL := (lit "samples/b.pdf"), PDFPath := (lit "samples/b.pdf"),
                       ImagePaths := some [(lit "img/sb.png")], DocType := (lit "b") }

/-- The answer body with the verdict "not similar". -/
def similarFalseBody : Str := (lit "\x7b\"similar\": false\x7d")

/-- The URL of the second image of a comparison request. -/
def secondImage (req : CompletionRequest) : Str :=
  match req.Messages with
  | [m] =>
    match m.Content with
    | [_, _, .imageURL u] => u
    | _ => []
  | _ => []

/-- An oracle that reports "similar" only for the sample image of label `b`. -/
def oracleOnlyB : Oracle := fun req =>
  if secondImage req = dataURLPrefix ++ (lit "img/sb.png") then .ok ⟨[similarTrueBody]⟩
  else .ok ⟨[similarFalseBody]⟩

/-- An oracle that reports "not similar" for every comparison. -/
def oracleNone : Oracle := fun _ => .ok ⟨[similarFalseBody]⟩

/-! ## `path/filepath` (Unix) -/

/-- Worker of `ext`: the text after the last dot of the final element, most
recent character first in `acc`, scanning the reversed path. -/
def extGo : Str → Str → Str
  | [], _ => []
  | c :: cs, acc =>
    if c = Elem.rune '/' then []
    else if c = Elem.rune '.' then c :: acc
    else extGo cs (c :: acc)

/-- Go's `filepath.Ext`: the suffix beginning at the final dot in the final
element of the path; empty if there is no dot. -/
def ext (path : Str) : Str := extGo path.reverse []

/-- The path without its trailing slashes, reversed. -/
def dropSlashes : Str → Str
  | [] => []
  | c :: cs => if c = Elem.rune '/' then dropSlashes cs else c :: cs

/-- The characters up to the first slash. -/
def untilSlash : Str → Str
  | [] => []
  | c :: cs => if c = Elem.rune '/' then [] else c :: untilSlash cs

/-- Go's `filepath.Base`: the last element of the path. -/
def base (path : Str) : Str :=
  if path = [] then [Elem.rune '.']
  else
    let r := dropSlashes path.reverse
    if r = [] then [Elem.rune '/'] else (untilSlash r).reverse

/-- The elements of a path between slashes; `cur` is the current element, most
recent character first. -/
def splitSlashGo : Str → Str → List Str
  | [], cur => [cur.reverse]
  | c :: cs, cur => if c = Elem.rune '/' then cur.reverse :: splitSlashGo cs [] else splitSlashGo cs (c :: cur)

/-- The elements of a path between slashes. -/
def splitSlash (path : Str) : List Str := splitSlashGo path []

/-- The element loop of `filepath.Clean`: `stk` holds the elements kept so far,
last one first. Empty and `.` elements are dropped; `..` removes the last kept
element when there is one to remove, is dropped at the root, and is kept otherwise. -/
def cleanStack (rooted : Bool) : List Str → List Str → List Str
  | [], stk => stk
  | e :: es, stk =>
    if e = [] ∨ e = [Elem.rune '.'] then cleanStack rooted es stk
    else if e = [Elem.rune '.', Elem.rune '.'] then
      match stk with
      | [] => if rooted then cleanStack rooted es [] else cleanStack rooted es [e]
      | top :: below =>
        if top = [Elem.rune '.', Elem.rune '.'] then cleanStack rooted es (e :: stk)
        else cleanStack rooted es below
    else cleanStack rooted es (e :: stk)

/-- Elements joined by slashes. -/
def joinSlash : List Str → Str
  | [] => []
  | [x] => x
  | x :: y :: rest => x ++ Elem.rune '/' :: joinSlash (y :: rest)

/-- Go's `filepath.Clean`. -/
def clean (path : Str) : Str :=
  match path with
  | [] => [Elem.rune '.']
  | c :: _ =>
    let rooted := decide (c = Elem.rune '/')
    let body := joinSlash (cleanStack rooted (splitSlash path) []).reverse
    if rooted then Elem.rune '/' :: body
    else if body = [] then [Elem.rune '.'] else body

/-- Go's `filepath.Join` of two elements. -/
def joinPath (a b : Str) : Str :=
  if a = [] then (if b = [] then [] else clean b)
  else clean (a ++ Elem.rune '/' :: b)

/-! ## `pkg/config`, `pkg/app` and `main` -/

/-- Mirrors `config.Config`; `SampleData` in the iteration order of the map. -/
structure Config where
  PDFPath : Str
  ImagePath : Str
  JSONPath : Str
  StorePath : Str
  SamplesPath : Str
  SampleData : List (Str × List Str)
  Token : Str
  deriving DecidableEq, Repr

/-- The default path constants of package `app`, which `app.go` uses and another
file of the package declares. -/
structure Defaults where
  defaultPDFPath : Str
  defaultImagePath : Str
  defaultJSONPath : Str
  defaultStorePath : Str
  defaultSamplePath : Str

/-- The operating system calls of `App.Init`: `os.Getwd` (`none` on failure) and
whether `os.MkdirAll` succeeds on a directory. -/
structure Os where
  getwd : Option Str
  mkdirAll : Str → Bool

/-- Mirrors `app.App`: the configuration, the store (`none` until `Init` creates
it) and whether the processor has been created. -/
structure App where
  cfg : Config
  store : Option Store
  processor : Bool
  deriving DecidableEq, Repr

/-- Mirrors `app.New`. -/
def App.new (cfg : Config) : App := ⟨cfg, none, false⟩

/-- A path of the configuration, or its default under the working directory. -/
def orDefault (p cwd dflt : Str) : Str := if p = [] then joinPath cwd dflt else p

/-- Mirrors `App.Init`. The statement `if a.store.Init(); err != nil` runs
`Store.Init` as the `if`'s init statement without binding its result; the
condition tests `err`, the variable bound by `cwd, err := os.Getwd()`, which is
nil at that point. -/
def App.Init (a : App) (os : Os) (dflt : Defaults) (disk : Disk) : Option Err × App × Disk :=
  match os.getwd with
  | none => (some .io, a, disk)
  | some cwd =>
    let err : Option Err := none
    let cfg : Config :=
      { a.cfg with
        PDFPath := orDefault a.cfg.PDFPath cwd dflt.defaultPDFPath,
        ImagePath := orDefault a.cfg.ImagePath cwd dflt.defaultImagePath,
        JSONPath := orDefault a.cfg.JSONPath cwd dflt.defaultJSONPath,
        StorePath := orDefault a.cfg.StorePath cwd dflt.defaultStorePath,
        SamplesPath := orDefault a.cfg.SamplesPath cwd dflt.defaultSamplePath }
    if [cfg.PDFPath, cfg.ImagePath, cfg.JSONPath].all os.mkdirAll then
      let initialised := Store.new.Init disk
      match err with
      | some e => (some e, { a with cfg := cfg, store := some initialised.2.1 }, initialised.2.2)
      | none =>
        (none, { cfg := cfg, store := some initialised.2.1, processor := true }, initialised.2.2)
    else (some .io, { a with cfg := cfg }, disk)

/-- How `main` goes on after `app.Init()`: it stops with the message
"initialization error", or it goes on to `app.Run` with the application. -/
inductive Startup where
  | fatal (msg : Str)
  | run (a : App) (disk : Disk)
  deriving DecidableEq, Repr

/-- The part of `main` from `app.New` to the call of `app.Run`. -/
def mainInit (cfg : Config) (os : Os) (dflt : Defaults) (disk : Disk) : Startup :=
  match (App.new cfg).Init os dflt disk with
  | (some _, _, _) => .fatal (lit "initialization error")
  | (none, a, disk') => .run a disk'

/-- A configuration with every path set. -/
def exampleConfig : Config :=
  { PDFPath := (lit "pdf"), ImagePath := (lit "img"), JSONPath := (lit "json"),
    StorePath := (lit "data/data.json"), SamplesPath := (lit "samples"),
    SampleData := [((lit "a"), [(lit "a.pdf")]), ((lit "b"), [(lit "b.pdf")])],
    Token := (lit "token") }

/-- An operating system in which `Getwd` and `MkdirAll` succeed. -/
def exampleOs : Os := ⟨some (lit "/work"), fun _ => true⟩

/-- Default paths. -/
def exampleDefaults : Defaults :=
  ⟨(lit "pdf"), (lit "img"), (lit "json"), (lit "data/data.json"), (lit "samples")⟩

/-- A snapshot file whose content is not JSON. -/
def brokenDisk : Disk := ⟨some (lit "not json"), true, true⟩

/-- A file system in which the image of `sampleA` cannot be read. -/
def envNoSampleImage : Env :=
  ⟨fun p => if p = (lit "img/sa.png") then none else some p, fun b => b⟩

/-! ## `pkg/processor`: document discovery -/

/-- The render collaborator `internal/pkg/pdf2png`, as functions of its arguments:
`GetPageCount`, and `RenderPage` (`none` when it succeeds). -/
structure Renderer where
  GetPageCount : Str → Except Err Int
  RenderPage : Str → Str → Int → Option Err

/-- Decimal digit character. -/
def digitChar (n : Nat) : Elem := .rune (Char.ofNat (48 + n))

/-- Worker of `itoa`, with fuel. -/
def itoaGo : Nat → Nat → Str → Str
  | 0, _, acc => acc
  | fuel + 1, n, acc =>
    if n < 10 then digitChar n :: acc
    else itoaGo fuel (n / 10) (digitChar (n % 10) :: acc)

/-- The decimal text of a natural number, as `%d` prints it. -/
def itoa (n : Nat) : Str := itoaGo (n + 1) n []

/-- The text `fmt.Sprintf("_%d.png", i)` for a page index. -/
def pageSuffix (i : Nat) : Str := Elem.rune '_' :: (itoa i ++ lit ".png")

/-- A call of `RenderPage`: source path, output path, page index. -/
abbrev RenderCall := Str × Str × Int

/-- The loop over the pages of a multi-page document: each page is rendered to
the output path with `.png` replaced by the page suffix. Returns the error, the
image paths collected and the calls made. -/
def renderLoop (r : Renderer) (path newFilePath : Str) :
    List Nat → Option Err × List Str × List RenderCall
  | [] => (none, [], [])
  | i :: is =>
    let pagePath := replaceAll newFilePath (lit ".png") (pageSuffix i)
    match r.RenderPage path pagePath i with
    | some err => (some err, [], [(path, pagePath, (i : Int))])
    | none =>
      let rest := renderLoop r path newFilePath is
      (rest.1, pagePath :: rest.2.1, (path, pagePath, (i : Int)) :: rest.2.2)

/-- What a part of `loadDocuments` leaves behind: the error it returned, the
store and the snapshot file, the `RenderPage` calls it made and the identifiers it
passed to `AppendDocument`, both in order. -/
structure Loaded where
  err : Option Err
  store : Store
  disk : Disk
  renders : List RenderCall
  appends : List Str

/-- The rendering part of the walk function: the image paths of the document, or
the error. -/
def renderDocument (r : Renderer) (path newFilePath : Str) (pageCount : Int) :
    Option Err × List Str × List RenderCall :=
  if pageCount = 1 then
    match r.RenderPage path newFilePath 0 with
    | some err => (some err, [], [(path, newFilePath, 0)])
    | none => (none, [newFilePath], [(path, newFilePath, 0)])
  else renderLoop r path newFilePath (List.range pageCount.toNat)

/-- The function `loadDocuments` passes to `filepath.WalkDir`, applied to one
visited path. -/
def walkFn (cfg : Config) (r : Renderer) (store : Store) (disk : Disk) (path : Str) :
    Run Loaded :=
  if ext path ≠ (lit ".pdf") then .ret ⟨none, store, disk, [], []⟩
  else
    let fileName := base path
    match store.RetrieveDocument fileName with
    | .panic => .panic
    | .ret (some _) => .ret ⟨none, store, disk, [], []⟩
    | .ret none =>
      let newFileName := replaceAll fileName (lit ".pdf") (lit ".png")
      let newFilePath := joinPath cfg.ImagePath newFileName
      match r.GetPageCount path with
      | .error err => .ret ⟨some err, store, disk, [], []⟩
      | .ok pageCount =>
        let rendered := renderDocument r path newFilePath pageCount
        match rendered.1 with
        | some err => .ret ⟨some err, store, disk, rendered.2.2, []⟩
        | none =>
          let doc : Document :=
            { ID := fileName, SourceURL := path, ImagePaths := some rendered.2.1,
              PDFPath := path, JSONPath := [], DocType := [] }
          match store.AppendDocument disk doc.ID (some doc) with
          | .panic => .panic
          | .ret (err, s', disk') => .ret ⟨err, s', disk', rendered.2.2, [doc.ID]⟩

/-- The walk of `filepath.WalkDir` over the paths it visits, in order: it stops at
the first error the function returns. -/
def walk (cfg : Config) (r : Renderer) : Store → Disk → List Str → Run Loaded
  | store, disk, [] => .ret ⟨none, store, disk, [], []⟩
  | store, disk, p :: ps =>
    match walkFn cfg r store disk p with
    | .panic => .panic
    | .ret l =>
      match l.err with
      | some _ => .ret l
      | none =>
        match walk cfg r l.store l.disk ps with
        | .panic => .panic
        | .ret l' =>
          .ret ⟨l'.err, l'.store, l'.disk, l.renders ++ l'.renders, l.appends ++ l'.appends⟩

/-- Mirrors `Processor.loadDocuments` on the paths `WalkDir` visits. The result
of `WalkDir` is not bound, and the function returns nil. -/
def loadDocuments (cfg : Config) (r : Renderer) (store : Store) (disk : Disk)
    (paths : List Str) : Run Loaded :=
  match walk cfg r store disk paths with
  | .panic => .panic
  | .ret l =>
    match l.store.GetDocumentCount with
    | .panic => .panic
    | .ret _ => .ret { l with err := none }

/-- The number a decimal text stands for. -/
def atoi (s : Str) : Nat := s.foldl (fun a c => 10 * a + (c.toChar.toNat - 48)) 0

/-- The output path `loadDocuments` computes for a source file: the image
directory joined with the file's base name, `.pdf` replaced by `.png`. -/
def outputPath (cfg : Config) (path : Str) : Str :=
  joinPath cfg.ImagePath (replaceAll (base path) (lit ".pdf") (lit ".png"))

/-- The path page `i` of a multi-page document is rendered to. -/
def pagePath (newFilePath : Str) (i : Nat) : Str :=
  replaceAll newFilePath (lit ".png") (pageSuffix i)

/-- A render collaborator that reports three pages for every file and renders
every page. -/
def threePages : Renderer := ⟨fun _ => .ok 3, fun _ _ _ => none⟩

/-- A render collaborator that reports one page for every file and renders it. -/
def onePage : Renderer := ⟨fun _ => .ok 1, fun _ _ _ => none⟩

/-- A snapshot file that cannot be written. -/
def readOnlyDisk : Disk := ⟨some (lit "{}"), true, false⟩

/-! ## `pkg/processor`: the scan pass of `Classify` -/

/-- How one pass of the inner `for` loop of `Classify` ends: it reaches the end
of the listing, or `Classify` returns an error, or the pass panics. -/
inductive PassEnd where
  | completed
  | returned (err : Err)
  | panicked
  deriving DecidableEq, Repr

/-- What a pass (or a part of one) leaves behind: the store and snapshot file,
the keys of the documents submitted to `classifyDocument` and the oracle calls
made, both in order, and how the pass ended. -/
structure Pass where
  store : Store
  disk : Disk
  submitted : List Str
  calls : List CompletionRequest
  outcome : PassEnd

/-- A part of a pass followed by the rest of it. -/
def Pass.andThen (p : Pass) (rest : Pass) : Pass :=
  ⟨rest.store, rest.disk, p.submitted ++ rest.submitted, p.calls ++ rest.calls, rest.outcome⟩

/-- The record a listed pointer points to. The listing of `RetrieveDocuments`
holds the pointers stored in the map, one per key; a pointer is represented by
its key and read through the store. -/
def Store.deref (s : Store) (k : Str) : Option Document :=
  match s.data with
  | none => none
  | some data => (mapGet (data.Documents.getD []) k).getD none

/-- The body of the inner loop of `Classify` over the listed documents. A
document that is nil panics at `d.Type`; after a classification without error
the label is read from the returned pointer, which panics when it is nil. -/
def scanPass (env : Env) (oracle : Oracle) (samples : Samples) :
    Store → Disk → List Str → Pass
  | store, disk, [] => ⟨store, disk, [], [], .completed⟩
  | store, disk, k :: ks =>
    match store.deref k with
    | none => ⟨store, disk, [], [], .panicked⟩
    | some d =>
      if d.DocType ≠ [] then scanPass env oracle samples store disk ks
      else
        let c := classifyDocument env oracle samples d
        match c.result with
        | .panic => ⟨store, disk, [k], c.calls, .panicked⟩
        | .ret (.error _) =>
          Pass.andThen ⟨store, disk, [k], c.calls, .completed⟩
            (scanPass env oracle samples store disk ks)
        | .ret (.ok none) => ⟨store, disk, [k], c.calls, .panicked⟩
        | .ret (.ok (some classification)) =>
          match store.UpdateDocumentType disk d.ID classification.Label with
          | .panic => ⟨store, disk, [k], c.calls, .panicked⟩
          | .ret (some err, s', disk') => ⟨s', disk', [k], c.calls, .returned err⟩
          | .ret (none, s', disk') =>
            Pass.andThen ⟨s', disk', [k], c.calls, .completed⟩
              (scanPass env oracle samples s' disk' ks)

/-- The keys of the store's map, in iteration order: the listing of one pass. -/
def Store.keys (s : Store) : Run (List Str) :=
  match s.data with
  | none => .panic
  | some data => .ret ((data.Documents.getD []).map (·.1))

/-- An oracle that always fails, as on a rate limit. -/
def oracleDown : Oracle := fun _ => .error .oracle

/-- A store with two unclassified documents. -/
def twoDocStore : Store :=
  ⟨some ⟨some [((lit "a.pdf"), some exampleDoc),
               ((lit "b.pdf"), some { exampleDoc with ID := (lit "b.pdf") })]⟩⟩

/-! ## `pkg/processor`: loading the samples -/

/-- Lookup `p.samples[label]` in the registry; `none` when the label has no
entry, in which case Go reads a nil slice. -/
def regGet : Samples → Str → Option (List Document)
  | [], _ => none
  | (l, docs) :: rest, label => if l = label then some docs else regGet rest label

/-- Assignment `p.samples[label] = docs`. -/
def regSet : Samples → Str → List Document → Samples
  | [], label, docs => [(label, docs)]
  | (l, docs') :: rest, label, docs =>
    if l = label then (label, docs) :: rest else (l, docs') :: regSet rest label docs

/-- Mirrors `Processor.generateSampleImage`: the error, the document after the
call and the `RenderPage` call made. -/
def generateSampleImage (cfg : Config) (r : Renderer) (d : Document) :
    Option Err × Document × RenderCall :=
  let fileName := base d.SourceURL
  let newFileName := replaceAll fileName (lit ".pdf") (lit ".png")
  let newFilePath := joinPath cfg.ImagePath newFileName
  match r.RenderPage d.SourceURL newFilePath 0 with
  | some err => (some err, d, (d.SourceURL, newFilePath, 0))
  | none =>
    (none, { d with ImagePaths := some (d.ImagePaths.getD [] ++ [newFilePath]) },
      (d.SourceURL, newFilePath, 0))

/-- What `loadSamples`, or a part of it, leaves behind: the error it returned,
the registry and the `RenderPage` calls made, in order. -/
structure SamplesLoaded where
  err : Option Err
  samples : Samples
  renders : List RenderCall

/-- The inner loop of `loadSamples`, over the sample paths of one label. -/
def loadLabel (cfg : Config) (r : Renderer) (label : Str) :
    Samples → List Str → SamplesLoaded
  | samples, [] => ⟨none, samples, []⟩
  | samples, samplePath :: rest =>
    let fullPath := joinPath cfg.SamplesPath samplePath
    let doc : Document :=
      { Document.zero with SourceURL := fullPath, PDFPath := fullPath, DocType := label }
    let g := generateSampleImage cfg r doc
    match g.1 with
    | some err => ⟨some err, samples, [g.2.2]⟩
    | none =>
      let l := loadLabel cfg r label
        (regSet samples label ((regGet samples label).getD [] ++ [g.2.1])) rest
      ⟨l.err, l.samples, g.2.2 :: l.renders⟩

/-- The outer loop of `loadSamples`, over the entries of `cfg.SampleData`. A
label without an entry in the registry gets the empty slice before its paths
are visited. -/
def loadEntries (cfg : Config) (r : Renderer) :
    Samples → List (Str × List Str) → SamplesLoaded
  | samples, [] => ⟨none, samples, []⟩
  | samples, (label, sampleDocs) :: rest =>
    let samples1 := if regGet samples label = none then regSet samples label [] else samples
    let l := loadLabel cfg r label samples1 sampleDocs
    match l.err with
    | some err => ⟨some err, l.samples, l.renders⟩
    | none =>
      let l' := loadEntries cfg r l.samples rest
      ⟨l'.err, l'.samples, l.renders ++ l'.renders⟩

/-- Mirrors `Processor.loadSamples` on the registry the processor holds. -/
def loadSamples (cfg : Config) (r : Renderer) (samples : Samples) : SamplesLoaded :=
  loadEntries cfg r samples cfg.SampleData

/-- The record `loadSamples` stores for a sample path of a label when its page
renders: the zero record with the full path as source, the label as type and
the one image path `generateSampleImage` appends. -/
def sampleRecord (cfg : Config) (label samplePath : Str) : Document :=
  { ID := [], SourceURL := joinPath cfg.SamplesPath samplePath,
    ImagePaths := some [outputPath cfg (joinPath cfg.SamplesPath samplePath)],
    PDFPath := joinPath cfg.SamplesPath samplePath, JSONPath := [], DocType := label }

/-- A configuration with a label that has no sample path. -/
def emptyLabelConfig : Config := { exampleConfig with SampleData := [(lit "a", [])] }

/-! ## `pkg/processor`: `Classify` -/

/-- Where a run of `Classify` stands: it returned an error, it panicked, or it
is in the polling loop (the loop has no exit but these two). -/
inductive ClassifyEnd where
  | returned (err : Err)
  | panicked
  | polling
  deriving DecidableEq, Repr

/-- The `for` loop of `Classify`, observed for a number of passes: the passes
made, in order, and where the run stands after them. Each pass lists the store
anew; the pause between passes is not represented. -/
def pollLoop (env : Env) (oracle : Oracle) (samples : Samples) :
    Nat → Store → Disk → List Pass × ClassifyEnd
  | 0, _, _ => ([], .polling)
  | rounds + 1, store, disk =>
    match store.keys with
    | .panic => ([], .panicked)
    | .ret ks =>
      let p := scanPass env oracle samples store disk ks
      match p.outcome with
      | .panicked => ([p], .panicked)
      | .returned err => ([p], .returned err)
      | .completed =>
        let rest := pollLoop env oracle samples rounds p.store p.disk
        (p :: rest.1, rest.2)

/-- A run of `Classify`, observed for a number of passes of its loop: what
`loadSamples` left, what `loadDocuments` left (`none` when it was not called or
panicked), the passes made and where the run stands. -/
structure ClassifyRun where
  loadedSamples : SamplesLoaded
  loaded : Option Loaded
  passes : List Pass
  outcome : ClassifyEnd

/-- Mirrors `Processor.Classify` on the registry the processor holds and the
paths `WalkDir` visits. -/
def Classify (cfg : Config) (env : Env) (oracle : Oracle) (r : Renderer) (samples : Samples)
    (store : Store) (disk : Disk) (paths : List Str) (rounds : Nat) : ClassifyRun :=
  let s := loadSamples cfg r samples
  match s.err with
  | some err => ⟨s, none, [], .returned err⟩
  | none =>
    match loadDocuments cfg r store disk paths with
    | .panic => ⟨s, none, [], .panicked⟩
    | .ret l =>
      match l.err with
      | some err => ⟨s, some l, [], .returned err⟩
      | none =>
        let p := pollLoop env oracle s.samples rounds l.store l.disk
        ⟨s, some l, p.1, p.2⟩

/-- A render collaborator whose `GetPageCount` fails for the file `pdf/a.pdf`. -/
def noPageCount : Renderer :=
  ⟨fun path => if path = lit "pdf/a.pdf" then .error .render else .ok 1, fun _ _ _ => none⟩

/-- A render collaborator whose `RenderPage` fails for the file `pdf/a.pdf`. -/
def noRenderPage : Renderer :=
  ⟨fun _ => .ok 1, fun path _ _ => if path = lit "pdf/a.pdf" then some .render else none⟩

/-! ## Further concrete inputs -/

/-- A snapshot file in which the key `a.pdf` is bound to `null`. -/
def nullEntryDisk : Disk :=
  ⟨some (lit "\x7b\"documents\":\x7b\"a.pdf\":null\x7d\x7d"), true, true⟩

/-- The URL of the first image of a comparison request. -/
def firstImage (req : CompletionRequest) : Str :=
  match req.Messages with
  | [m] =>
    match m.Content with
    | [_, .imageURL u, _] => u
    | _ => []
  | _ => []

/-- An oracle that fails for the page image of `exampleDoc` and reports "not
similar" for every other comparison. -/
def oracleDownForA : Oracle := fun req =>
  if firstImage req = dataURLPrefix ++ lit "img/a_0.png" then .error .oracle
  else .ok ⟨[similarFalseBody]⟩

/-- A store with three unclassified documents. -/
def threeDocStore : Store :=
  ⟨some ⟨some [(lit "a.pdf", some exampleDoc),
               (lit "b.pdf", some { exampleDoc with ID := lit "b.pdf",
                                                    ImagePaths := some [lit "img/b.png"] }),
               (lit "c.pdf", some { exampleDoc with ID := lit "c.pdf",
                                                    ImagePaths := some [lit "img/c.png"] })]⟩⟩

/-! # Theorems -/

/-! ## `strings` lemmas -/

section Strings

variable {α : Type} [DecidableEq α]

theorem isPrefixOf_append_barrier (x : α) (r : List α) :
    ∀ (p s : List α), p ≠ [] → x ∉ p → p.isPrefixOf (s ++ x :: r) = p.isPrefixOf s := by
  intro p s
  induction s generalizing p with
  | nil =>
    intro hp hx
    cases p with
    | nil => exact absurd rfl hp
    | cons a p' =>
      have : a ≠ x := fun h => hx (by simp [h])
      simp [List.isPrefixOf, this]
  | cons c s ih =>
    intro hp hx
    cases p with
    | nil => exact absurd rfl hp
    | cons a p' =>
      cases p' with
      | nil => simp [List.isPrefixOf]
      | cons b p'' =>
        have h := ih (b :: p'') (by simp) (fun h => hx (List.mem_cons_of_mem _ h))
        show (a == c && (b :: p'').isPrefixOf (s ++ x :: r)) = (a == c && (b :: p'').isPrefixOf s)
        rw [h]

theorem contains_append_barrier (x : α) (p : List α) (hp : p ≠ []) (hx : x ∉ p) :
    ∀ s : List α, contains p s = false → contains p (s ++ [x]) = false := by
  intro s
  induction s with
  | nil =>
    intro _
    cases p with
    | nil => exact absurd rfl hp
    | cons a p' =>
      have : a ≠ x := fun h => hx (by simp [h])
      simp [contains, List.isPrefixOf, this]
  | cons c s ih =>
    intro h
    simp only [contains, Bool.or_eq_false_iff] at h
    simp only [List.cons_append, contains, Bool.or_eq_false_iff]
    refine ⟨?_, ih h.2⟩
    exact (isPrefixOf_append_barrier x [] p (c :: s) hp hx).trans h.1

theorem isPrefixOf_append_left (q : List α) :
    ∀ (p s : List α), (p ++ q).isPrefixOf s = true → p.isPrefixOf s = true := by
  intro p
  induction p with
  | nil => intro s _; simp [List.isPrefixOf]
  | cons a p ih =>
    intro s h
    cases s with
    | nil => simp [List.isPrefixOf] at h
    | cons c s =>
      have h' : (a == c && (p ++ q).isPrefixOf s) = true := h
      show (a == c && p.isPrefixOf s) = true
      rw [Bool.and_eq_true] at h' ⊢
      exact ⟨h'.1, ih s h'.2⟩

theorem contains_append_left (p q : List α) (hp : p ≠ []) :
    ∀ s : List α, contains p s = false → contains (p ++ q) s = false := by
  intro s
  induction s with
  | nil =>
    intro _
    cases p with
    | nil => exact absurd rfl hp
    | cons a p' => rfl
  | cons c s ih =>
    intro h
    simp only [contains, Bool.or_eq_false_iff] at h ⊢
    refine ⟨?_, ih h.2⟩
    cases hq : (p ++ q).isPrefixOf (c :: s) with
    | false => rfl
    | true => rw [isPrefixOf_append_left q p (c :: s) hq] at h; exact absurd h.1 (by simp)

theorem splitGo_no_occurrence (sep : List α) :
    ∀ (s cur : List α), contains sep s = false → splitGo sep 0 cur s = [cur.reverse ++ s] := by
  intro s
  induction s with
  | nil => intro cur _; simp [splitGo]
  | cons c s ih =>
    intro cur h
    simp only [contains, Bool.or_eq_false_iff] at h
    simp only [splitGo, h.1, Bool.false_eq_true, if_false]
    rw [ih (c :: cur) h.2]
    simp

theorem splitGo_skip (sep : List α) :
    ∀ (pre s cur : List α), splitGo sep pre.length cur (pre ++ s) = splitGo sep 0 cur s := by
  intro pre
  induction pre with
  | nil => intro s cur; rfl
  | cons a pre ih =>
    intro s cur
    show splitGo sep (pre.length + 1) cur (a :: (pre ++ s)) = _
    rw [splitGo]
    exact ih s cur

theorem isPrefixOf_self_append (p s : List α) : p.isPrefixOf (p ++ s) = true := by
  induction p with
  | nil => simp [List.isPrefixOf]
  | cons a p ih =>
    show (a == a && p.isPrefixOf (p ++ s)) = true
    simp [ih]

theorem splitGo_at_separator (sep s cur : List α) (hsep : sep ≠ []) :
    splitGo sep 0 cur (sep ++ s) = cur.reverse :: splitGo sep 0 [] s := by
  cases sep with
  | nil => exact absurd rfl hsep
  | cons a sep' =>
    have hp : (a :: sep').isPrefixOf (a :: (sep' ++ s)) = true :=
      isPrefixOf_self_append (a :: sep') s
    show splitGo (a :: sep') 0 cur (a :: (sep' ++ s)) = _
    rw [splitGo, if_pos hp]
    have := splitGo_skip (a :: sep') sep' s []
    simp only [List.length_cons, Nat.add_sub_cancel]
    rw [this]

theorem splitGo_first_occurrence (sep : List α) (x : α) (hsep : sep ≠ []) (hx : x ∉ sep)
    (s : List α) :
    ∀ (j cur : List α), contains sep j = false →
      splitGo sep 0 cur (j ++ x :: (sep ++ s)) =
        (cur.reverse ++ j ++ [x]) :: splitGo sep 0 [] s := by
  intro j
  induction j with
  | nil =>
    intro cur _
    have h0 : sep.isPrefixOf ([] ++ x :: (sep ++ s)) = sep.isPrefixOf [] :=
      isPrefixOf_append_barrier x (sep ++ s) sep [] hsep hx
    have h1 : sep.isPrefixOf [] = false := by
      cases sep with
      | nil => exact absurd rfl hsep
      | cons a t => rfl
    rw [h1] at h0
    show splitGo sep 0 cur (x :: (sep ++ s)) = _
    rw [splitGo, if_neg (by rw [show sep.isPrefixOf (x :: (sep ++ s)) = false from h0]; exact Bool.false_ne_true), splitGo_at_separator sep s (x :: cur) hsep]
    simp
  | cons c j ih =>
    intro cur h
    simp only [contains, Bool.or_eq_false_iff] at h
    have h0 : sep.isPrefixOf ((c :: j) ++ x :: (sep ++ s)) = sep.isPrefixOf (c :: j) :=
      isPrefixOf_append_barrier x (sep ++ s) sep (c :: j) hsep hx
    rw [h.1] at h0
    show splitGo sep 0 cur (c :: (j ++ x :: (sep ++ s))) = _
    rw [splitGo, if_neg (by rw [show sep.isPrefixOf (c :: (j ++ x :: (sep ++ s))) = false from h0]; exact Bool.false_ne_true), ih (c :: cur) h.2]
    simp

end Strings

/-! ## Scanner lemmas -/

theorem scanValue_init_newline (s : Text) :
    scanValue Scan.init ('\n' :: s) = scanValue Scan.init s := by
  rfl

theorem scanValue_newline_nil (st : Scan) :
    (scanValue st ['\n']).toOption = (scanValue st []).toOption := by
  obtain ⟨stk, mode⟩ := st
  cases mode with
  | beginValue => rfl
  | beginValueOrEmpty => rfl
  | beginString => rfl
  | beginStringOrEmpty => rfl
  | endValue => rfl
  | endTop v => rfl
  | inString raw => rfl
  | inStringEsc raw => rfl
  | inStringEscU raw k => rfl
  | lit l => cases l <;> rfl
  | num ns raw =>
    cases ns <;> first
      | rfl
      | (cases stk with
         | nil => rfl
         | cons fr rest => cases fr <;> rfl)

theorem scanValue_append_newline :
    ∀ (s : Text) (st : Scan),
      (scanValue st (s ++ ['\n'])).toOption = (scanValue st s).toOption := by
  intro s
  induction s with
  | nil => intro st; exact scanValue_newline_nil st
  | cons c s ih =>
    intro st
    show (scanValue st (c :: (s ++ ['\n']))).toOption = (scanValue st (c :: s)).toOption
    rw [scanValue, scanValue]
    cases step st c with
    | cont s' => exact ih s'
    | done v b => rfl
    | err => rfl

theorem toText_wrapped (j : Str) :
    Str.toText (nl :: j ++ [nl]) = '\n' :: (j.toText ++ ['\n']) := by
  simp [Str.toText, nl, Elem.toChar]

theorem decodeClassification_wrapped (j : Str) :
    (decodeClassification (nl :: j ++ [nl])).toOption = (decodeClassification j).toOption := by
  have h : (decodeValue ('\n' :: (j.toText ++ ['\n']))).toOption =
      (decodeValue j.toText).toOption := by
    unfold decodeValue
    rw [scanValue_init_newline]
    exact scanValue_append_newline j.toText Scan.init
  unfold decodeClassification
  rw [toText_wrapped]
  cases h1 : decodeValue ('\n' :: (j.toText ++ ['\n'])) with
  | error e =>
    cases h2 : decodeValue j.toText with
    | error e' => rfl
    | ok v => rw [h1, h2] at h; cases h
  | ok v =>
    cases h2 : decodeValue j.toText with
    | error e' => rw [h1, h2] at h; cases h
    | ok w =>
      rw [h1, h2] at h
      have : v = w := by simpa [Except.toOption] using h
      rw [this]

/-! ## Verdict parsing -/

theorem contains_self_append {α : Type} [DecidableEq α] (p s : List α) (hp : p ≠ []) : contains p (p ++ s) = true := by
  cases p with
  | nil => exact absurd rfl hp
  | cons a p' =>
    show ((a :: p').isPrefixOf (a :: (p' ++ s)) || contains (a :: p') (p' ++ s)) = true
    rw [show (a :: p').isPrefixOf (a :: (p' ++ s)) = true from isPrefixOf_self_append (a :: p') s]
    rfl

theorem contains_fenceJson_tail :
    ∀ j : Str, contains fence j = false → contains fenceJson (j ++ nl :: fence) = false := by
  intro j
  induction j with
  | nil => intro _; rfl
  | cons c j ih =>
    intro h
    simp only [contains, Bool.or_eq_false_iff] at h
    show (fenceJson.isPrefixOf ((c :: j) ++ nl :: fence) ||
      contains fenceJson (j ++ nl :: fence)) = false
    rw [isPrefixOf_append_barrier nl fence fenceJson (c :: j) (by decide) (by decide), ih h.2]
    cases hq : fenceJson.isPrefixOf (c :: j) with
    | false => rfl
    | true =>
      have := isPrefixOf_append_left (lit "json") fence (c :: j) hq
      rw [this] at h
      exact absurd h.1 (by simp)

theorem getClassification_bare (j : Str) (hne : j ≠ []) (hno : contains fence j = false) :
    getClassification j =
      match decodeClassification j with
      | .error e => .ret (.error (.json e))
      | .ok out => .ret (.ok out) := by
  have hlen : j.length ≠ 0 := by
    cases j with
    | nil => exact absurd rfl hne
    | cons a t => simp
  have hc : contains fenceJson j = false :=
    contains_append_left fence (lit "json") (by decide) j hno
  simp only [getClassification, hlen, if_false, hc, Bool.false_eq_true]

theorem getClassification_wrapped (j : Str) (hno : contains fence j = false) :
    getClassification (wrapFenced j) =
      match decodeClassification (nl :: j ++ [nl]) with
      | .error e => .ret (.error (.json e))
      | .ok out => .ret (.ok out) := by
  have hw : wrapFenced j = fenceJson ++ ((nl :: j) ++ nl :: fence) := by
    simp [wrapFenced]
  have hlen : (wrapFenced j).length ≠ 0 := by simp [wrapFenced, fenceJson]
  have hc : contains fenceJson (wrapFenced j) = true := by
    rw [hw]; exact contains_self_append _ _ (by decide)
  have hnl : contains fence (nl :: j) = false := by
    show (fence.isPrefixOf (nl :: j) || contains fence j) = false
    rw [hno]; rfl
  have hs1 : split (wrapFenced j) fenceJson = [[], (nl :: j) ++ nl :: fence] := by
    rw [hw, split, splitGo_at_separator _ _ _ (by decide),
      splitGo_no_occurrence _ _ _ (contains_fenceJson_tail _ hnl)]
    rfl
  have hs2 : split ((nl :: j) ++ nl :: fence) fence = [nl :: j ++ [nl], []] := by
    have := splitGo_first_occurrence fence nl (by decide) (by decide) [] (nl :: j) [] hnl
    rw [List.append_nil] at this
    rw [split, this]
    rfl
  unfold getClassification
  rw [if_neg hlen]
  simp only [hc, if_true, hs1]
  have g1 : ∀ a b : Str, ([a, b] : List Str).get? 1 = some b := fun _ _ => rfl
  have g0 : ∀ a b : Str, ([a, b] : List Str).get? 0 = some a := fun _ _ => rfl
  have hl : ([[], (nl :: j) ++ nl :: fence] : List Str).length ≠ 0 := by simp
  rw [if_neg hl]
  simp only [g1, hs2, g0]

theorem sameResult_of_decode (a b : Except JsonErr ClassificationOutput) :
    a.toOption = b.toOption →
    sameResult
      (match a with
        | .error e => .ret (.error (.json e))
        | .ok out => .ret (.ok out))
      (match b with
        | .error e => .ret (.error (.json e))
        | .ok out => .ret (.ok out)) := by
  intro h
  cases a with
  | error e =>
    cases b with
    | error e' => trivial
    | ok w => cases h
  | ok v =>
    cases b with
    | error e' => cases h
    | ok w =>
      have : v = w := by simpa [Except.toOption] using h
      exact this

/-- C4. Fenced verdict parsing: for every non-empty answer body `j` without a
triple backtick, `getClassification` on the fenced body (opening fence, newline,
`j`, newline, closing fence) gives the same result as on the bare `j` (the same
verdict, or an error in both cases); for the body `{"similar": true}` both calls
return a verdict with `Similar = true`. -/
theorem getClassification_fenced (j : Str) (hne : j ≠ []) (hno : contains fence j = false) :
    sameResult (getClassification (wrapFenced j)) (getClassification j) ∧
    (∃ out, getClassification (wrapFenced similarTrueBody) = .ret (.ok out) ∧
      out.Similar = true) ∧
    (∃ out, getClassification similarTrueBody = .ret (.ok out) ∧ out.Similar = true) := by
  refine ⟨?_, ⟨⟨[], true⟩, rfl, rfl⟩, ⟨⟨[], true⟩, rfl, rfl⟩⟩
  rw [getClassification_wrapped j hno, getClassification_bare j hne hno]
  exact sameResult_of_decode _ _ (decodeClassification_wrapped j)

/-- Witness for C4 at the body `{"similar": false}`. -/
theorem getClassification_fenced_witness :
    sameResult (getClassification (wrapFenced similarFalseBody))
      (getClassification similarFalseBody) :=
  (getClassification_fenced similarFalseBody (by decide) (by rfl)).1

/-! ## Encoding and scanning -/

theorem Feeds.nil (s : Scan) : Feeds s [] s := fun _ => rfl

theorem Feeds.cons (s1 : Scan) {s s' : Scan} {c : Char} {t : Text}
    (h : step s c = .cont s1) (ht : Feeds s1 t s') : Feeds s (c :: t) s' := by
  intro rest
  show scanWhole s (c :: (t ++ rest)) = _
  rw [scanWhole, h]
  exact ht rest

theorem Feeds.append {s s1 s2 : Scan} {t u : Text}
    (ht : Feeds s t s1) (hu : Feeds s1 u s2) : Feeds s (t ++ u) s2 := by
  intro rest
  rw [List.append_assoc, ht (u ++ rest), hu rest]

theorem Feeds.char {s s' : Scan} {c : Char} (h : step s c = .cont s') : Feeds s [c] s' :=
  Feeds.cons _ h (Feeds.nil s')

theorem hexVal_hexDigit : ∀ n : Fin 16, hexVal (hexDigit n.val) = some n.val := by
  decide

theorem step_inString_plain (stk : List Frame) (raw : Text) (c : Char)
    (h1 : c ≠ '"') (h2 : c ≠ '\\') (h3 : ¬ c.toNat < 0x20) :
    step ⟨stk, .inString raw⟩ c = .cont ⟨stk, .inString (c :: raw)⟩ := by
  simp [step, h1, h2, h3]

theorem step_inString_backslash (stk : List Frame) (raw : Text) :
    step ⟨stk, .inString raw⟩ '\\' = .cont ⟨stk, .inStringEsc ('\\' :: raw)⟩ := rfl

theorem feeds_escape2 (stk : List Frame) (raw : Text) (e : Char)
    (he : e = 'b' ∨ e = 'f' ∨ e = 'n' ∨ e = 'r' ∨ e = 't' ∨ e = '\\' ∨ e = '/' ∨ e = '"') :
    Feeds ⟨stk, .inString raw⟩ ['\\', e] ⟨stk, .inString (e :: '\\' :: raw)⟩ := by
  refine Feeds.cons _ (step_inString_backslash stk raw) (Feeds.char ?_)
  simp [step, he]

theorem feeds_escapeU (stk : List Frame) (raw : Text) (a b c d : Char)
    (ha : (hexVal a).isSome) (hb : (hexVal b).isSome) (hc : (hexVal c).isSome)
    (hd : (hexVal d).isSome) :
    Feeds ⟨stk, .inString raw⟩ ['\\', 'u', a, b, c, d]
      ⟨stk, .inString (d :: c :: b :: a :: 'u' :: '\\' :: raw)⟩ := by
  refine Feeds.cons _ (step_inString_backslash stk raw) ?_
  refine Feeds.cons ⟨stk, .inStringEscU ('u' :: '\\' :: raw) 4⟩ rfl ?_
  refine Feeds.cons ⟨stk, .inStringEscU (a :: 'u' :: '\\' :: raw) 3⟩ (by simp [step, ha]) ?_
  refine Feeds.cons ⟨stk, .inStringEscU (b :: a :: 'u' :: '\\' :: raw) 2⟩ (by simp [step, hb]) ?_
  refine Feeds.cons ⟨stk, .inStringEscU (c :: b :: a :: 'u' :: '\\' :: raw) 1⟩ (by simp [step, hc]) ?_
  exact Feeds.char (by simp [step, hd])

theorem hexVal_hexDigit_isSome (n : Nat) (h : n < 16) : (hexVal (hexDigit n)).isSome := by
  have := hexVal_hexDigit ⟨n, h⟩
  simp only at this
  rw [this]; rfl

theorem getu4_hexDigits (n : Nat) (h : n < 256) :
    getu4 '0' '0' (hexDigit (n / 16)) (hexDigit (n % 16)) = some n := by
  have h1 := hexVal_hexDigit ⟨n / 16, by omega⟩
  have h2 := hexVal_hexDigit ⟨n % 16, by omega⟩
  simp only at h1 h2
  have h0 : hexVal '0' = some 0 := by decide
  simp only [getu4, h0, h1, h2]
  congr 1
  omega

theorem feeds_quoteChar (stk : List Frame) (raw : Text) (c : Char) :
    Feeds ⟨stk, .inString raw⟩ (quoteChar c) ⟨stk, .inString ((quoteChar c).reverse ++ raw)⟩ := by
  unfold quoteChar
  split_ifs with h1 h2 h3 h4 h5 h6 h7 h8 h9
  · exact feeds_escape2 stk raw c (by rcases h1 with h | h <;> simp [h])
  · exact feeds_escape2 stk raw 'b' (by simp)
  · exact feeds_escape2 stk raw 'f' (by simp)
  · exact feeds_escape2 stk raw 'n' (by simp)
  · exact feeds_escape2 stk raw 'r' (by simp)
  · exact feeds_escape2 stk raw 't' (by simp)
  · have hn : c.toNat < 256 := by
      rcases h7 with h | h | h | h
      · omega
      · subst h; decide
      · subst h; decide
      · subst h; decide
    exact feeds_escapeU stk raw '0' '0' _ _ (by decide) (by decide)
      (hexVal_hexDigit_isSome _ (by omega)) (hexVal_hexDigit_isSome _ (by omega))
  · exact feeds_escapeU stk raw '2' '0' '2' '8' (by decide) (by decide) (by decide) (by decide)
  · exact feeds_escapeU stk raw '2' '0' '2' '9' (by decide) (by decide) (by decide) (by decide)
  · push_neg at h1 h7
    exact Feeds.char (step_inString_plain stk raw c h1.1 h1.2 (by omega))

theorem feeds_quoteElem (stk : List Frame) (raw : Text) (e : Elem) :
    Feeds ⟨stk, .inString raw⟩ (quoteElem e) ⟨stk, .inString ((quoteElem e).reverse ++ raw)⟩ := by
  cases e with
  | rune c => exact feeds_quoteChar stk raw c
  | bad b =>
    exact feeds_escapeU stk raw 'f' 'f' 'f' 'd' (by decide) (by decide) (by decide) (by decide)

theorem feeds_quoteBody (stk : List Frame) :
    ∀ (s : Str) (raw : Text),
      Feeds ⟨stk, .inString raw⟩ (quoteBody s) ⟨stk, .inString ((quoteBody s).reverse ++ raw)⟩ := by
  intro s
  induction s with
  | nil => intro raw; exact Feeds.nil _
  | cons c s ih =>
    intro raw
    have h := Feeds.append (feeds_quoteElem stk raw c) (ih ((quoteElem c).reverse ++ raw))
    simpa [quoteBody, List.reverse_append, List.append_assoc] using h

theorem isSurrogate_toNat (c : Char) : isSurrogate c.toNat = false := by
  have h := c.valid
  simp only [UInt32.isValidChar, Nat.isValidChar] at h
  simp only [isSurrogate, Char.toNat, Bool.and_eq_false_imp, decide_eq_true_eq, decide_eq_false_iff_not]
  intro h1
  omega

theorem unquoteAux_escapeU (a b c d : Char) (t : Text) (ch : Char)
    (h : getu4 a b c d = some ch.toNat) :
    unquoteAux none ('\\' :: 'u' :: a :: b :: c :: d :: t) =
      (unquoteAux none t).map (ch :: ·) := by
  rw [unquoteAux, h]
  simp [isSurrogate_toNat, flushSurrogate, Char.ofNat_toNat]

theorem unquoteAux_plain (c : Char) (t : Text)
    (h1 : c ≠ '"') (h2 : c ≠ '\\') (h3 : ¬ c.toNat < 0x20) :
    unquoteAux none (c :: t) = (unquoteAux none t).map (c :: ·) := by
  rw [unquoteAux]
  · simp [h1, h2, h3, flushSurrogate]
  · intro a b c' d rest h _; exact h2 h
  · intro e rest h _; exact h2 h

theorem unquoteAux_quoteChar (c : Char) (t : Text) :
    unquoteAux none (quoteChar c ++ t) = (unquoteAux none t).map (c :: ·) := by
  unfold quoteChar
  split_ifs with h1 h2 h3 h4 h5 h6 h7 h8 h9
  · rcases h1 with h | h <;> subst h <;> rfl
  · subst h2; rfl
  · subst h3; rfl
  · subst h4; rfl
  · subst h5; rfl
  · subst h6; rfl
  · have hn : c.toNat < 256 := by
      rcases h7 with h | h | h | h
      · omega
      · subst h; decide
      · subst h; decide
      · subst h; decide
    exact unquoteAux_escapeU _ _ _ _ t c (getu4_hexDigits c.toNat hn)
  · subst h8; exact unquoteAux_escapeU _ _ _ _ t _ (by decide)
  · subst h9; exact unquoteAux_escapeU _ _ _ _ t _ (by decide)
  · push_neg at h1 h7
    exact unquoteAux_plain c t h1.1 h1.2 (by omega)

theorem unquoteAux_quoteElem (e : Elem) (t : Text) :
    unquoteAux none (quoteElem e ++ t) = (unquoteAux none t).map (e.toChar :: ·) := by
  cases e with
  | rune c => exact unquoteAux_quoteChar c t
  | bad b => exact unquoteAux_escapeU _ _ _ _ t replacementChar (by decide)

theorem unquote_quoteBody : ∀ s : Str, unquote (quoteBody s) = some s.toText := by
  intro s
  induction s with
  | nil => rfl
  | cons c s ih =>
    unfold unquote at ih ⊢
    rw [quoteBody, unquoteAux_quoteElem, ih]
    rfl

theorem feeds_string_close (stk : List Frame) (s : Str) (s' : Scan)
    (h : completeScalar stk (.str s.toText) = .cont s') :
    Feeds ⟨stk, .inString []⟩ (quoteBody s ++ ['"']) s' := by
  refine Feeds.append (feeds_quoteBody stk s []) (Feeds.char ?_)
  simp [step, unquote_quoteBody, h]

theorem feeds_quote_value (stk : List Frame) (s : Str) (s' : Scan)
    (h : completeScalar stk (.str s.toText) = .cont s') :
    Feeds ⟨stk, .beginValue⟩ (quote s) s' :=
  Feeds.cons ⟨stk, .inString []⟩ rfl (feeds_string_close stk s s' h)

theorem feeds_quote_first (stk : List Frame) (s : Str) (s' : Scan)
    (h : completeScalar stk (.str s.toText) = .cont s') :
    Feeds ⟨stk, .beginValueOrEmpty⟩ (quote s) s' :=
  Feeds.cons ⟨stk, .inString []⟩ rfl (feeds_string_close stk s s' h)

theorem feeds_quote_key (kvs : List (Text × Json)) (stk : List Frame) (k : Str) :
    Feeds ⟨.objKey kvs :: stk, .beginString⟩ (quote k) ⟨.objColon kvs k.toText :: stk, .endValue⟩ :=
  Feeds.cons ⟨.objKey kvs :: stk, .inString []⟩ rfl (feeds_string_close _ k _ rfl)

theorem feeds_quote_first_key (kvs : List (Text × Json)) (stk : List Frame) (k : Str) :
    Feeds ⟨.objKey kvs :: stk, .beginStringOrEmpty⟩ (quote k)
      ⟨.objColon kvs k.toText :: stk, .endValue⟩ :=
  Feeds.cons ⟨.objKey kvs :: stk, .inString []⟩ rfl (feeds_string_close _ k _ rfl)

theorem feeds_null (stk : List Frame) (s' : Scan) (h : completeScalar stk .null = .cont s') :
    Feeds ⟨stk, .beginValue⟩ "null".toList s' := by
  refine Feeds.cons ⟨stk, .lit .n⟩ rfl ?_
  refine Feeds.cons ⟨stk, .lit .nu⟩ rfl ?_
  refine Feeds.cons ⟨stk, .lit .nul⟩ rfl ?_
  exact Feeds.char (by simp [step, LitSt.expect, LitSt.next, h])

theorem joinComma_cons (x : Text) (ys : List Text) : joinComma (x :: ys) = x ++ commaItems ys := by
  induction ys generalizing x with
  | nil => simp [joinComma, commaItems]
  | cons y ys ih => rw [joinComma, ih y, commaItems]

theorem feeds_member (m : Member) (hm : MemberOk m) (kvs : List (Text × Json))
    (stk : List Frame) :
    Feeds ⟨.objKey kvs :: stk, .beginString⟩ (memberText m)
      ⟨.objNext ((m.1.toText, m.2.1) :: kvs) :: stk, .endValue⟩ := by
  refine Feeds.append (feeds_quote_key kvs stk m.1) ?_
  exact Feeds.cons ⟨.objVal kvs m.1.toText :: stk, .beginValue⟩ rfl (hm kvs stk)

theorem feeds_first_member (m : Member) (hm : MemberOk m) (kvs : List (Text × Json))
    (stk : List Frame) :
    Feeds ⟨.objKey kvs :: stk, .beginStringOrEmpty⟩ (memberText m)
      ⟨.objNext ((m.1.toText, m.2.1) :: kvs) :: stk, .endValue⟩ := by
  refine Feeds.append (feeds_quote_first_key kvs stk m.1) ?_
  exact Feeds.cons ⟨.objVal kvs m.1.toText :: stk, .beginValue⟩ rfl (hm kvs stk)

theorem feeds_members_tail (fr : Frame) (stk : List Frame) (s' : Scan) :
    ∀ (ms : List Member) (kvs : List (Text × Json)), (∀ m ∈ ms, MemberOk m) →
      completeScalar (fr :: stk) (.obj (kvs.reverse ++ ms.map memberKV)) = .cont s' →
      Feeds ⟨.objNext kvs :: fr :: stk, .endValue⟩ (commaItems (ms.map memberText) ++ ['}']) s' := by
  intro ms
  induction ms with
  | nil =>
    intro kvs _ h
    refine Feeds.char ?_
    simpa [step, stepEndValue, isSpace, completeComposite] using h
  | cons m ms ih =>
    intro kvs hok h
    have h1 := feeds_member m (hok m (List.mem_cons_self _ _)) kvs (fr :: stk)
    have h2 := ih ((m.1.toText, m.2.1) :: kvs) (fun x hx => hok x (List.mem_cons_of_mem _ hx))
      (by simpa [memberKV] using h)
    have h3 : Feeds ⟨.objNext kvs :: fr :: stk, .endValue⟩ [',']
        ⟨.objKey kvs :: fr :: stk, .beginString⟩ := Feeds.char rfl
    have := Feeds.append h3 (Feeds.append h1 h2)
    simpa [commaItems, List.append_assoc] using this

theorem feeds_object (fr : Frame) (stk : List Frame) (s' : Scan) (ms : List Member)
    (hok : ∀ m ∈ ms, MemberOk m)
    (h : completeScalar (fr :: stk) (.obj (ms.map memberKV)) = .cont s') :
    Feeds ⟨fr :: stk, .beginValue⟩ ('{' :: (joinComma (ms.map memberText) ++ ['}'])) s' := by
  refine Feeds.cons ⟨.objKey [] :: fr :: stk, .beginStringOrEmpty⟩ rfl ?_
  cases ms with
  | nil =>
    refine Feeds.char ?_
    simpa [step, isSpace, completeComposite] using h
  | cons m ms =>
    have h1 := feeds_first_member m (hok m (List.mem_cons_self _ _)) [] (fr :: stk)
    have h2 := feeds_members_tail fr stk s' ms [(m.1.toText, m.2.1)]
      (fun x hx => hok x (List.mem_cons_of_mem _ hx)) (by simpa [memberKV] using h)
    have := Feeds.append h1 h2
    simpa [joinComma_cons, List.append_assoc] using this

theorem feeds_strings_tail (fr : Frame) (stk : List Frame) (s' : Scan) :
    ∀ (ys : List Str) (es : List Json),
      completeScalar (fr :: stk) (.arr (es.reverse ++ ys.map fun y => .str y.toText)) = .cont s' →
      Feeds ⟨.arr es :: fr :: stk, .endValue⟩ (commaItems (ys.map quote) ++ [']']) s' := by
  intro ys
  induction ys with
  | nil =>
    intro es h
    refine Feeds.char ?_
    simpa [step, stepEndValue, isSpace, completeComposite] using h
  | cons y ys ih =>
    intro es h
    have h1 : Feeds ⟨.arr es :: fr :: stk, .endValue⟩ [',']
        ⟨.arr es :: fr :: stk, .beginValue⟩ := Feeds.char rfl
    have h2 := feeds_quote_value (.arr es :: fr :: stk) y
      ⟨.arr (.str y.toText :: es) :: fr :: stk, .endValue⟩ rfl
    have h3 := ih (.str y.toText :: es) (by simpa using h)
    have := Feeds.append h1 (Feeds.append h2 h3)
    simpa [commaItems, List.append_assoc] using this

theorem feeds_strings (fr : Frame) (stk : List Frame) (s' : Scan) (xs : Option (List Str))
    (h : completeScalar (fr :: stk) (stringsJson xs) = .cont s') :
    Feeds ⟨fr :: stk, .beginValue⟩ (marshalStrings xs) s' := by
  cases xs with
  | none => exact feeds_null _ _ h
  | some xs =>
    refine Feeds.cons ⟨.arr [] :: fr :: stk, .beginValueOrEmpty⟩ rfl ?_
    cases xs with
    | nil =>
      refine Feeds.char ?_
      simpa [step, isSpace, completeComposite, stringsJson] using h
    | cons x xs =>
      have h1 := feeds_quote_first (.arr [] :: fr :: stk) x
        ⟨.arr [.str x.toText] :: fr :: stk, .endValue⟩ rfl
      have h2 := feeds_strings_tail fr stk s' xs [.str x.toText] (by simpa [stringsJson] using h)
      have := Feeds.append h1 h2
      simpa [joinComma_cons, List.append_assoc] using this

theorem memberOk_string (k s : Str) : MemberOk (k, .str s.toText, quote s) :=
  fun _ _ => feeds_quote_value _ s _ rfl

theorem memberOk_strings (k : Str) (xs : Option (List Str)) :
    MemberOk (k, stringsJson xs, marshalStrings xs) :=
  fun _ _ => feeds_strings _ _ _ xs rfl

theorem marshalDocument_eq (d : Document) :
    marshalDocument d = '{' :: (joinComma ((documentMembers d).map memberText) ++ ['}']) := by
  simp only [marshalDocument, documentMembers, List.map, joinComma, memberText]
  simp only [List.append_assoc, List.cons_append]
  rfl

theorem feeds_docPtr (fr : Frame) (stk : List Frame) (s' : Scan) (d : Option Document)
    (h : completeScalar (fr :: stk) (docPtrJson d) = .cont s') :
    Feeds ⟨fr :: stk, .beginValue⟩ (marshalDocPtr d) s' := by
  cases d with
  | none => exact feeds_null _ _ h
  | some d =>
    show Feeds _ (marshalDocument d) s'
    rw [marshalDocument_eq]
    refine feeds_object fr stk s' (documentMembers d) ?_ h
    intro m hm
    simp only [documentMembers, List.mem_cons, List.mem_singleton, List.not_mem_nil,
      or_false] at hm
    rcases hm with h | h | h | h | h | h <;> subst h
    · exact memberOk_string _ _
    · exact memberOk_string _ _
    · exact memberOk_strings _ _
    · exact memberOk_string _ _
    · exact memberOk_string _ _
    · exact memberOk_string _ _

theorem memberOk_entry (e : Str × Option Document) : MemberOk (entryMember e) :=
  fun _ _ => feeds_docPtr _ _ _ e.2 rfl

theorem feeds_map (fr : Frame) (stk : List Frame) (s' : Scan) (m : Option DocMap)
    (h : completeScalar (fr :: stk) (mapJson m) = .cont s') :
    Feeds ⟨fr :: stk, .beginValue⟩ (marshalMap m) s' := by
  cases m with
  | none => exact feeds_null _ _ h
  | some m =>
    have hobj := feeds_object fr stk s' ((sortKeys m).map entryMember)
      (by
        intro x hx
        obtain ⟨e, _, rfl⟩ := List.mem_map.1 hx
        exact memberOk_entry e)
      (by simpa [mapJson, List.map_map, Function.comp_def, memberKV, entryMember] using h)
    simpa [marshalMap, List.map_map, Function.comp_def, memberText, entryMember, marshalEntry]
      using hobj

theorem scanWhole_marshalData (d : Data) :
    scanWhole Scan.init (marshalData d) = .ok (dataJson d) := by
  have hm : MemberOk (lit "documents", mapJson d.Documents, marshalMap d.Documents) :=
    fun _ _ => feeds_map _ _ _ d.Documents rfl
  have h1 := feeds_first_member _ hm [] []
  have h0 : Feeds Scan.init ['{'] ⟨[.objKey []], .beginStringOrEmpty⟩ := Feeds.char rfl
  have h := Feeds.append h0 h1 ['}']
  have ht : marshalData d =
      ['{'] ++ memberText (lit "documents", mapJson d.Documents, marshalMap d.Documents)
        ++ ['}'] := by
    simp only [marshalData, memberText, List.append_assoc, List.cons_append]
    rfl
  rw [ht, h]
  rfl

/-! ## Decoding what was encoded -/

theorem toText_toStr (t : Text) : (Text.toStr t).toText = t := by
  induction t with
  | nil => rfl
  | cons c t ih =>
    have : Str.toText (Text.toStr (c :: t)) = c :: Str.toText (Text.toStr t) := rfl
    rw [this, ih]

theorem storeStrings_map_str : ∀ (xs old : List Str), (∀ x ∈ xs, Str.Valid x) →
    storeStrings old (xs.map fun x => .str x.toText) = some xs := by
  intro xs
  induction xs with
  | nil => intro old _; rfl
  | cons x xs ih =>
    intro old h
    have hx : x.toText.toStr = x := h x (List.mem_cons_self _ _)
    simp [storeStrings, setString, hx, ih _ (fun y hy => h y (List.mem_cons_of_mem _ hy))]

theorem setStrings_stringsJson (old xs : Option (List Str))
    (h : ∀ ps, xs = some ps → ∀ p ∈ ps, Str.Valid p) :
    setStrings old (stringsJson xs) = some xs := by
  cases xs with
  | none => rfl
  | some xs => simp [setStrings, stringsJson, storeStrings_map_str xs _ (h xs rfl)]

theorem storeFields_documentMembers (d : Document) (hv : d.Valid) :
    storeFields setDocumentField Document.zero ((documentMembers d).map memberKV) = some d := by
  have k1 : foldName (lit "id").toText = "ID".toList := by decide
  have k2 : foldName (lit "source_url").toText = "SOURCE_URL".toList := by decide
  have k3 : foldName (lit "image_paths").toText = "IMAGE_PATHS".toList := by decide
  have k4 : foldName (lit "pdf_path").toText = "PDF_PATH".toList := by decide
  have k5 : foldName (lit "json_path").toText = "JSON_PATH".toList := by decide
  have k6 : foldName (lit "type").toText = "TYPE".toList := by decide
  obtain ⟨v1, v2, v3, v4, v5, v6⟩ := hv
  unfold Str.Valid at v1 v2 v4 v5 v6
  simp only [documentMembers, List.map, memberKV, storeFields, setDocumentField, k1, k2, k3, k4,
    k5, k6, setString, setStrings_stringsJson _ _ v3, Option.map_some', if_true, v1, v2, v4, v5,
    v6]
  rfl

theorem documentJson_eq (d : Document) :
    documentJson d = .obj ((documentMembers d).map memberKV) := rfl

theorem unmarshalDocPtr_docPtrJson (v : Option Document) (hv : DocPtrValid v) :
    unmarshalDocPtr (docPtrJson v) = some v := by
  cases v with
  | none => rfl
  | some d =>
    have := storeFields_documentMembers d (hv d rfl)
    simp only [unmarshalDocPtr, docPtrJson, documentJson_eq, this, Option.map_some']

theorem mapSet_append (k : Str) (v : Option Document) :
    ∀ acc : DocMap, k ∉ acc.map (·.1) → mapSet acc k v = acc ++ [(k, v)] := by
  intro acc
  induction acc with
  | nil => intro _; rfl
  | cons e acc ih =>
    intro h
    obtain ⟨k', v'⟩ := e
    simp only [List.map_cons, List.mem_cons, not_or] at h
    have hne : k' ≠ k := fun hh => h.1 hh.symm
    simp [mapSet, hne, ih h.2]

theorem storeFields_entries :
    ∀ (es acc : DocMap), KeysNodup (acc ++ es) → MapValid es →
      storeFields setMapEntry acc (es.map fun e => (e.1.toText, docPtrJson e.2)) =
        some (acc ++ es) := by
  intro es
  induction es with
  | nil => intro acc _ _; simp [storeFields]
  | cons e es ih =>
    intro acc h hv
    obtain ⟨k, v⟩ := e
    have hk : k ∉ acc.map (·.1) := by
      unfold KeysNodup at h
      simp only [List.map_append, List.map_cons] at h
      have := (List.nodup_append.1 h).2.2
      intro hin
      exact this hin (List.mem_cons_self _ _)
    have h' : KeysNodup ((acc ++ [(k, v)]) ++ es) := by
      simpa [KeysNodup, List.append_assoc] using h
    have hkv : k.toText.toStr = k := (hv (k, v) (List.mem_cons_self _ _)).1
    have hvv : DocPtrValid v := (hv (k, v) (List.mem_cons_self _ _)).2
    simp only [List.map_cons, storeFields, setMapEntry, unmarshalDocPtr_docPtrJson v hvv,
      Option.map_some', hkv, mapSet_append k v acc hk]
    rw [ih (acc ++ [(k, v)]) h' (fun x hx => hv x (List.mem_cons_of_mem _ hx))]
    simp

theorem sortKeys_perm (m : DocMap) : (sortKeys m).Perm m := List.perm_insertionSort keyLe m

theorem keysNodup_of_perm {m m' : DocMap} (h : m.Perm m') (hm : KeysNodup m') : KeysNodup m :=
  ((h.map (fun e : Str × Option Document => e.1)).nodup_iff).2 hm

theorem mapValid_of_perm {m m' : DocMap} (h : m.Perm m') (hm : MapValid m') : MapValid m :=
  fun e he => hm e (h.mem_iff.1 he)

theorem mapGet_eq_some_iff (m : DocMap) (hm : KeysNodup m) (k : Str) (v : Option Document) :
    mapGet m k = some v ↔ (k, v) ∈ m := by
  induction m with
  | nil => simp [mapGet]
  | cons e m ih =>
    obtain ⟨k', v'⟩ := e
    have hm' : KeysNodup m := (List.nodup_cons.1 hm).2
    have hk' : k' ∉ m.map (·.1) := (List.nodup_cons.1 hm).1
    by_cases hk : k' = k
    · subst hk
      simp only [mapGet, if_true, Option.some.injEq, List.mem_cons, Prod.mk.injEq, true_and]
      constructor
      · intro h; exact Or.inl h.symm
      · rintro (h | h)
        · exact h.symm
        · exact absurd (List.mem_map_of_mem (·.1) h) hk'
    · simp only [mapGet, hk, if_false, List.mem_cons, Prod.mk.injEq]
      rw [ih hm']
      constructor
      · intro h; exact Or.inr h
      · rintro (h | h)
        · exact absurd h.1.symm hk
        · exact h

theorem mapGet_perm {m m' : DocMap} (h : m.Perm m') (hm : KeysNodup m') (k : Str) :
    mapGet m k = mapGet m' k := by
  have hm1 : KeysNodup m := keysNodup_of_perm h hm
  cases h1 : mapGet m' k with
  | some v =>
    exact (mapGet_eq_some_iff m hm1 k v).2 (h.mem_iff.2 ((mapGet_eq_some_iff m' hm k v).1 h1))
  | none =>
    cases h2 : mapGet m k with
    | none => rfl
    | some v =>
      have := (mapGet_eq_some_iff m' hm k v).2 (h.mem_iff.1 ((mapGet_eq_some_iff m hm1 k v).1 h2))
      rw [h1] at this
      cases this

theorem unmarshalData_dataJson (d : Data)
    (hd : ∀ m, d.Documents = some m → KeysNodup m)
    (hv : ∀ m, d.Documents = some m → MapValid m) :
    unmarshalData (dataJson d) = some ⟨d.Documents.map sortKeys⟩ := by
  have k : foldName "documents".toList = "DOCUMENTS".toList := by decide
  cases hdoc : d.Documents with
  | none => simp [unmarshalData, dataJson, storeFields, setDataField, k, hdoc, mapJson]
  | some m =>
    have hs : KeysNodup ([] ++ sortKeys m) := keysNodup_of_perm (sortKeys_perm m) (hd m hdoc)
    have := storeFields_entries (sortKeys m) [] hs
      (mapValid_of_perm (sortKeys_perm m) (hv m hdoc))
    have k' : foldName ("documents".toList, mapJson d.Documents).1 = "DOCUMENTS".toList := k
    simp only [unmarshalData, dataJson, storeFields, setDataField, k', if_true, hdoc, mapJson,
      Option.getD, this, Option.map_some', List.nil_append, Option.map]

theorem decodeData_marshalData (d : Data) (hd : ∀ m, d.Documents = some m → KeysNodup m)
    (hv : ∀ m, d.Documents = some m → MapValid m) :
    decodeData (marshalData d).toStr = .ok ⟨d.Documents.map sortKeys⟩ := by
  simp only [decodeData, toText_toStr, scanWhole_marshalData, unmarshalData_dataJson d hd hv]

/-! ## The store -/

theorem mapGet_mapSet (k : Str) (v : Option Document) :
    ∀ (m : DocMap) (k' : Str),
      mapGet (mapSet m k v) k' = if k' = k then some v else mapGet m k' := by
  intro m
  induction m with
  | nil =>
    intro k'
    by_cases h : k' = k
    · subst h; simp [mapSet, mapGet]
    · have h' : ¬ k = k' := fun hh => h hh.symm
      simp [mapSet, mapGet, h, h']
  | cons e m ih =>
    intro k'
    obtain ⟨k0, v0⟩ := e
    by_cases h0 : k0 = k
    · subst h0
      by_cases h : k' = k0
      · subst h; simp [mapSet, mapGet]
      · have h' : ¬ k0 = k' := fun hh => h hh.symm
        simp [mapSet, mapGet, h, h']
    · by_cases h : k' = k
      · subst h
        have h0' : ¬ k0 = k' := h0
        simp [mapSet, mapGet, h0', ih]
      · by_cases h1 : k0 = k'
        · subst h1; simp [mapSet, mapGet, h0]
        · simp [mapSet, mapGet, h0, h1, h, ih]

theorem mem_keys_mapSet (k : Str) (v : Option Document) :
    ∀ (m : DocMap) (k' : Str), k' ∈ (mapSet m k v).map (·.1) ↔ k' = k ∨ k' ∈ m.map (·.1) := by
  intro m
  induction m with
  | nil => intro k'; simp [mapSet]
  | cons e m ih =>
    intro k'
    obtain ⟨k0, v0⟩ := e
    by_cases h0 : k0 = k
    · subst h0; simp [mapSet]
    · simp only [mapSet, h0, if_false, List.map_cons, List.mem_cons, ih]
      tauto

theorem keysNodup_mapSet (k : Str) (v : Option Document) :
    ∀ m : DocMap, KeysNodup m → KeysNodup (mapSet m k v) := by
  intro m
  induction m with
  | nil => intro _; simp [mapSet, KeysNodup]
  | cons e m ih =>
    intro h
    obtain ⟨k0, v0⟩ := e
    have h1 := List.nodup_cons.1 h
    by_cases h0 : k0 = k
    · subst h0
      simpa [mapSet, KeysNodup] using h
    · have : KeysNodup (mapSet m k v) := ih h1.2
      simp only [mapSet, h0, if_false, KeysNodup, List.map_cons, List.nodup_cons]
      refine ⟨?_, this⟩
      intro hin
      rcases (mem_keys_mapSet k v m k0).1 hin with hh | hh
      · exact h0 hh
      · exact h1.1 hh

theorem toStr_valid (t : Text) : Str.Valid (Text.toStr t) :=
  congrArg Text.toStr (toText_toStr t)

theorem lit_valid (s : String) : (lit s).Valid := toStr_valid s.toList

theorem save_of_canWrite (s : Store) (disk : Disk) (hw : disk.canWrite = true) :
    s.save disk = (none, { disk with content := some (marshalDataPtr s.data).toStr }) := by
  simp [Store.save, Disk.writeFile, hw]

theorem save_cases (s : Store) (disk : Disk) :
    s.save disk = (none, { disk with content := some (marshalDataPtr s.data).toStr }) ∨
      s.save disk = (some .io, disk) := by
  by_cases hw : disk.canWrite = true
  · exact Or.inl (save_of_canWrite s disk hw)
  · right; simp [Store.save, Disk.writeFile, hw]

theorem AppendDocument_ok (s : Store) (disk : Disk) (id : Str) (r : Option Document)
    (s' : Store) (disk' : Disk) (h : s.AppendDocument disk id r = .ret (none, s', disk')) :
    ∃ data, s.data = some data ∧
      s' = ⟨some ⟨some (mapSet (data.Documents.getD []) id r)⟩⟩ ∧
      disk.canWrite = true ∧
      disk' = { disk with content := some (marshalDataPtr s'.data).toStr } := by
  unfold Store.AppendDocument at h
  cases hd : s.data with
  | none => rw [hd] at h; cases h
  | some data =>
    rw [hd] at h
    have hdocs : (match data.Documents with
        | none => ([] : DocMap)
        | some m => m) = data.Documents.getD [] := by
      cases data.Documents <;> rfl
    simp only [hdocs] at h
    refine ⟨data, rfl, ?_⟩
    rcases save_cases ⟨some ⟨some (mapSet (data.Documents.getD []) id r)⟩⟩ disk with hs | hs
    · rw [hs] at h
      simp only [Run.ret.injEq, Prod.mk.injEq, true_and] at h
      obtain ⟨h1, h2⟩ := h
      subst h1
      by_cases hw : disk.canWrite = true
      · exact ⟨rfl, hw, h2.symm⟩
      · simp [Store.save, Disk.writeFile, hw] at hs
    · rw [hs] at h
      simp at h

theorem Init_of_snapshot (disk : Disk) (d : Data)
    (hd : ∀ m, d.Documents = some m → KeysNodup m)
    (hv : ∀ m, d.Documents = some m → MapValid m)
    (hc : disk.content = some (marshalData d).toStr) (hr : disk.canRead = true) :
    Store.new.Init disk = (none, ⟨some ⟨d.Documents.map sortKeys⟩⟩, disk) := by
  simp [Store.Init, hc, Disk.readFile, hr, decodeData_marshalData d hd hv]

theorem mapValid_mapSet (k : Str) (v : Option Document) (hk : Str.Valid k)
    (hv : DocPtrValid v) :
    ∀ m : DocMap, MapValid m → MapValid (mapSet m k v) := by
  intro m
  induction m with
  | nil =>
    intro _ e he
    simp only [mapSet, List.mem_singleton] at he
    subst he
    exact ⟨hk, hv⟩
  | cons e0 m ih =>
    intro hm e he
    obtain ⟨k0, v0⟩ := e0
    by_cases h0 : k0 = k
    · simp only [mapSet, h0, if_true, List.mem_cons] at he
      rcases he with he | he
      · subst he; exact ⟨hk, hv⟩
      · exact hm e (List.mem_cons_of_mem _ he)
    · simp only [mapSet, h0, if_false, List.mem_cons] at he
      rcases he with he | he
      · subst he; exact hm _ (List.mem_cons_self _ _)
      · exact ih (fun x hx => hm x (List.mem_cons_of_mem _ hx)) e he

/-- C1, as amended. Persistence round-trip for strings that are valid UTF-8: if
`AppendDocument(id, r)` succeeds on a store (whose map has distinct keys), and
`id`, the strings of `r` and the strings the store holds are valid UTF-8, then
the in-memory mapping is the old one with `id` bound to `r`; (1) the snapshot
written by `save` decodes to a `Data` whose map holds exactly the entries of the
in-memory map; and (2) a fresh store whose `Init` reads that snapshot answers
`RetrieveDocument(id)` with `r` and `RetrieveDocument(id')` with the previous
answer for every other `id'`. -/
theorem AppendDocument_roundtrip (s : Store) (disk : Disk) (id : Str) (r : Option Document)
    (s' : Store) (disk' : Disk) (hwf : s.WF) (hvalid : s.Valid) (hid : Str.Valid id)
    (hr : DocPtrValid r)
    (h : s.AppendDocument disk id r = .ret (none, s', disk')) :
    ∃ data raw m',
      s.data = some data ∧ disk'.content = some raw ∧ s'.data = some ⟨some m'⟩ ∧
      (∀ k, mapGet m' k = if k = id then some r else mapGet (data.Documents.getD []) k) ∧
      (∃ m'', decodeData raw = .ok ⟨some m''⟩ ∧ m''.Perm m') ∧
      (disk'.canRead = true →
        ∃ s2, Store.new.Init disk' = (none, s2, disk') ∧
          s2.RetrieveDocument id = .ret r ∧
          ∀ k, k ≠ id → s2.RetrieveDocument k = s.RetrieveDocument k) := by
  obtain ⟨data, hdata, hs', _, hdisk'⟩ := AppendDocument_ok s disk id r s' disk' h
  have hold : KeysNodup (data.Documents.getD []) := by
    cases hdoc : data.Documents with
    | none => simp [KeysNodup]
    | some m => exact hwf data m hdata hdoc
  have holdv : MapValid (data.Documents.getD []) := by
    cases hdoc : data.Documents with
    | none => intro e he; simp at he
    | some m => exact hvalid data m hdata hdoc
  have hnew : KeysNodup (mapSet (data.Documents.getD []) id r) := keysNodup_mapSet id r _ hold
  have hnewv : MapValid (mapSet (data.Documents.getD []) id r) :=
    mapValid_mapSet id r hid hr _ holdv
  have hd : ∀ m, (⟨some (mapSet (data.Documents.getD []) id r)⟩ : Data).Documents = some m →
      KeysNodup m := by
    intro m hm
    cases hm
    exact hnew
  have hdv : ∀ m, (⟨some (mapSet (data.Documents.getD []) id r)⟩ : Data).Documents = some m →
      MapValid m := by
    intro m hm
    cases hm
    exact hnewv
  have hraw : disk'.content =
      some (marshalData ⟨some (mapSet (data.Documents.getD []) id r)⟩).toStr := by
    rw [hdisk', hs']; rfl
  have hperm := sortKeys_perm (mapSet (data.Documents.getD []) id r)
  refine ⟨data, _, mapSet (data.Documents.getD []) id r, hdata, hraw, by rw [hs'],
    mapGet_mapSet id r _, ⟨sortKeys _, decodeData_marshalData _ hd hdv, hperm⟩, ?_⟩
  intro hr
  refine ⟨_, Init_of_snapshot disk' _ hd hdv hraw hr, ?_, ?_⟩
  · simp [Store.RetrieveDocument, mapGet_perm hperm hnew, mapGet_mapSet]
  · intro k hk
    simp [Store.RetrieveDocument, mapGet_perm hperm hnew, mapGet_mapSet, hk, hdata]

theorem emptyStore_wf : emptyStore.WF := by
  intro data m h1 h2
  cases h1
  cases h2

theorem emptyStore_valid : emptyStore.Valid := by
  intro data m h1 h2
  cases h1
  cases h2

theorem exampleDoc_valid : exampleDoc.Valid := by
  refine ⟨lit_valid _, lit_valid _, ?_, lit_valid _, rfl, rfl⟩
  intro ps hps p hp
  cases hps
  simp only [List.mem_cons, List.mem_singleton, List.not_mem_nil, or_false] at hp
  rcases hp with h | h <;> subst h <;> exact lit_valid _

/-- Witness for C1 as amended: appending `exampleDoc` to the empty store. -/
theorem AppendDocument_roundtrip_witness :
    ∃ s2, Store.new.Init
        { emptyDisk with content := some (marshalDataPtr exampleStore.data).toStr } =
          (none, s2,
            { emptyDisk with content := some (marshalDataPtr exampleStore.data).toStr }) ∧
      s2.RetrieveDocument (lit "a.pdf") = .ret (some exampleDoc) := by
  obtain ⟨_, _, _, _, _, _, _, _, h⟩ :=
    AppendDocument_roundtrip emptyStore emptyDisk (lit "a.pdf") (some exampleDoc)
      exampleStore { emptyDisk with content := some (marshalDataPtr exampleStore.data).toStr }
      emptyStore_wf emptyStore_valid (lit_valid _)
      (by intro d hd; cases hd; exact exampleDoc_valid) rfl
  obtain ⟨s2, h1, h2, _⟩ := h rfl
  exact ⟨s2, h1, h2⟩

/-- C1, counterexample. For an identifier that is not valid UTF-8 (a file name
with the byte 0xFF) `AppendDocument` succeeds and the store in memory answers
`RetrieveDocument(id)` with the record, but the snapshot holds the key with the
byte replaced by U+FFFD: a fresh store whose `Init` reads the snapshot answers
`RetrieveDocument(id)` with nil. -/
theorem AppendDocument_roundtrip_fails :
    ∃ s' disk' s2,
      emptyStore.AppendDocument emptyDisk badId (some badDoc) = .ret (none, s', disk') ∧
      s'.RetrieveDocument badId = .ret (some badDoc) ∧
      Store.new.Init disk' = (none, s2, disk') ∧
      s2.RetrieveDocument badId = .ret none :=
  ⟨_, _, _, rfl, rfl, rfl, rfl⟩

theorem UpdateDocumentType_absent (s : Store) (disk : Disk) (id label : Str) (data : Data)
    (hdata : s.data = some data) (hg : mapGet (data.Documents.getD []) id = none) :
    s.UpdateDocumentType disk id label = .ret (some .documentNotFound, s, disk) := by
  simp [Store.UpdateDocumentType, hdata, hg]

theorem UpdateDocumentType_nil (s : Store) (disk : Disk) (id label : Str) (data : Data)
    (hdata : s.data = some data) (hg : mapGet (data.Documents.getD []) id = some none) :
    s.UpdateDocumentType disk id label = .panic := by
  simp [Store.UpdateDocumentType, hdata, hg]

theorem UpdateDocumentType_present (s : Store) (disk : Disk) (id label : Str) (data : Data)
    (doc : Document) (hdata : s.data = some data) (hw : disk.canWrite = true)
    (hg : mapGet (data.Documents.getD []) id = some (some doc)) :
    s.UpdateDocumentType disk id label =
      .ret (none,
        ⟨some ⟨some (mapSet (data.Documents.getD []) id (some { doc with DocType := label }))⟩⟩,
        { disk with content := some (marshalData
            ⟨some (mapSet (data.Documents.getD []) id
              (some { doc with DocType := label }))⟩).toStr }) := by
  simp [Store.UpdateDocumentType, hdata, hg, save_of_canWrite _ disk hw, marshalDataPtr]

theorem keys_mapSet_of_mem (k : Str) (v : Option Document) :
    ∀ m : DocMap, (∃ w, mapGet m k = some w) → (mapSet m k v).map (·.1) = m.map (·.1) := by
  intro m
  induction m with
  | nil => rintro ⟨w, hw⟩; simp [mapGet] at hw
  | cons e m ih =>
    rintro ⟨w, hw⟩
    obtain ⟨k0, v0⟩ := e
    by_cases h0 : k0 = k
    · subst h0; simp [mapSet]
    · simp only [mapGet, h0, if_false] at hw
      simp [mapSet, h0, ih ⟨w, hw⟩]

/-- C2, as amended. `UpdateDocumentType(id, label)` on an initialised store whose
disk write succeeds: it returns the not-found error exactly when `id` is absent,
and then neither the store nor the snapshot file changes; when `id` is bound to
a record (a pointer that is not nil), it returns no error, the new mapping is the old one except that the record of
`id` has `Type = label` (its other fields, the keys and all other entries
unchanged), and the snapshot file is rewritten to the encoding of that mapping. -/
theorem UpdateDocumentType_spec (s : Store) (disk : Disk) (id label : Str) (data : Data)
    (hdata : s.data = some data) (hw : disk.canWrite = true) :
    ((∃ s' disk', s.UpdateDocumentType disk id label = .ret (some .documentNotFound, s', disk'))
        ↔ mapGet (data.Documents.getD []) id = none) ∧
    (mapGet (data.Documents.getD []) id = none →
      s.UpdateDocumentType disk id label = .ret (some .documentNotFound, s, disk)) ∧
    (∀ doc, mapGet (data.Documents.getD []) id = some (some doc) →
      ∃ m',
        s.UpdateDocumentType disk id label =
          .ret (none, ⟨some ⟨some m'⟩⟩,
            { disk with content := some (marshalData ⟨some m'⟩).toStr }) ∧
        (∀ k, mapGet m' k =
          if k = id then some (some { doc with DocType := label })
          else mapGet (data.Documents.getD []) k) ∧
        m'.map (·.1) = (data.Documents.getD []).map (·.1)) := by
  refine ⟨?_, ?_, ?_⟩
  · constructor
    · rintro ⟨s', disk', h⟩
      cases hg : mapGet (data.Documents.getD []) id with
      | none => rfl
      | some v =>
        cases v with
        | none => rw [UpdateDocumentType_nil s disk id label data hdata hg] at h; cases h
        | some doc =>
          rw [UpdateDocumentType_present s disk id label data doc hdata hw hg] at h
          cases h
    · intro hg
      exact ⟨s, disk, UpdateDocumentType_absent s disk id label data hdata hg⟩
  · exact UpdateDocumentType_absent s disk id label data hdata
  · intro doc hg
    exact ⟨mapSet (data.Documents.getD []) id (some { doc with DocType := label }),
      UpdateDocumentType_present s disk id label data doc hdata hw hg,
      mapGet_mapSet id _ _, keys_mapSet_of_mem id _ _ ⟨_, hg⟩⟩

/-- Witness for C2: relabelling a stored record, and an absent identifier. -/
theorem UpdateDocumentType_spec_witness :
    exampleStore.UpdateDocumentType emptyDisk (lit "b.pdf") (lit "a") =
        .ret (some .documentNotFound, exampleStore, emptyDisk) ∧
    ∃ m', exampleStore.UpdateDocumentType emptyDisk (lit "a.pdf") (lit "a") =
        .ret (none, ⟨some ⟨some m'⟩⟩,
          { emptyDisk with content := some (marshalData ⟨some m'⟩).toStr }) ∧
      mapGet m' (lit "a.pdf") = some (some { exampleDoc with DocType := lit "a" }) := by
  have h := UpdateDocumentType_spec exampleStore emptyDisk (lit "a.pdf") (lit "a")
    ⟨some [(lit "a.pdf", some exampleDoc)]⟩ rfl rfl
  have h' := UpdateDocumentType_spec exampleStore emptyDisk (lit "b.pdf") (lit "a")
    ⟨some [(lit "a.pdf", some exampleDoc)]⟩ rfl rfl
  refine ⟨h'.2.1 (by decide), ?_⟩
  obtain ⟨m', h1, h2, _⟩ := h.2.2 exampleDoc (by decide)
  exact ⟨m', h1, by simpa using h2 (lit "a.pdf")⟩

/-- C2, counterexample. A snapshot in which `a.pdf` is bound to `null` loads
without error, so the identifier is present in the store with a nil pointer;
`UpdateDocumentType` finds the key and panics when it sets `Type` through the
pointer. -/
theorem UpdateDocumentType_nil_entry :
    ∃ s, Store.new.Init nullEntryDisk = (none, s, nullEntryDisk) ∧
      s.data = some ⟨some [(lit "a.pdf", none)]⟩ ∧
      mapGet [(lit "a.pdf", none)] (lit "a.pdf") = some none ∧
      s.UpdateDocumentType nullEntryDisk (lit "a.pdf") (lit "a") = .panic :=
  ⟨_, rfl, rfl, rfl, rfl⟩

/-! ## Classification -/

theorem verdict_inv (env : Env) (oracle : Oracle) (docImage : Str) (label : Str)
    (ss : List Document) (c : ClassificationOutput)
    (h : verdict env oracle docImage (label, ss) = some c) :
    ∃ sample tl enc res choice tl',
      ss = sample :: tl ∧ sample.ImageAsBase64 env = .ret enc ∧
      sampleRequest env docImage (label, ss) =
        some (comparisonRequest docImage (discardErr enc)) ∧
      oracle (comparisonRequest docImage (discardErr enc)) = .ok res ∧
      res.Choices = choice :: tl' ∧ getClassification choice = .ret (.ok c) := by
  unfold verdict at h
  cases ss with
  | nil => simp [sampleRequest] at h
  | cons sample tl =>
    cases henc : sample.ImageAsBase64 env with
    | panic => simp [sampleRequest, henc] at h
    | ret enc =>
      have hreq : sampleRequest env docImage (label, sample :: tl) =
          some (comparisonRequest docImage (discardErr enc)) := by
        simp [sampleRequest, henc]
      rw [hreq] at h
      simp only [Option.some_bind, answer] at h
      cases hres : oracle (comparisonRequest docImage (discardErr enc)) with
      | error e => rw [hres] at h; cases h
      | ok res =>
        rw [hres] at h
        cases hch : res.Choices with
        | nil => simp [hch] at h
        | cons choice tl' =>
          simp only [hch] at h
          cases hg : getClassification choice with
          | panic => rw [hg] at h; cases h
          | ret r =>
            cases r with
            | error e => rw [hg] at h; cases h
            | ok c' =>
              rw [hg] at h
              cases h
              exact ⟨sample, tl, enc, res, choice, tl', rfl, henc, hreq, hres, hch, hg⟩

theorem classifyLoop_miss (env : Env) (oracle : Oracle) (docImage : Str)
    (e : Str × List Document) (rest : Samples) (c : ClassificationOutput)
    (hv : verdict env oracle docImage e = some c) (hc : c.Similar = false) :
    ∃ req, sampleRequest env docImage e = some req ∧
      (classifyLoop env oracle docImage (e :: rest)).result =
        (classifyLoop env oracle docImage rest).result ∧
      (classifyLoop env oracle docImage (e :: rest)).calls =
        req :: (classifyLoop env oracle docImage rest).calls := by
  obtain ⟨label, ss⟩ := e
  obtain ⟨sample, tl, enc, res, choice, tl', hss, henc, hreq, hres, hch, hg⟩ :=
    verdict_inv env oracle docImage label ss c hv
  subst hss
  refine ⟨_, hreq, ?_, ?_⟩ <;>
    simp [classifyLoop, henc, hres, hch, hg, hc]

theorem classifyLoop_hit (env : Env) (oracle : Oracle) (docImage : Str)
    (label : Str) (ss : List Document) (rest : Samples) (c : ClassificationOutput)
    (hv : verdict env oracle docImage (label, ss) = some c) (hc : c.Similar = true) :
    ∃ req, sampleRequest env docImage (label, ss) = some req ∧
      classifyLoop env oracle docImage ((label, ss) :: rest) =
        ⟨.ret (.ok (some { c with Label := label })), [req]⟩ := by
  obtain ⟨sample, tl, enc, res, choice, tl', hss, henc, hreq, hres, hch, hg⟩ :=
    verdict_inv env oracle docImage label ss c hv
  subst hss
  refine ⟨_, hreq, ?_⟩
  simp [classifyLoop, henc, hres, hch, hg, hc]

theorem classifyLoop_all_miss (env : Env) (oracle : Oracle) (docImage : Str) (post : Samples) :
    ∀ pre : Samples,
      (∀ e ∈ pre, ∃ c, verdict env oracle docImage e = some c ∧ c.Similar = false) →
      (classifyLoop env oracle docImage (pre ++ post)).result =
        (classifyLoop env oracle docImage post).result ∧
      (classifyLoop env oracle docImage (pre ++ post)).calls =
        pre.filterMap (sampleRequest env docImage) ++
          (classifyLoop env oracle docImage post).calls ∧
      (pre.filterMap (sampleRequest env docImage)).length = pre.length := by
  intro pre
  induction pre with
  | nil => intro _; simp
  | cons e pre ih =>
    intro h
    obtain ⟨c, hv, hc⟩ := h e (List.mem_cons_self _ _)
    obtain ⟨req, hreq, h1, h2⟩ := classifyLoop_miss env oracle docImage e (pre ++ post) c hv hc
    obtain ⟨i1, i2, i3⟩ := ih (fun x hx => h x (List.mem_cons_of_mem _ hx))
    refine ⟨?_, ?_, ?_⟩
    · rw [List.cons_append, h1, i1]
    · rw [List.cons_append, h2, i2, List.filterMap_cons, hreq]; rfl
    · rw [List.filterMap_cons, hreq]; simp [i3]

/-- C3. First-match-wins: let the registry be visited in the order
`pre ++ (label, ss) :: post`, let the document's first page encode to `docImage`,
let the oracle give a well-formed verdict "not similar" for every entry of `pre`
and a well-formed verdict "similar" for `label`. Then `classifyDocument` returns a
verdict with `Label = label` and `Similar = true`, and its oracle calls are exactly
the comparisons for `pre` and for `label`, one each and in order: no call is
issued for an entry of `post`. In particular, with two labels of which only `B`
is reported similar, the returned label is `B` in either order. -/
theorem classifyDocument_first_match (env : Env) (oracle : Oracle) (d : Document)
    (docImage : Str) (pre post : Samples) (label : Str) (ss : List Document)
    (himg : d.ImageAsBase64 env = .ret (.ok docImage))
    (hpre : ∀ e ∈ pre, ∃ c, verdict env oracle docImage e = some c ∧ c.Similar = false)
    (hhit : ∃ c, verdict env oracle docImage (label, ss) = some c ∧ c.Similar = true) :
    (∃ out, (classifyDocument env oracle (pre ++ (label, ss) :: post) d).result =
        .ret (.ok (some out)) ∧ out.Label = label ∧ out.Similar = true) ∧
    (classifyDocument env oracle (pre ++ (label, ss) :: post) d).calls =
      (pre ++ [(label, ss)]).filterMap (sampleRequest env docImage) ∧
    (classifyDocument env oracle (pre ++ (label, ss) :: post) d).calls.length = pre.length + 1 ∧
    (∀ (A B : Str) (sA sB : List Document),
      (∃ c, verdict env oracle docImage (A, sA) = some c ∧ c.Similar = false) →
      (∃ c, verdict env oracle docImage (B, sB) = some c ∧ c.Similar = true) →
      (∃ out, (classifyDocument env oracle [(A, sA), (B, sB)] d).result =
          .ret (.ok (some out)) ∧ out.Label = B) ∧
      (∃ out, (classifyDocument env oracle [(B, sB), (A, sA)] d).result =
          .ret (.ok (some out)) ∧ out.Label = B)) := by
  have key : ∀ (pre post : Samples) (label : Str) (ss : List Document),
      (∀ e ∈ pre, ∃ c, verdict env oracle docImage e = some c ∧ c.Similar = false) →
      (∃ c, verdict env oracle docImage (label, ss) = some c ∧ c.Similar = true) →
      (∃ out, (classifyDocument env oracle (pre ++ (label, ss) :: post) d).result =
        .ret (.ok (some out)) ∧ out.Label = label ∧ out.Similar = true) ∧
      (classifyDocument env oracle (pre ++ (label, ss) :: post) d).calls =
        (pre ++ [(label, ss)]).filterMap (sampleRequest env docImage) ∧
      (classifyDocument env oracle (pre ++ (label, ss) :: post) d).calls.length =
        pre.length + 1 := by
    intro pre post label ss hpre hhit
    obtain ⟨c, hv, hc⟩ := hhit
    obtain ⟨req, hreq, hloop⟩ := classifyLoop_hit env oracle docImage label ss post c hv hc
    obtain ⟨h1, h2, h3⟩ := classifyLoop_all_miss env oracle docImage ((label, ss) :: post) pre hpre
    have hcd : classifyDocument env oracle (pre ++ (label, ss) :: post) d =
        classifyLoop env oracle docImage (pre ++ (label, ss) :: post) := by
      simp [classifyDocument, himg]
    rw [hcd, h1, h2, hloop]
    refine ⟨⟨_, rfl, rfl, hc⟩, ?_, ?_⟩
    · simp [List.filterMap_append, hreq]
    · simp [h3]
  refine ⟨(key pre post label ss hpre hhit).1, (key pre post label ss hpre hhit).2.1,
    (key pre post label ss hpre hhit).2.2, ?_⟩
  intro A B sA sB hA hB
  constructor
  · obtain ⟨⟨out, h1, h2, _⟩, _⟩ := key [(A, sA)] [] B sB
      (by intro e he; simp only [List.mem_singleton] at he; subst he; exact hA) hB
    exact ⟨out, h1, h2⟩
  · obtain ⟨⟨out, h1, h2, _⟩, _⟩ := key [] [(A, sA)] B sB (by intro e he; cases he) hB
    exact ⟨out, h1, h2⟩

/-- Witness for C3: labels `a` and `b`, an oracle that reports "similar" only for `b`. -/
theorem classifyDocument_first_match_witness :
    (∃ out, (classifyDocument exampleEnv oracleOnlyB
        [((lit "a"), [sampleA]), ((lit "b"), [sampleB])] exampleDoc).result =
          .ret (.ok (some out)) ∧ out.Label = (lit "b") ∧ out.Similar = true) ∧
    (∃ out, (classifyDocument exampleEnv oracleOnlyB
        [((lit "b"), [sampleB]), ((lit "a"), [sampleA])] exampleDoc).result =
          .ret (.ok (some out)) ∧ out.Label = (lit "b")) := by
  have h := classifyDocument_first_match exampleEnv oracleOnlyB exampleDoc (lit "img/a_0.png")
    [((lit "a"), [sampleA])] [] (lit "b") [sampleB] rfl
    (by
      intro e he
      simp only [List.mem_singleton] at he
      subst he
      exact ⟨⟨[], false⟩, rfl, rfl⟩)
    ⟨⟨[], true⟩, rfl, rfl⟩
  refine ⟨h.1, ?_⟩
  exact (h.2.2.2 (lit "a") (lit "b") [sampleA] [sampleB] ⟨⟨[], false⟩, rfl, rfl⟩
    ⟨⟨[], true⟩, rfl, rfl⟩).2

/-- C5. No-match path: if the document's first page encodes to `docImage` and the
oracle gives a well-formed verdict "not similar" for every entry of the registry,
then `classifyDocument` returns "no match" (no verdict and no error), and its
oracle calls are exactly the comparisons for the entries of the registry, one for
each entry and in order. -/
theorem classifyDocument_no_match (env : Env) (oracle : Oracle) (d : Document)
    (docImage : Str) (samples : Samples)
    (himg : d.ImageAsBase64 env = .ret (.ok docImage))
    (hall : ∀ e ∈ samples, ∃ c, verdict env oracle docImage e = some c ∧ c.Similar = false) :
    (classifyDocument env oracle samples d).result = .ret (.ok none) ∧
    (classifyDocument env oracle samples d).calls =
      samples.filterMap (sampleRequest env docImage) ∧
    (classifyDocument env oracle samples d).calls.length = samples.length := by
  obtain ⟨h1, h2, h3⟩ := classifyLoop_all_miss env oracle docImage [] samples hall
  have hcd : classifyDocument env oracle samples d = classifyLoop env oracle docImage samples := by
    simp only [classifyDocument, himg]
  rw [List.append_nil] at h1 h2
  rw [hcd, h1, h2]
  refine ⟨rfl, ?_, ?_⟩
  · simp [classifyLoop]
  · simp [classifyLoop, h3]

/-- Witness for C5: two labels and an oracle that never reports "similar". -/
theorem classifyDocument_no_match_witness :
    (classifyDocument exampleEnv oracleNone
      [((lit "a"), [sampleA]), ((lit "b"), [sampleB])] exampleDoc).result = .ret (.ok none) ∧
    (classifyDocument exampleEnv oracleNone
      [((lit "a"), [sampleA]), ((lit "b"), [sampleB])] exampleDoc).calls.length = 2 := by
  have h := classifyDocument_no_match exampleEnv oracleNone exampleDoc (lit "img/a_0.png")
    [((lit "a"), [sampleA]), ((lit "b"), [sampleB])] rfl
    (by
      intro e he
      simp only [List.mem_cons, List.mem_singleton, List.not_mem_nil, or_false] at he
      rcases he with he | he <;> subst he <;> exact ⟨⟨[], false⟩, rfl, rfl⟩)
  exact ⟨h.1, h.2.2⟩

/-! ## Start-up -/

/-- C8 (code at the failing input). With a snapshot file that is not JSON,
`Store.Init` returns an error and leaves the store without data, yet `App.Init`
returns no error, and `main` goes on to `app.Run` with that store. -/
theorem App_Init_ignores_store_error :
    (Store.new.Init brokenDisk).1 = some (.json .syntaxErr) ∧
    ((App.new exampleConfig).Init exampleOs exampleDefaults brokenDisk).1 = none ∧
    ((App.new exampleConfig).Init exampleOs exampleDefaults brokenDisk).2.1.store =
      some ⟨none⟩ ∧
    mainInit exampleConfig exampleOs exampleDefaults brokenDisk =
      .run ⟨exampleConfig, some ⟨none⟩, true⟩ brokenDisk := by
  refine ⟨rfl, rfl, rfl, rfl⟩

/-- C9 (code at the failing input). For a document whose `ImagePaths` is empty,
`ImageAsBase64` panics (index out of range) and so does `classifyDocument`, with
no oracle call; and when the image of a sample cannot be read, `classifyDocument`
goes on with an empty sample image and returns "no match", not an error. -/
theorem classifyDocument_missing_image :
    ({ exampleDoc with ImagePaths := some [] } : Document).ImageAsBase64 exampleEnv = .panic ∧
    (classifyDocument exampleEnv oracleNone [((lit "a"), [sampleA])]
      { exampleDoc with ImagePaths := some [] }).result = .panic ∧
    (classifyDocument exampleEnv oracleNone [((lit "a"), [sampleA])]
      { exampleDoc with ImagePaths := some [] }).calls = [] ∧
    sampleA.ImageAsBase64 envNoSampleImage = .ret (.error .io) ∧
    (classifyDocument envNoSampleImage oracleNone [((lit "a"), [sampleA])] exampleDoc).result =
      .ret (.ok none) := by
  refine ⟨rfl, rfl, rfl, rfl, rfl⟩

/-! ## `strings.ReplaceAll` -/

theorem replaceGo_skip (old new : Str) :
    ∀ (pre s : Str), replaceGo old new pre.length (pre ++ s) = replaceGo old new 0 s := by
  intro pre
  induction pre with
  | nil => intro s; rfl
  | cons a pre ih =>
    intro s
    show replaceGo old new (pre.length + 1) (a :: (pre ++ s)) = _
    cases hps : pre ++ s with
    | nil =>
      have : s = [] := (List.append_eq_nil.1 hps).2
      have hp : pre = [] := (List.append_eq_nil.1 hps).1
      subst this; subst hp
      rfl
    | cons b t =>
      rw [replaceGo, ← hps]
      exact ih s

theorem replaceGo_at_old (old new s : Str) (hold : old ≠ []) :
    replaceGo old new 0 (old ++ s) = new ++ replaceGo old new 0 s := by
  cases old with
  | nil => exact absurd rfl hold
  | cons a t =>
    have hp : (a :: t).isPrefixOf (a :: (t ++ s)) = true := isPrefixOf_self_append (a :: t) s
    show replaceGo (a :: t) new 0 (a :: (t ++ s)) = _
    rw [replaceGo, if_pos hp]
    simp only [List.length_cons, Nat.add_sub_cancel]
    rw [replaceGo_skip]

/-- When the first character of `old` does not occur again in `old`, an
occurrence of `old` cannot start inside `u` and end inside a following `old`. -/
theorem isPrefixOf_append_self (c : Elem) (t : Str) (hc : c ∉ t) (a : Elem) (u s : Str) :
    (c :: t).isPrefixOf (a :: u ++ (c :: t) ++ s) = (c :: t).isPrefixOf (a :: u) := by
  show (c == a && t.isPrefixOf (u ++ (c :: t) ++ s)) = (c == a && t.isPrefixOf u)
  cases t with
  | nil => simp [List.isPrefixOf]
  | cons b t' =>
    have := isPrefixOf_append_barrier c (b :: t' ++ s) (b :: t') u (by simp) hc
    simp only [List.append_assoc, List.cons_append] at this ⊢
    rw [this]

theorem isPrefixOf_length_le {p s : Str} (h : p.isPrefixOf s = true) : p.length ≤ s.length := by
  induction p generalizing s with
  | nil => simp
  | cons a p ih =>
    cases s with
    | nil => simp [List.isPrefixOf] at h
    | cons b s =>
      have h' : (a == b && p.isPrefixOf s) = true := h
      rw [Bool.and_eq_true] at h'
      simpa using ih h'.2

theorem isPrefixOf_eq_append {p s : Str} (h : p.isPrefixOf s = true) : ∃ r, s = p ++ r := by
  induction p generalizing s with
  | nil => exact ⟨s, rfl⟩
  | cons a p ih =>
    cases s with
    | nil => simp [List.isPrefixOf] at h
    | cons b s =>
      have h' : (a == b && p.isPrefixOf s) = true := h
      rw [Bool.and_eq_true] at h'
      obtain ⟨r, hr⟩ := ih h'.2
      have hab : a = b := by simpa using h'.1
      exact ⟨r, by rw [hr, hab]; rfl⟩

theorem replaceAll_append_old (c : Elem) (t : Str) (hc : c ∉ t) (new : Str) :
    ∀ (n : Nat) (s : Str), s.length ≤ n →
      replaceGo (c :: t) new 0 (s ++ (c :: t)) = replaceGo (c :: t) new 0 s ++ new := by
  intro n
  induction n with
  | zero =>
    intro s hs
    have : s = [] := List.length_eq_zero.1 (Nat.le_zero.1 hs)
    subst this
    have := replaceGo_at_old (c :: t) new [] (by simp)
    simpa [replaceGo] using this
  | succ n ih =>
    intro s hs
    cases s with
    | nil =>
      have := replaceGo_at_old (c :: t) new [] (by simp)
      simpa [replaceGo] using this
    | cons a u =>
      have hpre := isPrefixOf_append_self c t hc a u []
      simp only [List.append_nil] at hpre
      cases hp : (c :: t).isPrefixOf (a :: u) with
      | true =>
        obtain ⟨r, hr⟩ := isPrefixOf_eq_append hp
        have hlen : r.length ≤ n := by
          have : (a :: u).length = (c :: t).length + r.length := by
            rw [hr, List.length_append]
          simp only [List.length_cons] at this hs
          omega
        rw [hr, List.append_assoc, replaceGo_at_old _ _ _ (by simp),
          replaceGo_at_old _ _ _ (by simp), ih r hlen, List.append_assoc]
      | false =>
        rw [hp] at hpre
        have hlen : u.length ≤ n := by simpa using hs
        show replaceGo (c :: t) new 0 (a :: (u ++ (c :: t))) =
          replaceGo (c :: t) new 0 (a :: u) ++ new
        have hpre' : (c :: t).isPrefixOf (a :: (u ++ c :: t)) = false := hpre
        rw [replaceGo, if_neg (by rw [hpre']; exact Bool.false_ne_true), ih u hlen,
          replaceGo, if_neg (by rw [hp]; exact Bool.false_ne_true)]
        rfl

theorem replaceAll_suffix (c : Elem) (t : Str) (hc : c ∉ t) (new s : Str) :
    replaceAll (s ++ (c :: t)) (c :: t) new = replaceAll s (c :: t) new ++ new :=
  replaceAll_append_old c t hc new s.length s (Nat.le_refl _)

theorem mem_replaceGo (old new : Str) (x : Elem) :
    ∀ (s : Str) (k : Nat), x ∈ replaceGo old new k s → x ∈ s ∨ x ∈ new := by
  intro s
  induction s with
  | nil => intro k h; simp [replaceGo] at h
  | cons a s ih =>
    intro k h
    cases k with
    | succ k =>
      rw [replaceGo] at h
      rcases ih k h with h1 | h1
      · exact Or.inl (List.mem_cons_of_mem _ h1)
      · exact Or.inr h1
    | zero =>
      rw [replaceGo] at h
      split_ifs at h
      · rcases List.mem_append.1 h with h1 | h1
        · exact Or.inr h1
        · rcases ih _ h1 with h2 | h2
          · exact Or.inl (List.mem_cons_of_mem _ h2)
          · exact Or.inr h2
      · rcases List.mem_cons.1 h with h1 | h1
        · exact Or.inl (by simp [h1])
        · rcases ih _ h1 with h2 | h2
          · exact Or.inl (List.mem_cons_of_mem _ h2)
          · exact Or.inr h2

/-! ## `path/filepath` lemmas -/

theorem extGo_spec :
    ∀ (r acc : Str), extGo r acc ≠ [] →
      ∃ u rest, r = u ++ (Elem.rune '.') :: rest ∧ (Elem.rune '/') ∉ u ∧ extGo r acc = Elem.rune '.' :: (u.reverse ++ acc) := by
  intro r
  induction r with
  | nil => intro acc h; exact absurd rfl h
  | cons c cs ih =>
    intro acc h
    by_cases h1 : c = Elem.rune '/'
    · simp [extGo, h1] at h
    · by_cases h2 : c = Elem.rune '.'
      · exact ⟨[], cs, by simp [h2], by simp, by simp [extGo, h2]⟩
      · have he : extGo (c :: cs) acc = extGo cs (c :: acc) := by simp [extGo, h1, h2]
        rw [he] at h
        obtain ⟨u, rest, hr, hu, hx⟩ := ih (c :: acc) h
        refine ⟨c :: u, rest, by simp [hr], ?_, ?_⟩
        · simp only [List.mem_cons, not_or]
          exact ⟨fun hh => h1 hh.symm, hu⟩
        · rw [he, hx]; simp

theorem not_mem_untilSlash : ∀ s : Str, (Elem.rune '/') ∉ untilSlash s := by
  intro s
  induction s with
  | nil => simp [untilSlash]
  | cons c cs ih =>
    by_cases h : c = Elem.rune '/'
    · simp [untilSlash, h]
    · simp only [untilSlash, h, if_false, List.mem_cons, not_or]
      exact ⟨fun hh => h hh.symm, ih⟩

theorem untilSlash_append (u s : Str) (hu : (Elem.rune '/') ∉ u) : untilSlash (u ++ s) = u ++ untilSlash s := by
  induction u with
  | nil => rfl
  | cons c u ih =>
    simp only [List.mem_cons, not_or] at hu
    have h : c ≠ (Elem.rune '/') := fun hh => hu.1 hh.symm
    simp [untilSlash, h, ih hu.2]

/-- A path that passes the test `filepath.Ext(path) == ".pdf"` has a base name
without a slash that ends in `.pdf`. -/
theorem base_of_ext_pdf (path : Str) (h : ext path = (lit ".pdf")) :
    ∃ stem, base path = stem ++ (lit ".pdf") ∧ (Elem.rune '/') ∉ base path := by
  have hne : extGo path.reverse [] ≠ [] := by
    have : ext path = extGo path.reverse [] := rfl
    rw [← this, h]; decide
  obtain ⟨u, rest, hr, hu, hx⟩ := extGo_spec path.reverse [] hne
  have hu' : u.reverse = (lit "pdf") := by
    have : lit ".pdf" = Elem.rune '.' :: (u.reverse ++ []) := h.symm.trans hx
    have h2 := (List.cons.inj (show Elem.rune '.' :: lit "pdf" = _ from this)).2
    rw [List.append_nil] at h2
    exact h2.symm
  have hu2 : u = (lit "fdp") := by
    have := congrArg List.reverse hu'
    rw [List.reverse_reverse] at this
    exact this.trans rfl
  have hpne : path ≠ [] := by
    intro hp
    rw [hp] at hr
    simp at hr
  have hdrop : dropSlashes path.reverse = path.reverse := by
    rw [hr, hu2]; rfl
  have hnil : path.reverse ≠ [] := by simpa using hpne
  have hb : base path = (untilSlash path.reverse).reverse := by
    simp [base, hpne, hdrop]
  refine ⟨(untilSlash rest).reverse, ?_, ?_⟩
  · rw [hb, hr, untilSlash_append u _ hu, hu2]
    simp [untilSlash]
    rfl
  · rw [hb]
    simpa using not_mem_untilSlash path.reverse

theorem splitSlashGo_no_slash : ∀ (name cur : Str), (Elem.rune '/') ∉ name →
    splitSlashGo name cur = [cur.reverse ++ name] := by
  intro name
  induction name with
  | nil => intro cur _; simp [splitSlashGo]
  | cons c cs ih =>
    intro cur h
    simp only [List.mem_cons, not_or] at h
    have hc : c ≠ (Elem.rune '/') := fun hh => h.1 hh.symm
    simp [splitSlashGo, hc, ih (c :: cur) h.2]

theorem splitSlashGo_append (name : Str) (hn : (Elem.rune '/') ∉ name) : ∀ (s cur : Str),
    splitSlashGo (s ++ (Elem.rune '/') :: name) cur = splitSlashGo s cur ++ [name] := by
  intro s
  induction s with
  | nil =>
    intro cur
    simp [splitSlashGo, splitSlashGo_no_slash name [] hn]
  | cons c cs ih =>
    intro cur
    by_cases hc : c = Elem.rune '/'
    · simp [splitSlashGo, hc, ih []]
    · simp [splitSlashGo, hc, ih (c :: cur)]

theorem cleanStack_append (rooted : Bool) (name : Str)
    (h0 : name ≠ []) (h1 : name ≠ [Elem.rune '.']) (h2 : name ≠ [Elem.rune '.', Elem.rune '.']) :
    ∀ (es stk : List Str),
      cleanStack rooted (es ++ [name]) stk = name :: cleanStack rooted es stk := by
  intro es
  induction es with
  | nil => intro stk; simp [cleanStack, h0, h1, h2]
  | cons e es ih =>
    intro stk
    by_cases he : e = [] ∨ e = [Elem.rune '.']
    · simp only [List.cons_append, cleanStack, he, if_true]
      exact ih stk
    · by_cases he2 : e = [Elem.rune '.', Elem.rune '.']
      · cases stk with
        | nil =>
          cases rooted <;> simp [cleanStack, he2, ih]
        | cons top below =>
          by_cases ht : top = [Elem.rune '.', Elem.rune '.']
          · simp [cleanStack, he2, ht, ih]
          · simp [cleanStack, he2, ht, ih]
      · simp only [List.cons_append, cleanStack, he, he2, if_false]
        exact ih (e :: stk)

theorem joinSlash_append_last (name : Str) :
    ∀ l : List Str, ∃ pre, joinSlash (l ++ [name]) = pre ++ name := by
  intro l
  induction l with
  | nil => exact ⟨[], rfl⟩
  | cons x l ih =>
    obtain ⟨pre, hpre⟩ := ih
    cases l with
    | nil => exact ⟨x ++ [Elem.rune '/'], by simp [joinSlash]⟩
    | cons y l' =>
      refine ⟨x ++ (Elem.rune '/') :: pre, ?_⟩
      have : joinSlash (x :: (y :: l' ++ [name])) = x ++ (Elem.rune '/') :: joinSlash (y :: l' ++ [name]) := by
        simp [joinSlash]
      rw [List.cons_append, this, hpre]
      simp

theorem clean_suffix (path name : Str) (es : List Str)
    (hs : splitSlash path = es ++ [name])
    (h0 : name ≠ []) (h1 : name ≠ [Elem.rune '.']) (h2 : name ≠ [Elem.rune '.', Elem.rune '.']) :
    ∃ pre, clean path = pre ++ name := by
  cases path with
  | nil =>
    have : splitSlash [] = [[]] := rfl
    rw [this] at hs
    cases es with
    | nil =>
      simp at hs
      exact absurd hs h0
    | cons e es => simp at hs
  | cons c cs =>
    have hst : cleanStack (decide (c = Elem.rune '/')) (splitSlash (c :: cs)) [] =
        name :: cleanStack (decide (c = Elem.rune '/')) es [] := by
      rw [hs, cleanStack_append _ name h0 h1 h2]
    obtain ⟨pre, hpre⟩ := joinSlash_append_last name
      (cleanStack (decide (c = Elem.rune '/')) es []).reverse
    have hbody : joinSlash (cleanStack (decide (c = Elem.rune '/')) (splitSlash (c :: cs)) []).reverse =
        pre ++ name := by
      rw [hst, List.reverse_cons, hpre]
    have hne : pre ++ name ≠ [] := by
      intro h
      exact h0 (List.append_eq_nil.1 h).2
    by_cases hc : c = Elem.rune '/'
    · refine ⟨(Elem.rune '/') :: pre, ?_⟩
      have hd : decide (c = Elem.rune '/') = true := by simp [hc]
      rw [hd] at hbody
      simp only [clean, hd, if_true]
      rw [hbody]; rfl
    · refine ⟨pre, ?_⟩
      have hd : decide (c = Elem.rune '/') = false := by simp [hc]
      rw [hd] at hbody
      simp only [clean, hd, Bool.false_eq_true, if_false]
      rw [hbody, if_neg hne]

theorem joinPath_suffix (dir name : Str) (hn : (Elem.rune '/') ∉ name)
    (h0 : name ≠ []) (h1 : name ≠ [Elem.rune '.']) (h2 : name ≠ [Elem.rune '.', Elem.rune '.']) :
    ∃ pre, joinPath dir name = pre ++ name := by
  by_cases hd : dir = []
  · have : joinPath dir name = clean name := by simp [joinPath, hd, h0]
    rw [this]
    exact clean_suffix name name [] (by simp [splitSlash, splitSlashGo_no_slash name [] hn])
      h0 h1 h2
  · have : joinPath dir name = clean (dir ++ (Elem.rune '/') :: name) := by simp [joinPath, hd]
    rw [this]
    exact clean_suffix _ name (splitSlashGo dir [])
      (by simp [splitSlash, splitSlashGo_append name hn]) h0 h1 h2

/-! ## `fmt.Sprintf("_%d.png", i)` -/

theorem digitChar_toNat : ∀ k : Fin 10, (digitChar k.val).toChar.toNat = 48 + k.val := by
  decide

theorem digitChar_ne_underscore : ∀ k : Fin 10, digitChar k.val ≠ (Elem.rune '_') := by decide

theorem itoaGo_acc : ∀ (fuel n : Nat) (acc : Str),
    itoaGo fuel n acc = itoaGo fuel n [] ++ acc := by
  intro fuel
  induction fuel with
  | zero => intro n acc; rfl
  | succ f ih =>
    intro n acc
    by_cases h : n < 10
    · simp [itoaGo, h]
    · simp only [itoaGo, h, if_false]
      rw [ih (n / 10) (digitChar (n % 10) :: acc), ih (n / 10) [digitChar (n % 10)]]
      simp

theorem not_mem_itoaGo : ∀ (fuel n : Nat) (acc : Str), (Elem.rune '_') ∉ acc → (Elem.rune '_') ∉ itoaGo fuel n acc := by
  intro fuel
  induction fuel with
  | zero => intro n acc h; exact h
  | succ f ih =>
    intro n acc hacc
    by_cases h : n < 10
    · simp only [itoaGo, h, if_true, List.mem_cons, not_or]
      exact ⟨fun hh => digitChar_ne_underscore ⟨n, h⟩ hh.symm, hacc⟩
    · simp only [itoaGo, h, if_false]
      apply ih
      simp only [List.mem_cons, not_or]
      exact ⟨fun hh => digitChar_ne_underscore ⟨n % 10, Nat.mod_lt _ (by decide)⟩ hh.symm, hacc⟩

theorem not_mem_itoa (n : Nat) : (Elem.rune '_') ∉ itoa n := not_mem_itoaGo _ _ _ (by simp)

theorem atoi_itoaGo : ∀ (fuel n : Nat), n < fuel → atoi (itoaGo fuel n []) = n := by
  intro fuel
  induction fuel with
  | zero => intro n h; omega
  | succ f ih =>
    intro n hn
    by_cases h : n < 10
    · have := digitChar_toNat ⟨n, h⟩
      simp only at this
      simp [itoaGo, h, atoi, this]
    · have hlt : n / 10 < f := by omega
      have hd := digitChar_toNat ⟨n % 10, Nat.mod_lt _ (by decide)⟩
      simp only at hd
      have hrec := ih (n / 10) hlt
      simp only [itoaGo, h, if_false]
      rw [itoaGo_acc]
      unfold atoi at hrec ⊢
      rw [List.foldl_append, hrec]
      simp only [List.foldl_cons, List.foldl_nil, hd]
      omega

theorem itoa_injective {a b : Nat} (h : itoa a = itoa b) : a = b := by
  have ha := atoi_itoaGo (a + 1) a (Nat.lt_succ_self a)
  have hb := atoi_itoaGo (b + 1) b (Nat.lt_succ_self b)
  have : atoi (itoa a) = atoi (itoa b) := by rw [h]
  unfold itoa at this
  omega

theorem append_underscore_inj {a b u v : Str} (hu : (Elem.rune '_') ∉ u) (hv : (Elem.rune '_') ∉ v)
    (h : a ++ (Elem.rune '_') :: u = b ++ (Elem.rune '_') :: v) : u = v := by
  induction a generalizing b with
  | nil =>
    cases b with
    | nil => simpa using h
    | cons y b =>
      simp only [List.nil_append, List.cons_append, List.cons.injEq] at h
      exfalso
      apply hu
      rw [h.2]
      simp
  | cons x a ih =>
    cases b with
    | nil =>
      simp only [List.nil_append, List.cons_append, List.cons.injEq] at h
      exfalso
      apply hv
      rw [← h.2]
      simp
    | cons y b =>
      simp only [List.cons_append, List.cons.injEq] at h
      exact ih h.2

theorem pageSuffix_path_injective {x y : Str} {i j : Nat}
    (h : x ++ pageSuffix i = y ++ pageSuffix j) : i = j := by
  unfold pageSuffix at h
  have h' : (x ++ (Elem.rune '_') :: itoa i) ++ (lit ".png") = (y ++ (Elem.rune '_') :: itoa j) ++ (lit ".png") := by
    simpa [List.append_assoc] using h
  have h2 := List.append_cancel_right h'
  exact itoa_injective (append_underscore_inj (not_mem_itoa i) (not_mem_itoa j) h2)

/-! ## Document discovery -/

theorem renderLoop_ok (r : Renderer) (path newFilePath : Str) :
    ∀ is : List Nat, (∀ i ∈ is, r.RenderPage path (pagePath newFilePath i) i = none) →
      renderLoop r path newFilePath is =
        (none, is.map (pagePath newFilePath),
          is.map fun i => (path, pagePath newFilePath i, (i : Int))) := by
  intro is
  induction is with
  | nil => intro _; rfl
  | cons i is ih =>
    intro h
    have hi : r.RenderPage path (replaceAll newFilePath (lit ".png") (pageSuffix i)) i = none :=
      h i (List.mem_cons_self _ _)
    have hrest := ih (fun j hj => h j (List.mem_cons_of_mem _ hj))
    simp only [renderLoop, hi, hrest, List.map_cons, pagePath]

theorem outputPath_suffix (cfg : Config) (path : Str) (hext : ext path = (lit ".pdf")) :
    ∃ pre, outputPath cfg path = pre ++ (lit ".png") := by
  obtain ⟨stem, hb, hslash⟩ := base_of_ext_pdf path hext
  have hrep : replaceAll (base path) (lit ".pdf") (lit ".png") =
      replaceAll stem (lit ".pdf") (lit ".png") ++ (lit ".png") := by
    rw [hb]
    exact replaceAll_suffix (Elem.rune '.') (lit "pdf") (by decide) _ stem
  have hns : (Elem.rune '/') ∉ replaceAll (base path) (lit ".pdf") (lit ".png") := by
    intro hin
    rcases mem_replaceGo _ _ _ _ _ hin with h | h
    · exact hslash h
    · revert h; decide
  have hlen : 4 ≤ (replaceAll (base path) (lit ".pdf") (lit ".png")).length := by
    rw [hrep, List.length_append]
    have : ((lit ".png")).length = 4 := rfl
    omega
  obtain ⟨pre, hpre⟩ := joinPath_suffix cfg.ImagePath _ hns
    (by intro h; rw [h] at hlen; simp at hlen)
    (by intro h; rw [h] at hlen; simp at hlen)
    (by intro h; rw [h] at hlen; simp at hlen)
  exact ⟨pre ++ replaceAll stem (lit ".pdf") (lit ".png"), by
    unfold outputPath
    rw [hpre, hrep, List.append_assoc]⟩

theorem pagePath_suffix (p : Str) (i : Nat) (hp : ∃ pre, p = pre ++ (lit ".png")) :
    ∃ pre, pagePath p i = pre ++ pageSuffix i := by
  obtain ⟨pre, hpre⟩ := hp
  exact ⟨replaceAll pre (lit ".png") (pageSuffix i), by
    unfold pagePath
    rw [hpre]
    exact replaceAll_suffix (Elem.rune '.') (lit "png") (by decide) _ pre⟩

theorem pagePath_injective (p : Str) (hp : ∃ pre, p = pre ++ (lit ".png")) {i j : Nat}
    (h : pagePath p i = pagePath p j) : i = j := by
  obtain ⟨x, hx⟩ := pagePath_suffix p i hp
  obtain ⟨y, hy⟩ := pagePath_suffix p j hp
  rw [hx, hy] at h
  exact pageSuffix_path_injective h

theorem AppendDocument_of_canWrite (s : Store) (disk : Disk) (id : Str) (d : Option Document)
    (data : Data) (hdata : s.data = some data) (hw : disk.canWrite = true) :
    s.AppendDocument disk id d =
      .ret (none, ⟨some ⟨some (mapSet (data.Documents.getD []) id d)⟩⟩,
        { disk with
          content :=
            some (marshalData ⟨some (mapSet (data.Documents.getD []) id d)⟩).toStr }) := by
  have hdocs : (match data.Documents with
      | none => ([] : DocMap)
      | some m => m) = data.Documents.getD [] := by
    cases data.Documents <;> rfl
  simp only [Store.AppendDocument, hdata, hdocs, save_of_canWrite _ disk hw, marshalDataPtr]

theorem RetrieveDocument_data (s : Store) (id : Str) (v : Option Document)
    (h : s.RetrieveDocument id = .ret v) : ∃ data, s.data = some data := by
  unfold Store.RetrieveDocument at h
  cases hd : s.data with
  | none => rw [hd] at h; cases h
  | some data => exact ⟨data, rfl⟩

/-- The record the walk function builds for a source path. -/
theorem walkFn_new (cfg : Config) (r : Renderer) (store : Store) (disk : Disk) (path : Str)
    (pageCount : Int) (paths : List Str) (calls : List RenderCall) (data : Data)
    (hext : ext path = (lit ".pdf"))
    (hnew : store.RetrieveDocument (base path) = .ret none)
    (hcount : r.GetPageCount path = .ok pageCount)
    (hrd : renderDocument r path (outputPath cfg path) pageCount = (none, paths, calls))
    (hdata : store.data = some data) (hwrite : disk.canWrite = true) :
    walkFn cfg r store disk path =
      .ret ⟨none,
        ⟨some ⟨some (mapSet (data.Documents.getD []) (base path)
            (some { ID := base path, SourceURL := path, ImagePaths := some paths,
                    PDFPath := path, JSONPath := [], DocType := [] }))⟩⟩,
        { disk with content := some (marshalData
            ⟨some (mapSet (data.Documents.getD []) (base path)
              (some { ID := base path, SourceURL := path, ImagePaths := some paths,
                      PDFPath := path, JSONPath := [], DocType := [] }))⟩).toStr },
        calls, [base path]⟩ := by
  unfold outputPath at hrd
  unfold walkFn
  rw [if_neg (by rw [hext]; exact fun h => h rfl)]
  simp only [hnew, hcount, hrd]
  rw [AppendDocument_of_canWrite _ _ _ _ data hdata hwrite]

/-- C6. Multi-page discovery: for a source path that passes the `.pdf` test, is
not yet in the store, has `n ≥ 2` pages, all of which render, and with a
succeeding store write, `loadDocuments` on that path (its walk function) stores
under the file's base name a record with exactly `n` image paths; the `i`-th is
the path page index `i` was rendered to, it ends in `_i.png`, the render calls
are those for pages `0..n-1` in order, and the paths are pairwise distinct. -/
theorem loadDocuments_multi_page (cfg : Config) (r : Renderer) (store : Store) (disk : Disk)
    (path : Str) (n : Nat) (hext : ext path = (lit ".pdf"))
    (hnew : store.RetrieveDocument (base path) = .ret none)
    (hcount : r.GetPageCount path = .ok (n : Int)) (hn : 2 ≤ n)
    (hrender : ∀ i < n, r.RenderPage path (pagePath (outputPath cfg path) i) i = none)
    (hwrite : disk.canWrite = true) :
    ∃ l doc paths,
      walkFn cfg r store disk path = .ret l ∧
      loadDocuments cfg r store disk [path] = .ret l ∧ l.err = none ∧
      l.store.RetrieveDocument (base path) = .ret (some doc) ∧
      doc.ImagePaths = some paths ∧ paths.length = n ∧
      (∀ i < n, paths.get? i = some (pagePath (outputPath cfg path) i) ∧
        ∃ pre, pagePath (outputPath cfg path) i = pre ++ pageSuffix i) ∧
      l.renders =
        (List.range n).map (fun i => (path, pagePath (outputPath cfg path) i, (i : Int))) ∧
      paths.Nodup := by
  obtain ⟨data, hdata⟩ := RetrieveDocument_data _ _ _ hnew
  have hsuf := outputPath_suffix cfg path hext
  have hloop := renderLoop_ok r path (outputPath cfg path) (List.range n)
    (fun i hi => hrender i (List.mem_range.1 hi))
  have hne1 : ¬ ((n : Int) = 1) := by omega
  have hrd : renderDocument r path (outputPath cfg path) (n : Int) =
      (none, (List.range n).map (pagePath (outputPath cfg path)),
        (List.range n).map fun i => (path, pagePath (outputPath cfg path) i, (i : Int))) := by
    unfold renderDocument
    rw [if_neg hne1, Int.toNat_ofNat, hloop]
  have hwalk := walkFn_new cfg r store disk path n _ _ data hext hnew hcount hrd hdata hwrite
  refine ⟨_, (⟨base path, path, some ((List.range n).map (pagePath (outputPath cfg path))),
      path, [], []⟩ : Document),
    (List.range n).map (pagePath (outputPath cfg path)), hwalk, ?_, rfl, ?_, rfl,
    by simp, ?_, rfl, ?_⟩
  · simp [loadDocuments, walk, hwalk, Store.GetDocumentCount]
  · simp [Store.RetrieveDocument, mapGet_mapSet]
  · intro i hi
    refine ⟨?_, pagePath_suffix _ i hsuf⟩
    simp [List.get?_eq_getElem?, hi]
  · exact (List.nodup_range n).map (fun i j h => pagePath_injective _ hsuf h)

/-- Witness for C6: a three-page document `pdf/a.pdf` gets the image paths
`img/a_0.png`, `img/a_1.png`, `img/a_2.png`, in this order. -/
theorem loadDocuments_multi_page_witness :
    ∃ l doc paths,
      loadDocuments exampleConfig threePages emptyStore emptyDisk [(lit "pdf/a.pdf")] = .ret l ∧
      l.store.RetrieveDocument (lit "a.pdf") = .ret (some doc) ∧
      doc.ImagePaths = some paths ∧ paths.length = 3 ∧
      paths.get? 0 = some (lit "img/a_0.png") ∧
      paths.get? 1 = some (lit "img/a_1.png") ∧
      paths.get? 2 = some (lit "img/a_2.png") ∧
      paths.Nodup := by
  obtain ⟨l, doc, paths, _, h2, _, h3, h4, h5, h6, _, h8⟩ :=
    loadDocuments_multi_page exampleConfig threePages emptyStore emptyDisk
      (lit "pdf/a.pdf") 3 (by decide) rfl rfl (by decide) (fun _ _ => rfl) rfl
  have hb : base (lit "pdf/a.pdf") = (lit "a.pdf") := by decide
  rw [hb] at h3
  refine ⟨l, doc, paths, h2, h3, h4, h5, ?_, ?_, ?_, h8⟩
  · rw [(h6 0 (by decide)).1]; decide
  · rw [(h6 1 (by decide)).1]; decide
  · rw [(h6 2 (by decide)).1]; decide

/-! ## Discovery, run twice -/

theorem RetrieveDocument_of_data (s : Store) (data : Data) (hdata : s.data = some data)
    (id : Str) :
    s.RetrieveDocument id = .ret ((mapGet (data.Documents.getD []) id).getD none) := by
  unfold Store.RetrieveDocument
  rw [hdata]
  cases h : mapGet (data.Documents.getD []) id <;> simp [h]

theorem renderLoop_calls_path (r : Renderer) (path nfp : Str) :
    ∀ is : List Nat, ∀ c ∈ (renderLoop r path nfp is).2.2, c.1 = path := by
  intro is
  induction is with
  | nil => intro c hc; simp [renderLoop] at hc
  | cons i is ih =>
    intro c hc
    unfold renderLoop at hc
    cases hr : r.RenderPage path (replaceAll nfp (lit ".png") (pageSuffix i)) i with
    | some e =>
      simp only [hr, List.mem_singleton] at hc
      rw [hc]
    | none =>
      simp only [hr, List.mem_cons] at hc
      rcases hc with h | h
      · rw [h]
      · exact ih c h

theorem renderDocument_calls_path (r : Renderer) (path nfp : Str) (pc : Int) :
    ∀ c ∈ (renderDocument r path nfp pc).2.2, c.1 = path := by
  intro c hc
  unfold renderDocument at hc
  split_ifs at hc
  · cases hr : r.RenderPage path nfp 0 with
    | some e =>
      simp only [hr, List.mem_singleton] at hc
      rw [hc]
    | none =>
      simp only [hr, List.mem_singleton] at hc
      rw [hc]
  · exact renderLoop_calls_path r path nfp _ c hc

theorem walkFn_skip_ext (cfg : Config) (r : Renderer) (store : Store) (disk : Disk) (p : Str)
    (h : ext p ≠ (lit ".pdf")) :
    walkFn cfg r store disk p = .ret ⟨none, store, disk, [], []⟩ := by
  unfold walkFn
  rw [if_pos h]

theorem walkFn_skip_present (cfg : Config) (r : Renderer) (store : Store) (disk : Disk)
    (p : Str) (d : Document) (h : store.RetrieveDocument (base p) = .ret (some d)) :
    walkFn cfg r store disk p = .ret ⟨none, store, disk, [], []⟩ := by
  unfold walkFn
  by_cases he : ext p ≠ (lit ".pdf")
  · rw [if_pos he]
  · rw [if_neg he]
    simp only [h]

theorem walkFn_cases (cfg : Config) (r : Renderer) (store : Store) (disk : Disk) (p : Str)
    (data : Data) (hdata : store.data = some data) (hw : disk.canWrite = true) :
    (walkFn cfg r store disk p = .ret ⟨none, store, disk, [], []⟩ ∧
      (ext p ≠ (lit ".pdf") ∨ ∃ d, store.RetrieveDocument (base p) = .ret (some d))) ∨
    (ext p = (lit ".pdf") ∧ store.RetrieveDocument (base p) = .ret none ∧
      ((∃ e calls, walkFn cfg r store disk p = .ret ⟨some e, store, disk, calls, []⟩ ∧
          ∀ c ∈ calls, c.1 = p) ∨
       (∃ doc calls, walkFn cfg r store disk p =
          .ret ⟨none, ⟨some ⟨some (mapSet (data.Documents.getD []) (base p) (some doc))⟩⟩,
            { disk with content := some (marshalData
                ⟨some (mapSet (data.Documents.getD []) (base p) (some doc))⟩).toStr },
            calls, [base p]⟩))) := by
  by_cases he : ext p ≠ (lit ".pdf")
  · exact Or.inl ⟨walkFn_skip_ext cfg r store disk p he, Or.inl he⟩
  · have he' : ext p = (lit ".pdf") := not_not.1 he
    cases hret : (mapGet (data.Documents.getD []) (base p)).getD none with
    | some d =>
      have hr : store.RetrieveDocument (base p) = .ret (some d) := by
        rw [RetrieveDocument_of_data store data hdata, hret]
      exact Or.inl ⟨walkFn_skip_present cfg r store disk p d hr, Or.inr ⟨d, hr⟩⟩
    | none =>
      have hr : store.RetrieveDocument (base p) = .ret none := by
        rw [RetrieveDocument_of_data store data hdata, hret]
      refine Or.inr ⟨he', hr, ?_⟩
      cases hc : r.GetPageCount p with
      | error e =>
        left
        refine ⟨e, [], ?_, by simp⟩
        unfold walkFn
        rw [if_neg he]
        simp only [hr, hc]
      | ok pc =>
        cases hrd : (renderDocument r p (outputPath cfg p) pc).1 with
        | some e =>
          left
          refine ⟨e, (renderDocument r p (outputPath cfg p) pc).2.2, ?_,
            renderDocument_calls_path r p _ pc⟩
          unfold outputPath at hrd
          unfold walkFn
          rw [if_neg he]
          simp only [hr, hc, hrd]
          rfl
        | none =>
          right
          have hrd' : renderDocument r p (outputPath cfg p) pc =
              (none, (renderDocument r p (outputPath cfg p) pc).2.1,
                (renderDocument r p (outputPath cfg p) pc).2.2) := by
            rw [← hrd]
          exact ⟨_, _, walkFn_new cfg r store disk p pc _ _ data he' hr hc hrd' hdata hw⟩

theorem walk_cons_skip (cfg : Config) (r : Renderer) (store : Store) (disk : Disk) (p : Str)
    (ps : List Str) (l' : Loaded)
    (h : walkFn cfg r store disk p = .ret ⟨none, store, disk, [], []⟩)
    (h' : walk cfg r store disk ps = .ret l') :
    walk cfg r store disk (p :: ps) = .ret l' := by
  simp [walk, h, h']

theorem walk_cons_stop (cfg : Config) (r : Renderer) (store : Store) (disk : Disk) (p : Str)
    (ps : List Str) (l : Loaded) (e : Err)
    (h : walkFn cfg r store disk p = .ret l) (he : l.err = some e) :
    walk cfg r store disk (p :: ps) = .ret l := by
  simp [walk, h, he]

theorem walk_cons_go (cfg : Config) (r : Renderer) (store : Store) (disk : Disk) (p : Str)
    (ps : List Str) (l l' : Loaded)
    (h : walkFn cfg r store disk p = .ret l) (he : l.err = none)
    (h' : walk cfg r l.store l.disk ps = .ret l') :
    walk cfg r store disk (p :: ps) =
      .ret ⟨l'.err, l'.store, l'.disk, l.renders ++ l'.renders, l.appends ++ l'.appends⟩ := by
  simp [walk, h, he, h']

/-- With an initialised store and a writable snapshot file the walk returns, the
store stays initialised, the file stays writable, and records found before are
found after. -/
theorem walk_mono (cfg : Config) (r : Renderer) :
    ∀ (ps : List Str) (store : Store) (disk : Disk) (data : Data),
      store.data = some data → disk.canWrite = true →
      ∃ l, walk cfg r store disk ps = .ret l ∧ (∃ data', l.store.data = some data') ∧
        l.disk.canWrite = true ∧
        ∀ k d, store.RetrieveDocument k = .ret (some d) →
          l.store.RetrieveDocument k = .ret (some d) := by
  intro ps
  induction ps with
  | nil =>
    intro store disk data hdata hw
    exact ⟨⟨none, store, disk, [], []⟩, rfl, ⟨data, hdata⟩, hw, fun _ _ h => h⟩
  | cons p ps ih =>
    intro store disk data hdata hw
    rcases walkFn_cases cfg r store disk p data hdata hw with
      ⟨hskip, _⟩ | ⟨hext, hnone, ⟨e, calls, hfail, _⟩ | ⟨doc, calls, hadd⟩⟩
    · obtain ⟨l', hl', h1, h2, h3⟩ := ih store disk data hdata hw
      exact ⟨l', walk_cons_skip cfg r store disk p ps l' hskip hl', h1, h2, h3⟩
    · exact ⟨_, walk_cons_stop cfg r store disk p ps _ e hfail rfl, ⟨data, hdata⟩, hw,
        fun _ _ h => h⟩
    · obtain ⟨l', hl', h1, h2, h3⟩ := ih
        ⟨some ⟨some (mapSet (data.Documents.getD []) (base p) (some doc))⟩⟩
        { disk with content := some (marshalData
            ⟨some (mapSet (data.Documents.getD []) (base p) (some doc))⟩).toStr } _ rfl hw
      refine ⟨_, walk_cons_go cfg r store disk p ps _ l' hadd rfl hl', h1, h2, ?_⟩
      intro k d hk
      apply h3
      have hne : k ≠ base p := by
        intro hh
        rw [hh, hnone] at hk
        cases hk
      rw [RetrieveDocument_of_data store data hdata] at hk
      rw [RetrieveDocument_of_data _ _ rfl]
      simp only [Option.getD_some, mapGet_mapSet, hne, if_false]
      exact hk

theorem walk_second_run (cfg : Config) (r : Renderer) :
    ∀ (ps : List Str) (store : Store) (disk : Disk) (data : Data) (l : Loaded),
      store.data = some data → disk.canWrite = true →
      walk cfg r store disk ps = .ret l →
      ∃ extra, walk cfg r l.store l.disk ps = .ret ⟨l.err, l.store, l.disk, extra, []⟩ ∧
        ∀ c ∈ extra, l.store.RetrieveDocument (base c.1) = .ret none := by
  intro ps
  induction ps with
  | nil =>
    intro store disk data l _ _ h
    cases h
    exact ⟨[], rfl, by simp⟩
  | cons p ps ih =>
    intro store disk data l hdata hw h
    rcases walkFn_cases cfg r store disk p data hdata hw with
      ⟨hskip, hwhy⟩ | ⟨hext, hnone, ⟨e, calls, hfail, hcalls⟩ | ⟨doc, calls, hadd⟩⟩
    · obtain ⟨l', hl', _, _, hmono⟩ := walk_mono cfg r ps store disk data hdata hw
      have hl : l = l' := by
        have := walk_cons_skip cfg r store disk p ps l' hskip hl'
        rw [h] at this
        exact Run.ret.inj this
      subst hl
      obtain ⟨extra, hx, hx'⟩ := ih store disk data l hdata hw hl'
      refine ⟨extra, ?_, hx'⟩
      have hskip2 : walkFn cfg r l.store l.disk p = .ret ⟨none, l.store, l.disk, [], []⟩ := by
        rcases hwhy with hne | ⟨d, hd⟩
        · exact walkFn_skip_ext cfg r _ _ p hne
        · exact walkFn_skip_present cfg r _ _ p d (hmono _ d hd)
      exact walk_cons_skip cfg r l.store l.disk p ps _ hskip2 hx
    · have hl : l = ⟨some e, store, disk, calls, []⟩ := by
        have := walk_cons_stop cfg r store disk p ps _ e hfail rfl
        rw [h] at this
        exact Run.ret.inj this
      subst hl
      refine ⟨calls, walk_cons_stop cfg r store disk p ps _ e hfail rfl, ?_⟩
      intro c hc
      rw [hcalls c hc]
      exact hnone
    · obtain ⟨l', hl', _, _, hmono⟩ := walk_mono cfg r ps
        ⟨some ⟨some (mapSet (data.Documents.getD []) (base p) (some doc))⟩⟩
        { disk with content := some (marshalData
            ⟨some (mapSet (data.Documents.getD []) (base p) (some doc))⟩).toStr } _ rfl hw
      have hl := walk_cons_go cfg r store disk p ps _ l' hadd rfl hl'
      rw [h] at hl
      have hl2 := Run.ret.inj hl
      obtain ⟨extra, hx, hx'⟩ := ih
        ⟨some ⟨some (mapSet (data.Documents.getD []) (base p) (some doc))⟩⟩
        { disk with content := some (marshalData
            ⟨some (mapSet (data.Documents.getD []) (base p) (some doc))⟩).toStr }
        ⟨some (mapSet (data.Documents.getD []) (base p) (some doc))⟩ l' rfl hw hl'
      have hpresent : l'.store.RetrieveDocument (base p) = .ret (some doc) := by
        apply hmono
        rw [RetrieveDocument_of_data _ _ rfl]
        simp [mapGet_mapSet]
      have hskip2 := walkFn_skip_present cfg r l'.store l'.disk p doc hpresent
      have := walk_cons_skip cfg r l'.store l'.disk p ps _ hskip2 hx
      rw [hl2]
      exact ⟨extra, this, hx'⟩

/-- C7, as amended. With an initialised store and a snapshot file that can be
written, running `loadDocuments` a second time over the same paths with the
same render collaborator leaves the store, the snapshot file and the document
count unchanged, passes nothing to `AppendDocument`, and every render call it
makes is for a file for whose base name `RetrieveDocument` finds no record. -/
theorem loadDocuments_idempotent (cfg : Config) (r : Renderer) (store : Store) (disk : Disk)
    (paths : List Str) (data : Data) (hdata : store.data = some data)
    (hw : disk.canWrite = true) :
    ∃ l1 l2,
      loadDocuments cfg r store disk paths = .ret l1 ∧
      loadDocuments cfg r l1.store l1.disk paths = .ret l2 ∧
      l2.store = l1.store ∧ l2.disk = l1.disk ∧
      l2.store.GetDocumentCount = l1.store.GetDocumentCount ∧
      l2.appends = [] ∧
      ∀ c ∈ l2.renders, l1.store.RetrieveDocument (base c.1) = .ret none := by
  obtain ⟨l, hl, ⟨data', hdata'⟩, _, _⟩ := walk_mono cfg r paths store disk data hdata hw
  obtain ⟨extra, hx, hx'⟩ := walk_second_run cfg r paths store disk data l hdata hw hl
  refine ⟨{ l with err := none }, ⟨none, l.store, l.disk, extra, []⟩, ?_, ?_, rfl, rfl, rfl, rfl,
    hx'⟩
  · simp [loadDocuments, hl, Store.GetDocumentCount, hdata']
  · simp [loadDocuments, hx, Store.GetDocumentCount, hdata']

/-- Witness for C7 as amended: two single-page files, discovered twice. -/
theorem loadDocuments_idempotent_witness :
    ∃ l1 l2,
      loadDocuments exampleConfig onePage emptyStore emptyDisk
        [(lit "pdf/a.pdf"), (lit "pdf/b.pdf")] = .ret l1 ∧
      loadDocuments exampleConfig onePage l1.store l1.disk
        [(lit "pdf/a.pdf"), (lit "pdf/b.pdf")] = .ret l2 ∧
      l2.store = l1.store ∧ l2.appends = [] := by
  obtain ⟨l1, l2, h1, h2, h3, _, _, h6, _⟩ :=
    loadDocuments_idempotent exampleConfig onePage emptyStore emptyDisk
      [(lit "pdf/a.pdf"), (lit "pdf/b.pdf")] ⟨none⟩ rfl rfl
  exact ⟨l1, l2, h1, h2, h3, h6⟩

/-- C7, counterexample. When the snapshot file cannot be written, the first run
over two new files stops after the first (which is already in the store in
memory), and the second run adds the second file: the document count goes from
1 to 2. -/
theorem loadDocuments_not_idempotent :
    ∃ l1 l2,
      loadDocuments exampleConfig onePage emptyStore readOnlyDisk
        [(lit "pdf/a.pdf"), (lit "pdf/b.pdf")] = .ret l1 ∧
      loadDocuments exampleConfig onePage l1.store l1.disk
        [(lit "pdf/a.pdf"), (lit "pdf/b.pdf")] = .ret l2 ∧
      l1.store.GetDocumentCount = .ret 1 ∧
      l2.store.GetDocumentCount = .ret 2 ∧
      l2.appends = [(lit "b.pdf")] :=
  ⟨_, _, rfl, rfl, rfl, rfl, rfl⟩

/-! ## The scan pass -/

theorem Pass.andThen_assoc (a b c : Pass) : (a.andThen b).andThen c = a.andThen (b.andThen c) := by
  simp [Pass.andThen, List.append_assoc]

theorem scanPass_cons_nil (env : Env) (oracle : Oracle) (samples : Samples) (store : Store)
    (disk : Disk) (k : Str) (ks : List Str) (hd : store.deref k = none) :
    scanPass env oracle samples store disk (k :: ks) = ⟨store, disk, [], [], .panicked⟩ := by
  simp [scanPass, hd]

theorem scanPass_cons_skip (env : Env) (oracle : Oracle) (samples : Samples) (store : Store)
    (disk : Disk) (k : Str) (ks : List Str) (d : Document) (hd : store.deref k = some d)
    (ht : d.DocType ≠ []) :
    scanPass env oracle samples store disk (k :: ks) =
      scanPass env oracle samples store disk ks := by
  simp [scanPass, hd, ht]

theorem scanPass_cons_panic (env : Env) (oracle : Oracle) (samples : Samples) (store : Store)
    (disk : Disk) (k : Str) (ks : List Str) (d : Document) (hd : store.deref k = some d)
    (ht : d.DocType = [])
    (hc : (classifyDocument env oracle samples d).result = .panic) :
    scanPass env oracle samples store disk (k :: ks) =
      ⟨store, disk, [k], (classifyDocument env oracle samples d).calls, .panicked⟩ := by
  simp [scanPass, hd, ht, hc]

theorem scanPass_cons_error (env : Env) (oracle : Oracle) (samples : Samples) (store : Store)
    (disk : Disk) (k : Str) (ks : List Str) (d : Document) (e : Err)
    (hd : store.deref k = some d) (ht : d.DocType = [])
    (hc : (classifyDocument env oracle samples d).result = .ret (.error e)) :
    scanPass env oracle samples store disk (k :: ks) =
      Pass.andThen ⟨store, disk, [k], (classifyDocument env oracle samples d).calls, .completed⟩
        (scanPass env oracle samples store disk ks) := by
  simp [scanPass, hd, ht, hc]

theorem scanPass_cons_no_match (env : Env) (oracle : Oracle) (samples : Samples)
    (store : Store) (disk : Disk) (k : Str) (ks : List Str) (d : Document)
    (hd : store.deref k = some d) (ht : d.DocType = [])
    (hc : (classifyDocument env oracle samples d).result = .ret (.ok none)) :
    scanPass env oracle samples store disk (k :: ks) =
      ⟨store, disk, [k], (classifyDocument env oracle samples d).calls, .panicked⟩ := by
  simp [scanPass, hd, ht, hc]

theorem scanPass_cons_match (env : Env) (oracle : Oracle) (samples : Samples) (store : Store)
    (disk : Disk) (k : Str) (ks : List Str) (d : Document) (cls : ClassificationOutput)
    (hd : store.deref k = some d) (ht : d.DocType = [])
    (hc : (classifyDocument env oracle samples d).result = .ret (.ok (some cls))) :
    scanPass env oracle samples store disk (k :: ks) =
      match store.UpdateDocumentType disk d.ID cls.Label with
      | .panic => ⟨store, disk, [k], (classifyDocument env oracle samples d).calls, .panicked⟩
      | .ret (some err, s', disk') =>
        ⟨s', disk', [k], (classifyDocument env oracle samples d).calls, .returned err⟩
      | .ret (none, s', disk') =>
        Pass.andThen ⟨s', disk', [k], (classifyDocument env oracle samples d).calls, .completed⟩
          (scanPass env oracle samples s' disk' ks) := by
  simp [scanPass, hd, ht, hc]

theorem andThen_completed_append (a p1 r : Pass) :
    a.andThen (if p1.outcome = .completed then p1.andThen r else p1) =
      if (a.andThen p1).outcome = .completed then (a.andThen p1).andThen r
      else a.andThen p1 := by
  by_cases h : p1.outcome = .completed
  · have h' : (a.andThen p1).outcome = .completed := h
    rw [if_pos h, if_pos h', Pass.andThen_assoc]
  · have h' : ¬ (a.andThen p1).outcome = .completed := h
    rw [if_neg h, if_neg h']

theorem scanPass_append (env : Env) (oracle : Oracle) (samples : Samples) (post : List Str) :
    ∀ (pre : List Str) (store : Store) (disk : Disk),
      scanPass env oracle samples store disk (pre ++ post) =
        if (scanPass env oracle samples store disk pre).outcome = .completed then
          (scanPass env oracle samples store disk pre).andThen
            (scanPass env oracle samples (scanPass env oracle samples store disk pre).store
              (scanPass env oracle samples store disk pre).disk post)
        else scanPass env oracle samples store disk pre := by
  intro pre
  induction pre with
  | nil =>
    intro store disk
    simp [scanPass, Pass.andThen]
  | cons k pre ih =>
    intro store disk
    rw [List.cons_append]
    cases hd : store.deref k with
    | none =>
      rw [scanPass_cons_nil _ _ _ _ _ _ _ hd, scanPass_cons_nil _ _ _ _ _ _ _ hd]
      simp
    | some d =>
      by_cases ht : d.DocType = []
      · cases hc : (classifyDocument env oracle samples d).result with
        | panic =>
          rw [scanPass_cons_panic _ _ _ _ _ _ _ d hd ht hc,
            scanPass_cons_panic _ _ _ _ _ _ _ d hd ht hc]
          simp
        | ret res =>
          cases res with
          | error e =>
            rw [scanPass_cons_error _ _ _ _ _ _ _ d e hd ht hc,
              scanPass_cons_error _ _ _ _ _ _ _ d e hd ht hc, ih store disk]
            exact andThen_completed_append _ _ _
          | ok v =>
            cases v with
            | none =>
              rw [scanPass_cons_no_match _ _ _ _ _ _ _ d hd ht hc,
                scanPass_cons_no_match _ _ _ _ _ _ _ d hd ht hc]
              simp
            | some cls =>
              rw [scanPass_cons_match _ _ _ _ _ _ _ d cls hd ht hc,
                scanPass_cons_match _ _ _ _ _ _ _ d cls hd ht hc]
              cases hu : store.UpdateDocumentType disk d.ID cls.Label with
              | panic => simp
              | ret u =>
                obtain ⟨ue, s', disk'⟩ := u
                cases ue with
                | some err => simp
                | none =>
                  simp only []
                  rw [ih s' disk']
                  exact andThen_completed_append _ _ _
      · rw [scanPass_cons_skip _ _ _ _ _ _ _ d hd ht, scanPass_cons_skip _ _ _ _ _ _ _ d hd ht]
        exact ih store disk

/-- A document the pass reaches while it is unclassified is submitted, however
its handling ends. -/
theorem scanPass_head_submitted (env : Env) (oracle : Oracle) (samples : Samples)
    (store : Store) (disk : Disk) (k : Str) (ks : List Str) (d : Document)
    (hd : store.deref k = some d) (ht : d.DocType = []) :
    k ∈ (scanPass env oracle samples store disk (k :: ks)).submitted := by
  cases hc : (classifyDocument env oracle samples d).result with
  | panic => rw [scanPass_cons_panic _ _ _ _ _ _ _ d hd ht hc]; simp
  | ret res =>
    cases res with
    | error e => rw [scanPass_cons_error _ _ _ _ _ _ _ d e hd ht hc]; simp [Pass.andThen]
    | ok v =>
      cases v with
      | none => rw [scanPass_cons_no_match _ _ _ _ _ _ _ d hd ht hc]; simp
      | some cls =>
        rw [scanPass_cons_match _ _ _ _ _ _ _ d cls hd ht hc]
        cases hu : store.UpdateDocumentType disk d.ID cls.Label with
        | panic => simp
        | ret u =>
          obtain ⟨ue, s', disk'⟩ := u
          cases ue with
          | some err => simp
          | none => simp [Pass.andThen]

theorem scanPass_reached_submitted (env : Env) (oracle : Oracle) (samples : Samples)
    (store : Store) (disk : Disk) (l1 l2 : List Str) (k : Str) (d : Document)
    (hpre : (scanPass env oracle samples store disk l1).outcome = .completed)
    (hd : (scanPass env oracle samples store disk l1).store.deref k = some d)
    (ht : d.DocType = []) :
    k ∈ (scanPass env oracle samples store disk (l1 ++ k :: l2)).submitted := by
  rw [scanPass_append, if_pos hpre]
  simp only [Pass.andThen, List.mem_append]
  exact Or.inr (scanPass_head_submitted env oracle samples _ _ k l2 d hd ht)

theorem scanPass_prefix_completed (env : Env) (oracle : Oracle) (samples : Samples)
    (store : Store) (disk : Disk) (l1 l2 : List Str)
    (h : (scanPass env oracle samples store disk (l1 ++ l2)).outcome = .completed) :
    (scanPass env oracle samples store disk l1).outcome = .completed := by
  rw [scanPass_append] at h
  by_cases hp : (scanPass env oracle samples store disk l1).outcome = .completed
  · exact hp
  · rw [if_neg hp] at h
    exact h

/-- C10, as amended. Per-document failure isolation in one scan pass over the
listing `pre ++ k :: post`: if the pass reaches the document `d` listed under
`k` (the part over `pre` completes), `d` is unclassified and `classifyDocument`
returns an error for it, then handling `d` changes neither the store (its `Type`
stays empty) nor the snapshot file and does not end the pass; the pass goes on
over `post` from the very store and file it had on reaching `d`, and ends as
the pass over `post` from there ends, so every document of `post` is handled,
and submitted to `classifyDocument`, exactly as in a pass without `d`; `d`
itself is recorded as submitted; every document listed after `d` that is
unclassified when the pass reaches it is submitted, provided no document
between `d` and it ends the pass; and every document listed before `d` that was
unclassified when the pass reached it has been submitted. -/
theorem scanPass_error_isolated (env : Env) (oracle : Oracle) (samples : Samples)
    (store : Store) (disk : Disk) (pre post : List Str) (k : Str) (d : Document) (e : Err)
    (hpre : (scanPass env oracle samples store disk pre).outcome = .completed)
    (hrec : (scanPass env oracle samples store disk pre).store.deref k = some d)
    (hun : d.DocType = [])
    (herr : (classifyDocument env oracle samples d).result = .ret (.error e)) :
    scanPass env oracle samples (scanPass env oracle samples store disk pre).store
        (scanPass env oracle samples store disk pre).disk [k] =
      ⟨(scanPass env oracle samples store disk pre).store,
        (scanPass env oracle samples store disk pre).disk, [k],
        (classifyDocument env oracle samples d).calls, .completed⟩ ∧
    scanPass env oracle samples store disk (pre ++ k :: post) =
      ((scanPass env oracle samples store disk pre).andThen
        ⟨(scanPass env oracle samples store disk pre).store,
          (scanPass env oracle samples store disk pre).disk, [k],
          (classifyDocument env oracle samples d).calls, .completed⟩).andThen
        (scanPass env oracle samples (scanPass env oracle samples store disk pre).store
          (scanPass env oracle samples store disk pre).disk post) ∧
    k ∈ (scanPass env oracle samples store disk (pre ++ k :: post)).submitted ∧
    (∀ k' ∈ (scanPass env oracle samples (scanPass env oracle samples store disk pre).store
          (scanPass env oracle samples store disk pre).disk post).submitted,
      k' ∈ (scanPass env oracle samples store disk (pre ++ k :: post)).submitted) ∧
    (∀ (q1 q2 : List Str) (k' : Str) (d' : Document), post = q1 ++ k' :: q2 →
      (scanPass env oracle samples (scanPass env oracle samples store disk pre).store
        (scanPass env oracle samples store disk pre).disk q1).outcome = .completed →
      (scanPass env oracle samples (scanPass env oracle samples store disk pre).store
        (scanPass env oracle samples store disk pre).disk q1).store.deref k' = some d' →
      d'.DocType = [] →
      k' ∈ (scanPass env oracle samples store disk (pre ++ k :: post)).submitted) ∧
    (∀ (p1 p2 : List Str) (k' : Str) (d' : Document), pre = p1 ++ k' :: p2 →
      (scanPass env oracle samples store disk p1).store.deref k' = some d' →
      d'.DocType = [] →
      k' ∈ (scanPass env oracle samples store disk (pre ++ k :: post)).submitted) ∧
    ((scanPass env oracle samples store disk (pre ++ k :: post)).outcome =
      (scanPass env oracle samples (scanPass env oracle samples store disk pre).store
        (scanPass env oracle samples store disk pre).disk post).outcome) := by
  have h1 := scanPass_cons_error env oracle samples _
    (scanPass env oracle samples store disk pre).disk k [] d e hrec hun herr
  have h2 := scanPass_cons_error env oracle samples _
    (scanPass env oracle samples store disk pre).disk k post d e hrec hun herr
  have h3 : scanPass env oracle samples store disk (pre ++ k :: post) =
      ((scanPass env oracle samples store disk pre).andThen
        ⟨(scanPass env oracle samples store disk pre).store,
          (scanPass env oracle samples store disk pre).disk, [k],
          (classifyDocument env oracle samples d).calls, .completed⟩).andThen
        (scanPass env oracle samples (scanPass env oracle samples store disk pre).store
          (scanPass env oracle samples store disk pre).disk post) := by
    rw [scanPass_append, if_pos hpre, h2, Pass.andThen_assoc]
  have h4 : ∀ k' ∈ (scanPass env oracle samples (scanPass env oracle samples store disk pre).store
      (scanPass env oracle samples store disk pre).disk post).submitted,
      k' ∈ (scanPass env oracle samples store disk (pre ++ k :: post)).submitted := by
    intro k' hk'
    rw [h3]
    simp only [Pass.andThen, List.mem_append]
    exact Or.inr hk'
  refine ⟨?_, h3, ?_, h4, ?_, ?_, ?_⟩
  · rw [h1]
    simp [scanPass, Pass.andThen]
  · rw [h3]
    simp [Pass.andThen]
  · intro q1 q2 k' d' hpost hq hd' hun'
    apply h4
    rw [hpost]
    exact scanPass_reached_submitted env oracle samples _ _ q1 q2 k' d' hq hd' hun'
  · intro p1 p2 k' d' hp hd' hun'
    have hp1 : (scanPass env oracle samples store disk p1).outcome = .completed := by
      apply scanPass_prefix_completed env oracle samples store disk p1 (k' :: p2)
      rw [← hp]
      exact hpre
    have hin : k' ∈ (scanPass env oracle samples store disk pre).submitted := by
      rw [hp]
      exact scanPass_reached_submitted env oracle samples store disk p1 p2 k' d' hp1 hd' hun'
    rw [h3]
    simp only [Pass.andThen, List.mem_append]
    exact Or.inl (Or.inl hin)
  · rw [h3]
    rfl

/-- Witness for C10: two unclassified documents and an oracle that always fails:
both are submitted, the store and the file are unchanged and the pass completes. -/
theorem scanPass_error_isolated_witness :
    scanPass exampleEnv oracleDown [((lit "a"), [sampleA])] twoDocStore emptyDisk
        [(lit "a.pdf"), (lit "b.pdf")] =
      ⟨twoDocStore, emptyDisk, [(lit "a.pdf"), (lit "b.pdf")],
        (classifyDocument exampleEnv oracleDown [((lit "a"), [sampleA])] exampleDoc).calls ++
          (scanPass exampleEnv oracleDown [((lit "a"), [sampleA])] twoDocStore emptyDisk
            [(lit "b.pdf")]).calls,
        .completed⟩ := by
  have h := (scanPass_error_isolated exampleEnv oracleDown [((lit "a"), [sampleA])]
    twoDocStore emptyDisk [] [(lit "b.pdf")] (lit "a.pdf") exampleDoc .oracle rfl rfl rfl
    rfl).2.1
  rw [List.nil_append] at h
  rw [h]
  rfl

/-- C10, counterexample. Three unclassified documents are listed; the oracle
fails for the first and finds no sample similar to the others. The error for
`a.pdf` does not end the pass, but the no-match result for `b.pdf` does: the
pass panics there and `c.pdf`, which is unclassified, is never submitted. -/
theorem scanPass_error_then_no_match :
    (classifyDocument exampleEnv oracleDownForA [(lit "a", [sampleA])] exampleDoc).result =
        .ret (.error .oracle) ∧
    (scanPass exampleEnv oracleDownForA [(lit "a", [sampleA])] threeDocStore emptyDisk
        [lit "a.pdf", lit "b.pdf", lit "c.pdf"]).submitted = [lit "a.pdf", lit "b.pdf"] ∧
    (scanPass exampleEnv oracleDownForA [(lit "a", [sampleA])] threeDocStore emptyDisk
        [lit "a.pdf", lit "b.pdf", lit "c.pdf"]).outcome = .panicked ∧
    (threeDocStore.deref (lit "c.pdf")).map (·.DocType) = some [] :=
  ⟨rfl, rfl, rfl, rfl⟩

/-! ## Loading the samples -/

theorem regGet_regSet_self (k : Str) (v : List Document) :
    ∀ s : Samples, regGet (regSet s k v) k = some v := by
  intro s
  induction s with
  | nil => simp [regSet, regGet]
  | cons e s ih =>
    obtain ⟨l, docs⟩ := e
    by_cases h : l = k
    · simp [regSet, regGet, h]
    · simp [regSet, regGet, h, ih]

theorem regSet_regSet (k : Str) (v w : List Document) :
    ∀ s : Samples, regSet (regSet s k v) k w = regSet s k w := by
  intro s
  induction s with
  | nil => simp [regSet]
  | cons e s ih =>
    obtain ⟨l, docs⟩ := e
    by_cases h : l = k
    · simp [regSet, h]
    · simp [regSet, h, ih]

theorem regSet_same (k : Str) (v : List Document) :
    ∀ s : Samples, regGet s k = some v → regSet s k v = s := by
  intro s
  induction s with
  | nil => intro h; simp [regGet] at h
  | cons e s ih =>
    obtain ⟨l, docs⟩ := e
    intro h
    by_cases hl : l = k
    · simp only [regGet, hl, if_true, Option.some.injEq] at h
      simp [regSet, hl, h]
    · simp only [regGet, hl, if_false] at h
      simp [regSet, hl, ih h]

theorem regSet_absent (k : Str) (v : List Document) :
    ∀ s : Samples, regGet s k = none → regSet s k v = s ++ [(k, v)] := by
  intro s
  induction s with
  | nil => intro _; rfl
  | cons e s ih =>
    obtain ⟨l, docs⟩ := e
    intro h
    by_cases hl : l = k
    · simp [regGet, hl] at h
    · simp only [regGet, hl, if_false] at h
      simp [regSet, hl, ih h]

theorem regGet_append_single (k k' : Str) (v : List Document) (hk : k' ≠ k) :
    ∀ s : Samples, regGet s k = none → regGet (s ++ [(k', v)]) k = none := by
  intro s
  induction s with
  | nil => intro _; simp [regGet, hk]
  | cons e s ih =>
    obtain ⟨l, docs⟩ := e
    intro h
    by_cases hl : l = k
    · simp [regGet, hl] at h
    · simp only [regGet, hl, if_false] at h
      simp [regGet, hl, ih h]

theorem mem_of_regGet (k : Str) (v : List Document) :
    ∀ s : Samples, regGet s k = some v → (k, v) ∈ s := by
  intro s
  induction s with
  | nil => intro h; simp [regGet] at h
  | cons e s ih =>
    obtain ⟨l, docs⟩ := e
    intro h
    by_cases hl : l = k
    · simp only [regGet, hl, if_true, Option.some.injEq] at h
      simp [hl, h]
    · simp only [regGet, hl, if_false] at h
      exact List.mem_cons_of_mem _ (ih h)

/-- When the page renders, `generateSampleImage` leaves the record
`sampleRecord` for the path. -/
theorem generateSampleImage_ok (cfg : Config) (r : Renderer) (label samplePath : Str)
    (h : (generateSampleImage cfg r
      { Document.zero with SourceURL := joinPath cfg.SamplesPath samplePath,
                           PDFPath := joinPath cfg.SamplesPath samplePath,
                           DocType := label }).1 = none) :
    (generateSampleImage cfg r
      { Document.zero with SourceURL := joinPath cfg.SamplesPath samplePath,
                           PDFPath := joinPath cfg.SamplesPath samplePath,
                           DocType := label }).2.1 = sampleRecord cfg label samplePath := by
  unfold generateSampleImage at h ⊢
  simp only [Document.zero] at h ⊢
  cases hr : r.RenderPage (joinPath cfg.SamplesPath samplePath)
      (joinPath cfg.ImagePath
        (replaceAll (base (joinPath cfg.SamplesPath samplePath)) (lit ".pdf") (lit ".png"))) 0 with
  | some err => rw [hr] at h; simp at h
  | none => simp [hr, sampleRecord, outputPath]
theorem loadLabel_ok (cfg : Config) (r : Renderer) (label : Str) :
    ∀ (paths : List Str) (samples : Samples) (docs0 : List Document),
      regGet samples label = some docs0 →
      (loadLabel cfg r label samples paths).err = none →
      (loadLabel cfg r label samples paths).samples =
        regSet samples label (docs0 ++ paths.map (sampleRecord cfg label)) := by
  intro paths
  induction paths with
  | nil =>
    intro samples docs0 hg _
    simp [loadLabel, regSet_same label docs0 samples hg]
  | cons p rest ih =>
    intro samples docs0 hg herr
    cases hgen : (generateSampleImage cfg r
        { Document.zero with SourceURL := joinPath cfg.SamplesPath p,
                             PDFPath := joinPath cfg.SamplesPath p,
                             DocType := label }).1 with
    | some err =>
      simp [loadLabel, hgen] at herr
    | none =>
      have hrec := generateSampleImage_ok cfg r label p hgen
      simp only [loadLabel, hgen, hrec, hg, Option.getD_some] at herr ⊢
      rw [ih _ (docs0 ++ [sampleRecord cfg label p]) (regGet_regSet_self _ _ _) herr,
        regSet_regSet]
      simp

theorem loadEntries_ok (cfg : Config) (r : Renderer) :
    ∀ (entries : List (Str × List Str)) (acc : Samples),
      (entries.map (·.1)).Nodup → (∀ e ∈ entries, regGet acc e.1 = none) →
      (loadEntries cfg r acc entries).err = none →
      (loadEntries cfg r acc entries).samples =
        acc ++ entries.map (fun e => (e.1, e.2.map (sampleRecord cfg e.1))) := by
  intro entries
  induction entries with
  | nil => intro acc _ _ _; simp [loadEntries]
  | cons e rest ih =>
    obtain ⟨label, paths⟩ := e
    intro acc hnd habs herr
    have hlab : regGet acc label = none := habs (label, paths) (List.mem_cons_self _ _)
    have hnd' := List.nodup_cons.1 hnd
    simp only [loadEntries, hlab, if_true] at herr ⊢
    cases hl : (loadLabel cfg r label (regSet acc label []) paths).err with
    | some err => simp [hl] at herr
    | none =>
      have hs := loadLabel_ok cfg r label paths (regSet acc label []) []
        (regGet_regSet_self _ _ _) hl
      rw [regSet_regSet, List.nil_append,
        regSet_absent label (paths.map (sampleRecord cfg label)) acc hlab] at hs
      simp only [hl] at herr ⊢
      rw [hs] at herr ⊢
      rw [ih _ hnd'.2 ?_ herr]
      · simp
      · intro e he
        apply regGet_append_single
        · intro heq
          apply hnd'.1
          show label ∈ List.map (fun x => x.1) rest
          rw [heq]
          exact List.mem_map_of_mem (fun x : Str × List Str => x.1) he
        · exact habs e (List.mem_cons_of_mem _ he)

/-- C12, as amended. Sample registry non-emptiness, for a configuration in which
every label has at least one sample path: starting from the empty registry of a
new processor, whenever `loadSamples` succeeds the registry holds, for each
configured label in turn, the records of its paths in the configured order;
every label present in the registry maps to a non-empty sequence of records,
each with exactly one image path and `Type` equal to the label, and the
sequence is the one of the label's configured paths, so it has a first
element. -/
theorem loadSamples_nonempty (cfg : Config) (r : Renderer)
    (hnd : (cfg.SampleData.map (·.1)).Nodup)
    (hne : ∀ e ∈ cfg.SampleData, e.2 ≠ [])
    (hok : (loadSamples cfg r []).err = none) :
    (loadSamples cfg r []).samples =
        cfg.SampleData.map (fun e => (e.1, e.2.map (sampleRecord cfg e.1))) ∧
    ∀ label docs, regGet (loadSamples cfg r []).samples label = some docs →
      docs ≠ [] ∧
      (∃ first rest, docs = first :: rest) ∧
      (∀ d ∈ docs, d.DocType = label ∧ ∃ p, d.ImagePaths = some [p]) ∧
      ∃ paths, (label, paths) ∈ cfg.SampleData ∧ docs = paths.map (sampleRecord cfg label) := by
  have hs : (loadSamples cfg r []).samples =
      cfg.SampleData.map (fun e => (e.1, e.2.map (sampleRecord cfg e.1))) := by
    have := loadEntries_ok cfg r cfg.SampleData [] hnd (fun _ _ => rfl) hok
    simpa [loadSamples] using this
  refine ⟨hs, ?_⟩
  intro label docs hg
  have hmem := mem_of_regGet label docs _ hg
  rw [hs, List.mem_map] at hmem
  obtain ⟨e, he, heq⟩ := hmem
  obtain ⟨l, paths⟩ := e
  simp only [Prod.mk.injEq] at heq
  obtain ⟨hl, hd⟩ := heq
  subst hl
  have hp : paths ≠ [] := hne (l, paths) he
  have hdne : docs ≠ [] := by
    rw [← hd]
    intro h
    exact hp (List.map_eq_nil_iff.1 h)
  refine ⟨hdne, ?_, ?_, paths, he, hd.symm⟩
  · cases docs with
    | nil => exact absurd rfl hdne
    | cons first rest => exact ⟨first, rest, rfl⟩
  · intro d hdm
    rw [← hd, List.mem_map] at hdm
    obtain ⟨p, _, hpd⟩ := hdm
    subst hpd
    exact ⟨rfl, _, rfl⟩

/-- Witness for C12 as amended: two labels with one sample path each. -/
theorem loadSamples_nonempty_witness :
    regGet (loadSamples exampleConfig onePage []).samples (lit "b") =
        some [sampleRecord exampleConfig (lit "b") (lit "b.pdf")] ∧
    (sampleRecord exampleConfig (lit "b") (lit "b.pdf")).ImagePaths =
        some [lit "img/b.png"] := by
  have h := (loadSamples_nonempty exampleConfig onePage (by decide) (by decide) rfl).1
  rw [h]
  exact ⟨rfl, rfl⟩

/-- C12, counterexample. For a configuration in which the label `a` has no
sample path, `loadSamples` succeeds and the registry holds the label with an
empty sequence; `classifyDocument` then panics at `samples[0]`. -/
theorem loadSamples_empty_label :
    (loadSamples emptyLabelConfig onePage []).err = none ∧
    regGet (loadSamples emptyLabelConfig onePage []).samples (lit "a") = some [] ∧
    (classifyDocument exampleEnv oracleNone (loadSamples emptyLabelConfig onePage []).samples
      exampleDoc).result = .panic :=
  ⟨rfl, rfl, rfl⟩

/-! ## Discovery errors and `Classify` -/

theorem AppendDocument_data (s : Store) (disk : Disk) (id : Str) (d : Option Document)
    (res : Option Err × Store × Disk) (h : s.AppendDocument disk id d = .ret res) :
    ∃ data', res.2.1.data = some data' := by
  unfold Store.AppendDocument at h
  cases hd : s.data with
  | none => rw [hd] at h; cases h
  | some data =>
    rw [hd] at h
    simp only at h
    split at h <;> cases h <;> exact ⟨_, rfl⟩

/-- The walk function leaves an initialised store initialised. -/
theorem walkFn_data (cfg : Config) (r : Renderer) (store : Store) (disk : Disk) (p : Str)
    (l : Loaded) (data : Data) (hdata : store.data = some data)
    (h : walkFn cfg r store disk p = .ret l) : ∃ data', l.store.data = some data' := by
  unfold walkFn at h
  split_ifs at h with he
  · cases h; exact ⟨data, hdata⟩
  · simp only at h
    split at h
    · cases h
    · cases h; exact ⟨data, hdata⟩
    · split at h
      · cases h; exact ⟨data, hdata⟩
      · split at h
        · cases h; exact ⟨data, hdata⟩
        · split at h
          · cases h
          · rename_i hres
            cases h
            exact AppendDocument_data _ _ _ _ _ hres

theorem walk_data (cfg : Config) (r : Renderer) :
    ∀ (ps : List Str) (store : Store) (disk : Disk) (l : Loaded) (data : Data),
      store.data = some data → walk cfg r store disk ps = .ret l →
      ∃ data', l.store.data = some data' := by
  intro ps
  induction ps with
  | nil =>
    intro store disk l data hdata h
    cases h
    exact ⟨data, hdata⟩
  | cons p ps ih =>
    intro store disk l data hdata h
    unfold walk at h
    cases hf : walkFn cfg r store disk p with
    | panic => rw [hf] at h; cases h
    | ret l1 =>
      obtain ⟨data1, hdata1⟩ := walkFn_data cfg r store disk p l1 data hdata hf
      rw [hf] at h
      simp only at h
      cases he : l1.err with
      | some e =>
        rw [he] at h
        cases h
        exact ⟨data1, hdata1⟩
      | none =>
        rw [he] at h
        simp only at h
        cases hw : walk cfg r l1.store l1.disk ps with
        | panic => rw [hw] at h; cases h
        | ret l2 =>
          obtain ⟨data2, hdata2⟩ := ih l1.store l1.disk l2 data1 hdata1 hw
          rw [hw] at h
          cases h
          exact ⟨data2, hdata2⟩

theorem keys_of_data (s : Store) (data : Data) (h : s.data = some data) :
    s.keys = .ret ((data.Documents.getD []).map (·.1)) := by
  simp [Store.keys, h]

theorem pollLoop_succ_passes (env : Env) (oracle : Oracle) (samples : Samples) (rounds : Nat)
    (store : Store) (disk : Disk) (data : Data) (h : store.data = some data) :
    (pollLoop env oracle samples (rounds + 1) store disk).1 ≠ [] := by
  unfold pollLoop
  rw [keys_of_data store data h]
  simp only
  split <;> simp

/-- C11 (the code). When the walk of `loadDocuments` over the visited paths stops
with an error `e` (as it does when `GetPageCount` or `RenderPage` fails for a
file), on an initialised store and after `loadSamples` succeeded:
`loadDocuments` returns what the walk left but with no error, and `Classify`
goes on into its polling loop, where it stands after zero passes and where it
starts a scan pass as soon as one more pass is observed. -/
theorem Classify_drops_discovery_error (cfg : Config) (env : Env) (oracle : Oracle)
    (r : Renderer) (samples : Samples) (store : Store) (disk : Disk) (paths : List Str)
    (l : Loaded) (e : Err) (data : Data)
    (hs : (loadSamples cfg r samples).err = none)
    (hdata : store.data = some data)
    (hwalk : walk cfg r store disk paths = .ret l) (he : l.err = some e) :
    loadDocuments cfg r store disk paths = .ret { l with err := none } ∧
    ({ l with err := none } : Loaded).err ≠ l.err ∧
    (∀ rounds, Classify cfg env oracle r samples store disk paths rounds =
      ⟨loadSamples cfg r samples, some { l with err := none },
        (pollLoop env oracle (loadSamples cfg r samples).samples rounds l.store l.disk).1,
        (pollLoop env oracle (loadSamples cfg r samples).samples rounds l.store l.disk).2⟩) ∧
    (Classify cfg env oracle r samples store disk paths 0).outcome = .polling ∧
    ∀ rounds, (Classify cfg env oracle r samples store disk paths (rounds + 1)).passes ≠ [] := by
  obtain ⟨data', hdata'⟩ := walk_data cfg r paths store disk l data hdata hwalk
  have hload : loadDocuments cfg r store disk paths = .ret { l with err := none } := by
    simp [loadDocuments, hwalk, Store.GetDocumentCount, hdata']
  have hrun : ∀ rounds, Classify cfg env oracle r samples store disk paths rounds =
      ⟨loadSamples cfg r samples, some { l with err := none },
        (pollLoop env oracle (loadSamples cfg r samples).samples rounds l.store l.disk).1,
        (pollLoop env oracle (loadSamples cfg r samples).samples rounds l.store l.disk).2⟩ := by
    intro rounds
    simp only [Classify, hs, hload]
  refine ⟨hload, ?_, hrun, ?_, ?_⟩
  · rw [he]
    exact fun h => Option.noConfusion h
  · rw [hrun 0]
    rfl
  · intro rounds
    rw [hrun (rounds + 1)]
    exact pollLoop_succ_passes env oracle _ rounds l.store l.disk data' hdata'

/-- Witness for C11: `GetPageCount` fails for the first of two files, and
`RenderPage` fails for it: each time the walk stops with the render error, the
second file is not visited, and `Classify` is in its polling loop. -/
theorem Classify_drops_discovery_error_witness :
    (walk exampleConfig noPageCount emptyStore emptyDisk [lit "pdf/a.pdf", lit "pdf/b.pdf"] =
        .ret ⟨some .render, emptyStore, emptyDisk, [], []⟩ ∧
      loadDocuments exampleConfig noPageCount emptyStore emptyDisk
          [lit "pdf/a.pdf", lit "pdf/b.pdf"] =
        .ret ⟨none, emptyStore, emptyDisk, [], []⟩ ∧
      (Classify exampleConfig exampleEnv oracleNone noPageCount [] emptyStore emptyDisk
        [lit "pdf/a.pdf", lit "pdf/b.pdf"] 0).outcome = .polling) ∧
    (walk exampleConfig noRenderPage emptyStore emptyDisk [lit "pdf/a.pdf", lit "pdf/b.pdf"] =
        .ret ⟨some .render, emptyStore, emptyDisk,
          [(lit "pdf/a.pdf", lit "img/a.png", 0)], []⟩ ∧
      (Classify exampleConfig exampleEnv oracleNone noRenderPage [] emptyStore emptyDisk
        [lit "pdf/a.pdf", lit "pdf/b.pdf"] 0).outcome = .polling) := by
  have h1 := Classify_drops_discovery_error exampleConfig exampleEnv oracleNone noPageCount []
    emptyStore emptyDisk [lit "pdf/a.pdf", lit "pdf/b.pdf"]
    ⟨some .render, emptyStore, emptyDisk, [], []⟩ .render ⟨none⟩ rfl rfl rfl rfl
  have h2 := Classify_drops_discovery_error exampleConfig exampleEnv oracleNone noRenderPage []
    emptyStore emptyDisk [lit "pdf/a.pdf", lit "pdf/b.pdf"]
    ⟨some .render, emptyStore, emptyDisk, [(lit "pdf/a.pdf", lit "img/a.png", 0)], []⟩
    .render ⟨none⟩ rfl rfl rfl rfl
  exact ⟨⟨rfl, h1.1, h1.2.2.2.1⟩, rfl, h2.2.2.2.1⟩

/-! ## The scan pass on a no-match result -/

/-- C13 (the code). In one scan pass over the listing `pre ++ k :: post`: if the
pass reaches the document `d` listed under `k` (the part over `pre` completes),
`d` is unclassified and `classifyDocument` returns "no match" for it (no
verdict, no error), then the pass reads `Label` through the nil verdict and
panics there: the pass ends as panicked with the store and the snapshot file as
they were on reaching `d` (its `Type` is still empty), `d` is the last document
submitted, and no document of `post` is handled. -/
theorem scanPass_no_match_panics (env : Env) (oracle : Oracle) (samples : Samples)
    (store : Store) (disk : Disk) (pre post : List Str) (k : Str) (d : Document)
    (hpre : (scanPass env oracle samples store disk pre).outcome = .completed)
    (hrec : (scanPass env oracle samples store disk pre).store.deref k = some d)
    (hun : d.DocType = [])
    (hnm : (classifyDocument env oracle samples d).result = .ret (.ok none)) :
    scanPass env oracle samples store disk (pre ++ k :: post) =
      ⟨(scanPass env oracle samples store disk pre).store,
        (scanPass env oracle samples store disk pre).disk,
        (scanPass env oracle samples store disk pre).submitted ++ [k],
        (scanPass env oracle samples store disk pre).calls ++
          (classifyDocument env oracle samples d).calls,
        .panicked⟩ ∧
    (scanPass env oracle samples store disk (pre ++ k :: post)).outcome = .panicked ∧
    (scanPass env oracle samples store disk (pre ++ k :: post)).store.deref k = some d ∧
    scanPass env oracle samples store disk (pre ++ k :: post) =
      scanPass env oracle samples store disk (pre ++ [k]) := by
  have h : ∀ rest, scanPass env oracle samples store disk (pre ++ k :: rest) =
      ⟨(scanPass env oracle samples store disk pre).store,
        (scanPass env oracle samples store disk pre).disk,
        (scanPass env oracle samples store disk pre).submitted ++ [k],
        (scanPass env oracle samples store disk pre).calls ++
          (classifyDocument env oracle samples d).calls,
        .panicked⟩ := by
    intro rest
    rw [scanPass_append, if_pos hpre,
      scanPass_cons_no_match env oracle samples _ _ k rest d hrec hun hnm]
    rfl
  refine ⟨h post, ?_, ?_, ?_⟩
  · rw [h post]
  · rw [h post]
    exact hrec
  · rw [h post, h []]

/-- Witness for C13: two unclassified documents and an oracle that finds no
sample similar: the pass panics at the first, the second is not submitted. -/
theorem scanPass_no_match_panics_witness :
    scanPass exampleEnv oracleNone [(lit "a", [sampleA])] twoDocStore emptyDisk
        [lit "a.pdf", lit "b.pdf"] =
      ⟨twoDocStore, emptyDisk, [lit "a.pdf"],
        (classifyDocument exampleEnv oracleNone [(lit "a", [sampleA])] exampleDoc).calls,
        .panicked⟩ ∧
    (Classify exampleConfig exampleEnv oracleNone onePage [] twoDocStore emptyDisk [] 1).outcome =
      .panicked := by
  have h := (scanPass_no_match_panics exampleEnv oracleNone [(lit "a", [sampleA])]
    twoDocStore emptyDisk [] [lit "b.pdf"] (lit "a.pdf") exampleDoc rfl rfl rfl rfl).1
  rw [List.nil_append] at h
  rw [h]
  exact ⟨rfl, rfl⟩

end Congreso
